import Mathlib

/-!
# ED060SC4 E-ink panel driver: block-buffer framebuffer emulation

A shallow embedding of `gdisp_lld.c`.  The driver's globals (`g_next_block`,
`g_blocks`, `g_blockmap`, `GDISP`) are gathered in `State`; every call to a
board primitive (`setpin_*`, `setpower_*`, `setpins_data`, `eink_delay`,
`gfxSleep*`, `init_board`) is recorded as an `Event`, so a C function that
drives the panel is a function to `List Event`, and a C function that also
changes the globals returns the new `State` as well.

Conventions.
* `uint8_t` and `unsigned` values are `Nat`; every C assignment that may
  truncate is written with an explicit `% 256` or `% 2 ^ 32`.
* `coord_t` is a signed integer (`Int`); C `/` and `%` are `Int.tdiv` and
  `Int.tmod`.
* Arrays are total functions of their indices.  Entries beyond the declared
  extents stand for whatever lies behind the array; the code only reads them
  when a block-map entry names a slot past the pool.  The one store whose
  index is computed from caller data, the read-modify-write of
  `gdisp_lld_draw_pixel`, is bounds checked and reports a `Fault`.
* A C `for (i = 0; i < n; i++)` loop is a fold (or `flatMap`) over
  `List.range n`.
-/

namespace ED060SC4

/-! ## Default configuration -/

def GDISP_SCREEN_HEIGHT : Nat := 600
def GDISP_SCREEN_WIDTH : Nat := 800
def EINK_PPB : Nat := 4
def EINK_CLOCKDELAY : Nat := 0
def EINK_BLOCKWIDTH : Nat := 20
def EINK_BLOCKHEIGHT : Nat := 20
def EINK_NUMBUFFERS : Nat := 40
def EINK_BLINKCLEAR : Bool := true
def EINK_CLEARCOUNT : Nat := 10
def EINK_WRITECOUNT : Nat := 4

def PIXELMASK : Nat := 3
def PIXEL_WHITE : Nat := 2
def PIXEL_BLACK : Nat := 1
def BYTE_WHITE : Nat := 0xAA
def BYTE_BLACK : Nat := 0x55

def BLOCKS_Y : Nat := GDISP_SCREEN_HEIGHT / EINK_BLOCKHEIGHT
def BLOCKS_X : Nat := GDISP_SCREEN_WIDTH / EINK_BLOCKWIDTH
def WIDTH_BYTES : Nat := EINK_BLOCKWIDTH / EINK_PPB

/-! ## Board interface and host framework declarations -/

/-- One call of a board primitive of `gdisp_lld_board.h`, or of a sleep
function of the host framework. -/
inductive Event where
  | init_board
  | eink_delay (us : Nat)
  | setpower_vdd (level : Bool)
  | setpower_vneg (level : Bool)
  | setpower_vpos (level : Bool)
  | setpin_le (level : Bool)
  | setpin_oe (level : Bool)
  | setpin_cl (level : Bool)
  | setpin_sph (level : Bool)
  | setpins_data (value : Nat)
  | setpin_ckv (level : Bool)
  | setpin_gmode (level : Bool)
  | setpin_spv (level : Bool)
  | gfxSleepMicroseconds (us : Nat)
  | gfxSleepMilliseconds (ms : Nat)
  deriving DecidableEq, Repr

/-- Modelled from the spec: the power modes of the host framework (`gfx.h`,
not part of the repository): on, off and the sleep variants. -/
inductive gdisp_powermode_t where
  | powerOff
  | powerSleep
  | powerDeepSleep
  | powerOn
  deriving DecidableEq, Repr

/-- Modelled from the spec: the control command codes of the host framework
(`gfx.h`, not part of the repository).  Only their being distinct matters. -/
def GDISP_CONTROL_POWER : Nat := 0

/-- Modelled from the spec: first command code left to the low-level driver. -/
def GDISP_CONTROL_LLD : Nat := 1000

def GDISP_CONTROL_FLUSH : Nat := GDISP_CONTROL_LLD + 0

/-- Modelled from the spec: orientation code `GDISP_ROTATE_0` of the host
framework. -/
def GDISP_ROTATE_0 : Nat := 0

/-- The fields of the host framework's global `GDISP` structure that the
driver writes. -/
structure GDISPDriver where
  Width : Nat
  Height : Nat
  Orientation : Nat
  Powermode : gdisp_powermode_t
  Backlight : Nat
  Contrast : Nat
  deriving DecidableEq

/-- The driver's global variables.  `g_blocks slot dy dx` is
`g_blocks[slot].data[dy][dx]`, `g_blockmap by bx` is `g_blockmap[by][bx]`. -/
structure State where
  g_next_block : Nat
  g_blocks : Nat → Nat → Nat → Nat
  g_blockmap : Nat → Nat → Nat
  GDISP : GDISPDriver

/-- Array store `a[i][j] = v`. -/
def set2 (a : Nat → Nat → Nat) (i j v : Nat) : Nat → Nat → Nat :=
  fun i2 j2 => if i2 = i ∧ j2 = j then v else a i2 j2

/-- Array store `a[i].data[j][k] = v`. -/
def set3 (a : Nat → Nat → Nat → Nat) (i j k v : Nat) : Nat → Nat → Nat → Nat :=
  fun i2 j2 k2 => if i2 = i ∧ j2 = j ∧ k2 = k then v else a i2 j2 k2

/-- Conversion of a signed value to `unsigned` (32 bits). -/
def toUnsigned (v : Int) : Nat := (v % 4294967296).toNat

/-! ## Lower level driver functions -/

/-- With `EINK_CLOCKDELAY = 0` no `nop` is compiled in. -/
def clockdelay : List Event := []

def vclock_quick : List Event :=
  [Event.setpin_ckv true, Event.eink_delay 1, Event.setpin_ckv false, Event.eink_delay 4]

def hclock : List Event :=
  clockdelay ++ [Event.setpin_cl true] ++ clockdelay ++ [Event.setpin_cl false]

def vscan_start : List Event :=
  [Event.setpin_gmode true] ++ vclock_quick ++ [Event.setpin_spv false] ++ vclock_quick
    ++ [Event.setpin_spv true] ++ vclock_quick

def vscan_write : List Event :=
  [Event.setpin_ckv true, Event.setpin_oe true, Event.eink_delay 5, Event.setpin_oe false,
   Event.setpin_ckv false, Event.eink_delay 200]

def vscan_bulkwrite : List Event :=
  [Event.setpin_ckv true, Event.eink_delay 20, Event.setpin_ckv false, Event.eink_delay 200]

def vscan_skip : List Event :=
  [Event.setpin_ckv true, Event.eink_delay 1, Event.setpin_ckv false, Event.eink_delay 100]

def vscan_stop : List Event :=
  [Event.setpin_gmode false] ++ vclock_quick ++ vclock_quick ++ vclock_quick ++ vclock_quick
    ++ vclock_quick

def hscan_start : List Event :=
  [Event.setpin_le false, Event.setpin_oe false, Event.setpin_sph false]

/-- The pointer `data` is the function from offset to byte; `count` bytes are
clocked out. -/
def hscan_write (data : Nat → Nat) (count : Nat) : List Event :=
  (List.range count).flatMap fun i => [Event.setpins_data (data i)] ++ hclock

def hscan_stop : List Event :=
  [Event.setpin_sph true] ++ hclock ++ [Event.setpin_le true] ++ clockdelay
    ++ [Event.setpin_le false]

def power_on : List Event :=
  [Event.setpower_vdd true, Event.setpin_le false, Event.setpin_oe false, Event.setpin_cl false,
   Event.setpin_sph true, Event.setpins_data 0, Event.setpin_ckv false, Event.setpin_gmode false,
   Event.setpin_spv true,
   Event.gfxSleepMicroseconds 100,
   Event.setpower_vneg true,
   Event.gfxSleepMicroseconds 1000,
   Event.setpower_vpos true]
  ++ vscan_start
  ++ ((List.range GDISP_SCREEN_HEIGHT).flatMap fun _ => vclock_quick)
  ++ vscan_stop

def power_off : List Event :=
  [Event.setpower_vpos false, Event.setpower_vneg false,
   Event.gfxSleepMilliseconds 100,
   Event.setpin_le false, Event.setpin_oe false, Event.setpin_cl false, Event.setpin_sph false,
   Event.setpins_data 0, Event.setpin_ckv false, Event.setpin_gmode false, Event.setpin_spv false,
   Event.setpower_vdd false]

/-! ## Framebuffer emulation layer -/

/-- Check if the row contains any allocated blocks (the loop returns at the
first non-zero entry). -/
def blocks_on_row (s : State) (by_ : Nat) : Bool :=
  (List.range BLOCKS_X).any fun bx => s.g_blockmap by_ bx != 0

def write_block_row (s : State) (by_ : Nat) : List Event :=
  (List.range EINK_BLOCKHEIGHT).flatMap fun dy =>
    hscan_start
    ++ ((List.range BLOCKS_X).flatMap fun bx =>
          if s.g_blockmap by_ bx = 0 then
            (List.range WIDTH_BYTES).flatMap fun _ => hscan_write (fun _ => 0) 1
          else
            hscan_write (fun i => s.g_blocks (s.g_blockmap by_ bx - 1) dy (0 + i)) WIDTH_BYTES)
    ++ hscan_stop
    ++ vscan_write

def clear_block_map (s : State) : State :=
  let s1 := (List.range BLOCKS_Y).foldl
    (fun s by_ => (List.range BLOCKS_X).foldl
      (fun s bx => { s with g_blockmap := set2 s.g_blockmap by_ bx 0 }) s) s
  { s1 with g_next_block := 0 }

/-- The events of `flush_buffers`; the block map is only read while they are
produced. -/
def flush_events (s : State) : List Event :=
  (List.range EINK_WRITECOUNT).flatMap fun _ =>
    vscan_start
    ++ ((List.range BLOCKS_Y).flatMap fun by_ =>
          if !blocks_on_row s by_ then
            (List.range EINK_BLOCKHEIGHT).flatMap fun _ => vscan_skip
          else
            write_block_row s by_)
    ++ vscan_stop

def flush_buffers (s : State) : State × List Event :=
  (clear_block_map s, flush_events s)

def zero_block (s : State) (block : Nat) : State :=
  (List.range EINK_BLOCKHEIGHT).foldl
    (fun s dy => (List.range WIDTH_BYTES).foldl
      (fun s dx => { s with g_blocks := set3 s.g_blocks block dy dx 0 }) s) s

/-- Result of `alloc_buffer`: the globals, the events of the flush it may have
run, and the returned pointer as an index into `g_blocks`. -/
structure Alloc where
  state : State
  events : List Event
  result : Nat

/-- The statement `if (g_next_block >= EINK_NUMBUFFERS) flush_buffers();` of
`alloc_buffer`: the globals and the events right after it. -/
def alloc_buffer_flush (s : State) : State × List Event :=
  if s.g_next_block ≥ EINK_NUMBUFFERS then flush_buffers s else (s, [])

def alloc_buffer (s : State) (bx by_ : Nat) : Alloc :=
  if s.g_blockmap by_ bx = 0 then
    let f := alloc_buffer_flush s
    let s1 := f.1
    let result := s1.g_next_block
    let s2 := { s1 with g_blockmap := set2 s1.g_blockmap by_ bx ((s1.g_next_block + 1) % 256) }
    let s3 := { s2 with g_next_block := (s2.g_next_block + 1) % 256 }
    ⟨zero_block s3 result, f.2, result⟩
  else
    ⟨s, [], s.g_blockmap by_ bx - 1⟩

/-! ## Public functions -/

def gdisp_lld_init (s : State) : State × List Event :=
  let s1 := clear_block_map s
  ({ s1 with GDISP :=
      { Width := GDISP_SCREEN_WIDTH, Height := GDISP_SCREEN_HEIGHT,
        Orientation := GDISP_ROTATE_0, Powermode := gdisp_powermode_t.powerOff,
        Backlight := 0, Contrast := 0 } },
   [Event.init_board] ++ power_off)

/-- An access `g_blocks[slot].data[row][col]` that lies outside the pool or
outside the block's `data[EINK_BLOCKHEIGHT][WIDTH_BYTES]`, together with the
globals and the events at the moment it is attempted. -/
structure Fault where
  state : State
  events : List Event
  slot : Nat
  row : Nat
  col : Nat

def gdisp_lld_draw_pixel (s : State) (x y : Int) (color : Nat) :
    Except Fault (State × List Event) :=
  let bx := toUnsigned (Int.tdiv x EINK_BLOCKWIDTH)
  let by_ := toUnsigned (Int.tdiv y EINK_BLOCKHEIGHT)
  let dx := toUnsigned (Int.tmod x EINK_BLOCKWIDTH)
  let dy := toUnsigned (Int.tmod y EINK_BLOCKHEIGHT)
  if bx < 0 ∨ bx ≥ BLOCKS_X ∨ by_ < 0 ∨ by_ ≥ BLOCKS_Y then
    Except.ok (s, [])
  else
    let a := alloc_buffer s bx by_
    let block := a.result
    let bitpos := (6 - 2 * (dx % EINK_PPB)) % 256
    if block < EINK_NUMBUFFERS ∧ dy < EINK_BLOCKHEIGHT ∧ dx / EINK_PPB < WIDTH_BYTES then
      let byte := a.state.g_blocks block dy (dx / EINK_PPB)
      let byte := (byte &&& (0xFFFFFFFF ^^^ (PIXELMASK <<< bitpos))) % 256
      let byte :=
        if color ≠ 0 then (byte ||| (PIXEL_WHITE <<< bitpos)) % 256
        else (byte ||| (PIXEL_BLACK <<< bitpos)) % 256
      Except.ok ({ a.state with g_blocks := set3 a.state.g_blocks block dy (dx / EINK_PPB) byte },
        a.events)
    else
      Except.error ⟨a.state, a.events, block, dy, dx / EINK_PPB⟩

def gdisp_lld_control (s : State) (what : Nat) (value : gdisp_powermode_t) :
    State × List Event :=
  if what = GDISP_CONTROL_POWER then
    let newmode := value
    if s.GDISP.Powermode = newmode then
      (s, [])
    else
      let r := if newmode = gdisp_powermode_t.powerOn then (s, power_on)
               else ((flush_buffers s).1, (flush_buffers s).2 ++ power_off)
      ({ r.1 with GDISP := { r.1.GDISP with Powermode := newmode } }, r.2)
  else if what = GDISP_CONTROL_FLUSH then
    flush_buffers s
  else
    (s, [])

/-! ## Accelerated routines -/

def subclear (color : Nat) : List Event :=
  let byte := if color ≠ 0 then BYTE_WHITE else BYTE_BLACK
  hscan_start
  ++ ((List.range GDISP_SCREEN_WIDTH).flatMap fun _ => hscan_write (fun _ => byte) 1)
  ++ hscan_stop
  ++ [Event.setpin_oe true]
  ++ vscan_start
  ++ ((List.range GDISP_SCREEN_HEIGHT).flatMap fun _ => vscan_bulkwrite)
  ++ vscan_stop
  ++ [Event.setpin_oe false]

/-- C logical negation `!color`. -/
def lnot (color : Nat) : Nat := if color = 0 then 1 else 0

def gdisp_lld_clear (s : State) (color : Nat) : State × List Event :=
  (clear_block_map s,
   (if EINK_BLINKCLEAR then subclear (lnot color) ++ [Event.gfxSleepMilliseconds 50] else [])
   ++ ((List.range EINK_CLEARCOUNT).flatMap fun _ =>
        subclear color ++ [Event.gfxSleepMilliseconds 10]))

/-! ## Specification vocabulary -/

/-- The 2-bit field of `byte` at bit position `pos`. -/
def field (byte pos : Nat) : Nat := (byte >>> pos) &&& 3

/-- Pixel code stored for a colour: white for non-zero, black for zero. -/
def code (color : Nat) : Nat := if color ≠ 0 then PIXEL_WHITE else PIXEL_BLACK

/-- The byte that `gdisp_lld_draw_pixel` stores when it has read `byte`: the
field at `bitpos` is cleared and set to the code of `color`. -/
def stored_byte (byte bitpos color : Nat) : Nat :=
  if color ≠ 0 then
    ((byte &&& (0xFFFFFFFF ^^^ (PIXELMASK <<< bitpos))) % 256 ||| (PIXEL_WHITE <<< bitpos)) % 256
  else
    ((byte &&& (0xFFFFFFFF ^^^ (PIXELMASK <<< bitpos))) % 256 ||| (PIXEL_BLACK <<< bitpos)) % 256

/-- Bit position of the pixel in in-tile column `dx`. -/
def bitpos_of (dx : Nat) : Nat := 6 - 2 * (dx % EINK_PPB)

/-- Static storage at program start: every global is zero. -/
def zero_state : State :=
  { g_next_block := 0, g_blocks := fun _ _ _ => 0, g_blockmap := fun _ _ => 0,
    GDISP := { Width := 0, Height := 0, Orientation := 0,
               Powermode := gdisp_powermode_t.powerOff, Backlight := 0, Contrast := 0 } }

/-- A cache whose pool is exhausted: the `BLOCKS_X = EINK_NUMBUFFERS` tiles of
grid row 0 are resident, tile `(bx, 0)` in slot `bx`, every block holding
`0x80` in each byte; the panel is powered on. -/
def full_state : State :=
  { g_next_block := 40,
    g_blocks := fun slot _ _ => if slot < 40 then 0x80 else 0,
    g_blockmap := fun by_ bx => if by_ = 0 ∧ bx < 40 then bx + 1 else 0,
    GDISP := { Width := GDISP_SCREEN_WIDTH, Height := GDISP_SCREEN_HEIGHT,
               Orientation := GDISP_ROTATE_0,
               Powermode := gdisp_powermode_t.powerOn, Backlight := 0, Contrast := 0 } }

/-- A sequence of `gdisp_lld_draw_pixel` calls, each `(x, y, color)`; the
events of the calls are concatenated, and a fault ends the sequence. -/
def draw_pixels (s : State) : List (Nat × Nat × Nat) → Except Fault (State × List Event)
  | [] => Except.ok (s, [])
  | p :: rest =>
    match gdisp_lld_draw_pixel s p.1 p.2.1 p.2.2 with
    | Except.error f => Except.error f
    | Except.ok r1 =>
      match draw_pixels r1.1 rest with
      | Except.error f => Except.error f
      | Except.ok r2 => Except.ok (r2.1, r1.2 ++ r2.2)

/-- The writes to the four pixels that share packed byte `k` of line `dy` of
tile `(bx, by_)`: pixel `i` of the byte gets colour `c i`, and the pixels are
written in the order listed in `order`. -/
def byte_writes (bx by_ dy k : Nat) (c : Nat → Nat) (order : List Nat) :
    List (Nat × Nat × Nat) :=
  order.map fun i => (bx * EINK_BLOCKWIDTH + 4 * k + i, by_ * EINK_BLOCKHEIGHT + dy, c i)

/-- The tile `(x / EINK_BLOCKWIDTH, y / EINK_BLOCKHEIGHT)` of a write. -/
def tile_of (p : Nat × Nat × Nat) : Nat × Nat :=
  (p.1 / EINK_BLOCKWIDTH, p.2.1 / EINK_BLOCKHEIGHT)

/-- The distinct tiles a sequence of writes touches. -/
def tiles_touched (ps : List (Nat × Nat × Nat)) : Finset (Nat × Nat) :=
  (ps.map tile_of).toFinset

/-- The events that switch a power rail. -/
def is_power_event : Event → Bool
  | Event.setpower_vdd _ => true
  | Event.setpower_vneg _ => true
  | Event.setpower_vpos _ => true
  | _ => false

/-- The cache holds exactly the tiles of `T`: the cursor counts them, a tile of
the grid is resident exactly when it is in `T`, and every entry names a slot
of the pool. -/
def Tracks (s : State) (T : Finset (Nat × Nat)) : Prop :=
  s.g_next_block = T.card ∧
  (∀ by_ < BLOCKS_Y, ∀ bx < BLOCKS_X, (s.g_blockmap by_ bx ≠ 0 ↔ (bx, by_) ∈ T)) ∧
  (∀ by_ < BLOCKS_Y, ∀ bx < BLOCKS_X, s.g_blockmap by_ bx ≤ EINK_NUMBUFFERS)

/-- One white pixel in each of the `BLOCKS_X = EINK_NUMBUFFERS` tiles of grid
row 0. -/
def row0_writes : List (Nat × Nat × Nat) :=
  (List.range 40).map fun i => (EINK_BLOCKWIDTH * i, 0, 1)

/-- Every tile of the grid is unallocated and the allocation cursor is zero. -/
def CacheEmpty (s : State) : Prop :=
  (∀ by_ < BLOCKS_Y, ∀ bx < BLOCKS_X, s.g_blockmap by_ bx = 0) ∧ s.g_next_block = 0

instance (s : State) : Decidable (CacheEmpty s) := by
  unfold CacheEmpty; infer_instance

/-- No other tile of the grid has the block-map entry of the resident tile
`(bx, by_)`. -/
def SlotUnshared (s : State) (by_ bx : Nat) : Prop :=
  ∀ by2 < BLOCKS_Y, ∀ bx2 < BLOCKS_X,
    s.g_blockmap by_ bx ≠ 0 → s.g_blockmap by_ bx = s.g_blockmap by2 bx2 →
      by_ = by2 ∧ bx = bx2

instance (s : State) (by_ bx : Nat) : Decidable (SlotUnshared s by_ bx) := by
  unfold SlotUnshared; infer_instance

/-- The cache invariant: the cursor is within the pool, and the non-zero
block-map entries are exactly the values `1 .. g_next_block`, each occurring
once. -/
def CacheInv (s : State) : Prop :=
  s.g_next_block ≤ EINK_NUMBUFFERS ∧
  (∀ by_ < BLOCKS_Y, ∀ bx < BLOCKS_X, s.g_blockmap by_ bx ≤ s.g_next_block) ∧
  (∀ k < s.g_next_block, ∃ by_ < BLOCKS_Y, ∃ bx < BLOCKS_X, s.g_blockmap by_ bx = k + 1) ∧
  (∀ by_ < BLOCKS_Y, ∀ bx < BLOCKS_X, SlotUnshared s by_ bx)

instance (s : State) : Decidable (CacheInv s) := by
  unfold CacheInv; infer_instance

/-! ## Trace vocabulary -/

/-- The values put on the data bus, in order. -/
def data_bytes (tr : List Event) : List Nat :=
  tr.filterMap fun e =>
    match e with
    | Event.setpins_data v => some v
    | _ => none

/-- The events that clock `bytes` into the source driver: each byte is set on
the data pins and followed by one CL pulse. -/
def shift_out (bytes : List Nat) : List Event :=
  bytes.flatMap fun b => [Event.setpins_data b, Event.setpin_cl true, Event.setpin_cl false]

/-- The waveform `w` repeated `n` times. -/
def repeat_wave (n : Nat) (w : List Event) : List Event := (List.replicate n w).flatten

/-- No tile of the grid is resident. -/
def NoResident (s : State) : Prop :=
  ∀ by_ < BLOCKS_Y, ∀ bx < BLOCKS_X, s.g_blockmap by_ bx = 0

instance (s : State) : Decidable (NoResident s) := by
  unfold NoResident; infer_instance

/-- The events that set the output-enable pin. -/
def is_oe_event : Event → Bool
  | Event.setpin_oe _ => true
  | _ => false

/-- Some tile of grid row `by_` is resident. -/
def RowResident (s : State) (by_ : Nat) : Prop :=
  ∃ bx < BLOCKS_X, s.g_blockmap by_ bx ≠ 0

instance (s : State) (by_ : Nat) : Decidable (RowResident s by_) := by
  unfold RowResident; infer_instance

/-- The bytes of pixel line `dy` that belong to tile column `bx` of grid row
`by_`: the tile's `data[dy][0 .. WIDTH_BYTES-1]` in order when the tile is
resident, `WIDTH_BYTES` zero bytes when it is not. -/
def tile_line_bytes (s : State) (by_ bx dy : Nat) : List Nat :=
  if s.g_blockmap by_ bx = 0 then List.replicate WIDTH_BYTES 0
  else (List.range WIDTH_BYTES).map fun i => s.g_blocks (s.g_blockmap by_ bx - 1) dy i

/-- The bytes of pixel line `dy` of grid row `by_`, tile column by tile column
from left to right. -/
def line_bytes (s : State) (by_ dy : Nat) : List Nat :=
  (List.range BLOCKS_X).flatMap fun bx => tile_line_bytes s by_ bx dy

/-- The horizontal scan of pixel line `dy` of grid row `by_`: `hscan_start`,
the bytes of the line, `hscan_stop`. -/
def shift_line (s : State) (by_ dy : Nat) : List Event :=
  hscan_start ++ shift_out (line_bytes s by_ dy) ++ hscan_stop

/-- What a scan pass does on panel row `r`: it writes the row (horizontal
scan, then one `vscan_write`) when some tile of its grid row is resident, and
skips it with one `vscan_skip` otherwise. -/
def scan_row (s : State) (r : Nat) : List Event :=
  if RowResident s (r / EINK_BLOCKHEIGHT) then
    shift_line s (r / EINK_BLOCKHEIGHT) (r % EINK_BLOCKHEIGHT) ++ vscan_write
  else vscan_skip

/-- One scan pass as the specification describes it: `vscan_start`, every
panel row from top to bottom written or skipped, `vscan_stop`. -/
def scan_pass (s : State) : List Event :=
  vscan_start ++ ((List.range GDISP_SCREEN_HEIGHT).flatMap fun r => scan_row s r) ++ vscan_stop

/-- The events that drive the gate clock CKV. -/
def is_ckv_event : Event → Bool
  | Event.setpin_ckv _ => true
  | _ => false

/-- The events that put a byte on the data bus. -/
def is_data_event : Event → Bool
  | Event.setpins_data _ => true
  | _ => false

/-- The calibrated waveform delays. -/
def is_delay_event : Event → Bool
  | Event.eink_delay _ => true
  | _ => false

/-- A small cache: only tile `(0, 0)` is resident, in slot 0, its block
holding `0x40` in every byte. -/
def single_state : State :=
  { g_next_block := 1,
    g_blocks := fun slot _ _ => if slot = 0 then 0x40 else 0,
    g_blockmap := fun by_ bx => if by_ = 0 ∧ bx = 0 then 1 else 0,
    GDISP := { Width := GDISP_SCREEN_WIDTH, Height := GDISP_SCREEN_HEIGHT,
               Orientation := GDISP_ROTATE_0,
               Powermode := gdisp_powermode_t.powerOn, Backlight := 0, Contrast := 0 } }

/-- The most recently set levels of the output-enable and latch-enable pins. -/
structure Pins where
  oe : Bool
  le : Bool
  deriving DecidableEq, Repr

/-- The pin levels after one more event. -/
def pins_after (p : Pins) (e : Event) : Pins :=
  match e with
  | Event.setpin_oe b => { p with oe := b }
  | Event.setpin_le b => { p with le := b }
  | _ => p

/-- The pin levels after a list of events. -/
def pins_at_end (p : Pins) (tr : List Event) : Pins := tr.foldl pins_after p

/-- The events of a data-shift step: a byte set on the data pins, and the
edges of the CL clock pulse. -/
def is_shift_event : Event → Bool
  | Event.setpins_data _ => true
  | Event.setpin_cl _ => true
  | _ => false

/-- The events that set the output-enable or the latch-enable pin. -/
def is_oe_le_event : Event → Bool
  | Event.setpin_oe _ => true
  | Event.setpin_le _ => true
  | _ => false

/-- Starting with pin levels `p`, at every data-shift event of `tr` the most
recently set levels of OE and LE are both low. -/
def shift_safe : Pins → List Event → Bool
  | _, [] => true
  | p, e :: rest =>
    (if is_shift_event e then !p.oe && !p.le else true) && shift_safe (pins_after p e) rest

/-- Both pins low. -/
def pins_low : Pins := { oe := false, le := false }

/-- From low pins, `tr` shifts safely and leaves the pins low. -/
def SafeFromLow (tr : List Event) : Prop :=
  shift_safe pins_low tr = true ∧ pins_at_end pins_low tr = pins_low

/-- From any pin levels, `tr` shifts safely and leaves the pins as they were
or low. -/
def SafeAlways (tr : List Event) : Prop :=
  ∀ p, shift_safe p tr = true ∧ (pins_at_end p tr = p ∨ pins_at_end p tr = pins_low)

/-! ## Public operations and the virtual framebuffer -/

/-- A call of one of the public operations after `gdisp_lld_init`. -/
inductive Op where
  | draw_pixel (x y color : Nat)
  | control (what : Nat) (value : gdisp_powermode_t)
  | clear (color : Nat)

/-- The globals after one public operation. -/
def apply_op (s : State) : Op → Except Fault State
  | Op.draw_pixel x y color =>
    match gdisp_lld_draw_pixel s x y color with
    | Except.error f => Except.error f
    | Except.ok r => Except.ok r.1
  | Op.control what value => Except.ok (gdisp_lld_control s what value).1
  | Op.clear color => Except.ok (gdisp_lld_clear s color).1

/-- The globals after a sequence of public operations. -/
def run_ops (s : State) : List Op → Except Fault State
  | [] => Except.ok s
  | op :: rest =>
    match apply_op s op with
    | Except.error f => Except.error f
    | Except.ok s1 => run_ops s1 rest

/-- A `draw_pixel` operation addresses a pixel of the panel; the other
operations are unrestricted. -/
def op_in_panel : Op → Prop
  | Op.draw_pixel x y _ => x < GDISP_SCREEN_WIDTH ∧ y < GDISP_SCREEN_HEIGHT
  | _ => True

/-- The number of non-zero entries of the block map. -/
def resident_count (s : State) : Nat :=
  ((Finset.range BLOCKS_Y ×ˢ Finset.range BLOCKS_X).filter
    fun p => s.g_blockmap p.1 p.2 ≠ 0).card

/-- The virtual pixel at `(x, y)`: 0 when its tile is unallocated, otherwise
the 2-bit field of the pixel in the tile's block. -/
def virtual_pixel (s : State) (x y : Nat) : Nat :=
  if s.g_blockmap (y / EINK_BLOCKHEIGHT) (x / EINK_BLOCKWIDTH) = 0 then 0
  else
    field
      (s.g_blocks (s.g_blockmap (y / EINK_BLOCKHEIGHT) (x / EINK_BLOCKWIDTH) - 1)
        (y % EINK_BLOCKHEIGHT) (x % EINK_BLOCKWIDTH / EINK_PPB))
      (6 - 2 * (x % EINK_BLOCKWIDTH % EINK_PPB))

/-- The colour of the last write to `(x, y)` in a sequence of writes, if there
is one. -/
def last_write : List (Nat × Nat × Nat) → Nat → Nat → Option Nat
  | [], _, _ => none
  | p :: rest, x, y =>
    match last_write rest x y with
    | some c => some c
    | none => if p.1 = x ∧ p.2.1 = y then some p.2.2 else none

/-- The framebuffer the specification describes: the code of the last write to
`(x, y)`, and 0 if `(x, y)` was never written. -/
def spec_pixel (ps : List (Nat × Nat × Nat)) (x y : Nat) : Nat :=
  match last_write ps x y with
  | some c => code c
  | none => 0

/-- A session: power on, pixels, an explicit flush, a clear, power off, and
two more pixels that stay staged. -/
def sample_ops : List Op :=
  [Op.control GDISP_CONTROL_POWER gdisp_powermode_t.powerOn,
   Op.draw_pixel 3 25 1, Op.draw_pixel 799 599 1,
   Op.control GDISP_CONTROL_FLUSH gdisp_powermode_t.powerOn,
   Op.draw_pixel 3 26 0, Op.clear 1,
   Op.control GDISP_CONTROL_POWER gdisp_powermode_t.powerOff,
   Op.draw_pixel 0 0 0, Op.draw_pixel 420 77 1]

/-! ## The allocation path with the pool size as a parameter

`EINK_NUMBUFFERS` is a build-time option (at most 254); it occurs in
`alloc_buffer`, as the capacity test, and as the extent of `g_blocks`.  The
three definitions below are `alloc_buffer_flush`, `alloc_buffer` and
`gdisp_lld_draw_pixel` with that option as the parameter `numbuffers`; no
other function of the driver reads it. -/

/-- The statement `if (g_next_block >= EINK_NUMBUFFERS) flush_buffers();` of
`alloc_buffer`, for a pool of `numbuffers` blocks. -/
def alloc_buffer_flush_n (numbuffers : Nat) (s : State) : State × List Event :=
  if s.g_next_block ≥ numbuffers then flush_buffers s else (s, [])

/-- `alloc_buffer` for a pool of `numbuffers` blocks. -/
def alloc_buffer_n (numbuffers : Nat) (s : State) (bx by_ : Nat) : Alloc :=
  if s.g_blockmap by_ bx = 0 then
    let f := alloc_buffer_flush_n numbuffers s
    let s1 := f.1
    let result := s1.g_next_block
    let s2 := { s1 with g_blockmap := set2 s1.g_blockmap by_ bx ((s1.g_next_block + 1) % 256) }
    let s3 := { s2 with g_next_block := (s2.g_next_block + 1) % 256 }
    ⟨zero_block s3 result, f.2, result⟩
  else
    ⟨s, [], s.g_blockmap by_ bx - 1⟩

/-- `gdisp_lld_draw_pixel` for a pool of `numbuffers` blocks: `g_blocks` has
`numbuffers` elements, so the checked store requires `block < numbuffers`. -/
def gdisp_lld_draw_pixel_n (numbuffers : Nat) (s : State) (x y : Int) (color : Nat) :
    Except Fault (State × List Event) :=
  let bx := toUnsigned (Int.tdiv x EINK_BLOCKWIDTH)
  let by_ := toUnsigned (Int.tdiv y EINK_BLOCKHEIGHT)
  let dx := toUnsigned (Int.tmod x EINK_BLOCKWIDTH)
  let dy := toUnsigned (Int.tmod y EINK_BLOCKHEIGHT)
  if bx < 0 ∨ bx ≥ BLOCKS_X ∨ by_ < 0 ∨ by_ ≥ BLOCKS_Y then
    Except.ok (s, [])
  else
    let a := alloc_buffer_n numbuffers s bx by_
    let block := a.result
    let bitpos := (6 - 2 * (dx % EINK_PPB)) % 256
    if block < numbuffers ∧ dy < EINK_BLOCKHEIGHT ∧ dx / EINK_PPB < WIDTH_BYTES then
      let byte := a.state.g_blocks block dy (dx / EINK_PPB)
      let byte := (byte &&& (0xFFFFFFFF ^^^ (PIXELMASK <<< bitpos))) % 256
      let byte :=
        if color ≠ 0 then (byte ||| (PIXEL_WHITE <<< bitpos)) % 256
        else (byte ||| (PIXEL_BLACK <<< bitpos)) % 256
      Except.ok ({ a.state with g_blocks := set3 a.state.g_blocks block dy (dx / EINK_PPB) byte },
        a.events)
    else
      Except.error ⟨a.state, a.events, block, dy, dx / EINK_PPB⟩

/-- The globals after one public operation, for a pool of `numbuffers`
blocks. -/
def apply_op_n (numbuffers : Nat) (s : State) : Op → Except Fault State
  | Op.draw_pixel x y color =>
    match gdisp_lld_draw_pixel_n numbuffers s x y color with
    | Except.error f => Except.error f
    | Except.ok r => Except.ok r.1
  | Op.control what value => Except.ok (gdisp_lld_control s what value).1
  | Op.clear color => Except.ok (gdisp_lld_clear s color).1

/-- The globals after a sequence of public operations, for a pool of
`numbuffers` blocks. -/
def run_ops_n (numbuffers : Nat) (s : State) : List Op → Except Fault State
  | [] => Except.ok s
  | op :: rest =>
    match apply_op_n numbuffers s op with
    | Except.error f => Except.error f
    | Except.ok s1 => run_ops_n numbuffers s1 rest

/-- The cache invariant for a pool of `numbuffers` blocks; `CacheInv` is the
case `numbuffers = EINK_NUMBUFFERS`. -/
def CacheInvN (numbuffers : Nat) (s : State) : Prop :=
  s.g_next_block ≤ numbuffers ∧
  (∀ by_ < BLOCKS_Y, ∀ bx < BLOCKS_X, s.g_blockmap by_ bx ≤ s.g_next_block) ∧
  (∀ k < s.g_next_block, ∃ by_ < BLOCKS_Y, ∃ bx < BLOCKS_X, s.g_blockmap by_ bx = k + 1) ∧
  (∀ by_ < BLOCKS_Y, ∀ bx < BLOCKS_X, SlotUnshared s by_ bx)

instance (numbuffers : Nat) (s : State) : Decidable (CacheInvN numbuffers s) := by
  unfold CacheInvN; infer_instance

/-! ## Loops -/

theorem set2_apply (a : Nat → Nat → Nat) (i j v i2 j2 : Nat) :
    set2 a i j v i2 j2 = if i2 = i ∧ j2 = j then v else a i2 j2 := rfl

theorem set3_apply (a : Nat → Nat → Nat → Nat) (i j k v i2 j2 k2 : Nat) :
    set3 a i j k v i2 j2 k2 = if i2 = i ∧ j2 = j ∧ k2 = k then v else a i2 j2 k2 := rfl

theorem clear_row_loop (s : State) (i n : Nat) :
    (List.range n).foldl (fun s bx => { s with g_blockmap := set2 s.g_blockmap i bx 0 }) s
      = { s with g_blockmap := fun a b => if a = i ∧ b < n then 0 else s.g_blockmap a b } := by
  induction n with
  | zero => simp
  | succ n ih =>
    rw [List.range_succ, List.foldl_append, ih]
    simp only [List.foldl_cons, List.foldl_nil]
    congr 1
    funext a b
    simp only [set2_apply]
    split_ifs <;> first | rfl | (exfalso; omega)

theorem clear_map_loop (s : State) (m n : Nat) :
    (List.range m).foldl
      (fun s by_ => (List.range n).foldl
        (fun s bx => { s with g_blockmap := set2 s.g_blockmap by_ bx 0 }) s) s
      = { s with g_blockmap := fun a b => if a < m ∧ b < n then 0 else s.g_blockmap a b } := by
  induction m with
  | zero => simp
  | succ m ih =>
    rw [List.range_succ, List.foldl_append, ih]
    simp only [List.foldl_cons, List.foldl_nil, clear_row_loop]
    congr 1
    funext a b
    split_ifs <;> first | rfl | (exfalso; omega)

theorem clear_block_map_eq (s : State) :
    clear_block_map s =
      { s with g_blockmap := fun a b => if a < BLOCKS_Y ∧ b < BLOCKS_X then 0 else s.g_blockmap a b,
               g_next_block := 0 } := by
  unfold clear_block_map
  simp only [clear_map_loop]

theorem zero_row_loop (s : State) (blk i n : Nat) :
    (List.range n).foldl (fun s dx => { s with g_blocks := set3 s.g_blocks blk i dx 0 }) s
      = { s with g_blocks := fun a b c =>
            if a = blk ∧ b = i ∧ c < n then 0 else s.g_blocks a b c } := by
  induction n with
  | zero => simp
  | succ n ih =>
    rw [List.range_succ, List.foldl_append, ih]
    simp only [List.foldl_cons, List.foldl_nil]
    congr 1
    funext a b c
    simp only [set3_apply]
    split_ifs <;> first | rfl | (exfalso; omega)

theorem zero_block_loop (s : State) (blk m n : Nat) :
    (List.range m).foldl
      (fun s dy => (List.range n).foldl
        (fun s dx => { s with g_blocks := set3 s.g_blocks blk dy dx 0 }) s) s
      = { s with g_blocks := fun a b c =>
            if a = blk ∧ b < m ∧ c < n then 0 else s.g_blocks a b c } := by
  induction m with
  | zero => simp
  | succ m ih =>
    rw [List.range_succ, List.foldl_append, ih]
    simp only [List.foldl_cons, List.foldl_nil, zero_row_loop]
    congr 1
    funext a b c
    split_ifs <;> first | rfl | (exfalso; omega)

theorem zero_block_eq (s : State) (blk : Nat) :
    zero_block s blk =
      { s with g_blocks := fun a b c =>
          if a = blk ∧ b < EINK_BLOCKHEIGHT ∧ c < WIDTH_BYTES then 0 else s.g_blocks a b c } := by
  unfold zero_block
  simp only [zero_block_loop]

/-! ## Packed bytes -/

set_option maxRecDepth 100000

theorem and_mask_mod (b m : Nat) : (b &&& m) % 256 = ((b % 256) &&& m) % 256 := by
  apply Nat.eq_of_testBit_eq
  intro i
  have h : (256 : Nat) = 2 ^ 8 := by norm_num
  simp only [h, Nat.testBit_mod_two_pow, Nat.testBit_and]
  cases decide (i < 8) <;> simp

theorem stored_byte_mod (b p c : Nat) : stored_byte b p c = stored_byte (b % 256) p c := by
  unfold stored_byte
  rw [and_mask_mod b]

theorem field_mod (b p : Nat) (hp : p = 0 ∨ p = 2 ∨ p = 4 ∨ p = 6) :
    field (b % 256) p = field b p := by
  unfold field
  have h3 : ∀ v : Nat, v &&& 3 = v % 4 := fun v => Nat.and_pow_two_sub_one_eq_mod v 2
  rw [h3, h3, Nat.shiftRight_eq_div_pow, Nat.shiftRight_eq_div_pow]
  rcases hp with h | h | h | h <;> subst h <;> norm_num <;> omega

theorem stored_byte_lt_small :
    ∀ b < 256, ∀ k < 4, ∀ c < 2, stored_byte b (6 - 2 * k) c < 256 := by
  decide

theorem stored_byte_field_small :
    ∀ b < 256, ∀ k < 4, ∀ c < 2, field (stored_byte b (6 - 2 * k) c) (6 - 2 * k) = code c := by
  decide

theorem stored_byte_idem_small :
    ∀ b < 256, ∀ k < 4, ∀ c < 2,
      stored_byte (stored_byte b (6 - 2 * k) c) (6 - 2 * k) c = stored_byte b (6 - 2 * k) c := by
  decide

theorem stored_byte_other_small :
    ∀ b < 256, ∀ k < 4, ∀ c < 2, ∀ j < 4, j ≠ k →
      field (stored_byte b (6 - 2 * k) c) (6 - 2 * j) = field b (6 - 2 * j) := by
  decide

theorem stored_byte_color (b p c : Nat) :
    stored_byte b p c = stored_byte b p (if c ≠ 0 then 1 else 0) := by
  unfold stored_byte
  by_cases h : c = 0 <;> simp [h]

theorem code_color (c : Nat) : code c = code (if c ≠ 0 then 1 else 0) := by
  unfold code
  by_cases h : c = 0 <;> simp [h]

theorem color_bit_lt (c : Nat) : (if c ≠ 0 then 1 else 0) < 2 := by
  split_ifs <;> omega

theorem bitpos_of_eq (dx : Nat) : bitpos_of dx = 6 - 2 * (dx % 4) := rfl

theorem stored_byte_lt (b dx c : Nat) : stored_byte b (bitpos_of dx) c < 256 := by
  rw [stored_byte_mod, stored_byte_color, bitpos_of_eq]
  exact stored_byte_lt_small _ (Nat.mod_lt _ (by norm_num)) _ (Nat.mod_lt _ (by norm_num)) _
    (color_bit_lt c)

theorem stored_byte_field (b dx c : Nat) :
    field (stored_byte b (bitpos_of dx) c) (bitpos_of dx) = code c := by
  rw [stored_byte_mod, stored_byte_color, bitpos_of_eq, code_color]
  exact stored_byte_field_small _ (Nat.mod_lt _ (by norm_num)) _ (Nat.mod_lt _ (by norm_num)) _
    (color_bit_lt c)

theorem stored_byte_idem (b dx c : Nat) :
    stored_byte (stored_byte b (bitpos_of dx) c) (bitpos_of dx) c
      = stored_byte b (bitpos_of dx) c := by
  rw [stored_byte_mod b, stored_byte_color (b % 256), stored_byte_color _ _ c, bitpos_of_eq]
  have h := stored_byte_idem_small _ (Nat.mod_lt b (by norm_num : 0 < 256)) _
    (Nat.mod_lt dx (by norm_num : 0 < 4)) _ (color_bit_lt c)
  simpa using h

theorem stored_byte_other (b dx dx2 c : Nat) (h : dx2 % 4 ≠ dx % 4) :
    field (stored_byte b (bitpos_of dx) c) (bitpos_of dx2) = field b (bitpos_of dx2) := by
  have hp : 6 - 2 * (dx2 % 4) = 0 ∨ 6 - 2 * (dx2 % 4) = 2 ∨ 6 - 2 * (dx2 % 4) = 4
      ∨ 6 - 2 * (dx2 % 4) = 6 := by omega
  rw [stored_byte_mod, stored_byte_color, bitpos_of_eq, bitpos_of_eq, ← field_mod b _ hp]
  exact stored_byte_other_small _ (Nat.mod_lt _ (by norm_num)) _ (Nat.mod_lt _ (by norm_num)) _
    (color_bit_lt c) _ (Nat.mod_lt _ (by norm_num)) h

/-! ## Coordinates -/

theorem toUnsigned_natCast (n : Nat) (h : n < 4294967296) : toUnsigned (n : Int) = n := by
  unfold toUnsigned
  have : ((n : Int) % 4294967296) = ((n % 4294967296 : Nat) : Int) := by norm_cast
  rw [this, Int.toNat_ofNat, Nat.mod_eq_of_lt h]

theorem toUnsigned_tdiv (x n : Nat) (h : x < 4294967296) :
    toUnsigned (Int.tdiv (x : Int) (n : Int)) = x / n := by
  rw [← Int.ofNat_tdiv]
  exact toUnsigned_natCast _ (lt_of_le_of_lt (Nat.div_le_self _ _) h)

theorem toUnsigned_tmod (x n : Nat) (h : x < 4294967296) :
    toUnsigned (Int.tmod (x : Int) (n : Int)) = x % n := by
  rw [← Int.ofNat_tmod]
  exact toUnsigned_natCast _ (lt_of_le_of_lt (Nat.mod_le _ _) h)

/-! ## Allocation -/

theorem alloc_buffer_resident (s : State) (bx by_ : Nat) (h : s.g_blockmap by_ bx ≠ 0) :
    alloc_buffer s bx by_ = ⟨s, [], s.g_blockmap by_ bx - 1⟩ := by
  unfold alloc_buffer
  simp [h]

theorem flush_buffers_state (s : State) : (flush_buffers s).1 = clear_block_map s := rfl

theorem alloc_buffer_flush_cursor (s : State) :
    (alloc_buffer_flush s).1.g_next_block < EINK_NUMBUFFERS := by
  unfold alloc_buffer_flush
  by_cases h : s.g_next_block ≥ EINK_NUMBUFFERS
  · simp only [h, if_true, flush_buffers_state, clear_block_map_eq]
    decide
  · simp only [h, if_false]
    omega

theorem alloc_buffer_fresh (s : State) (bx by_ : Nat) (h : s.g_blockmap by_ bx = 0) :
    alloc_buffer s bx by_ =
      ⟨{ g_next_block := (alloc_buffer_flush s).1.g_next_block + 1,
         g_blockmap := set2 (alloc_buffer_flush s).1.g_blockmap by_ bx
           ((alloc_buffer_flush s).1.g_next_block + 1),
         g_blocks := fun a b c =>
           if a = (alloc_buffer_flush s).1.g_next_block ∧ b < EINK_BLOCKHEIGHT ∧ c < WIDTH_BYTES
           then 0 else (alloc_buffer_flush s).1.g_blocks a b c,
         GDISP := (alloc_buffer_flush s).1.GDISP },
       (alloc_buffer_flush s).2, (alloc_buffer_flush s).1.g_next_block⟩ := by
  have hlt := alloc_buffer_flush_cursor s
  have hmod : ((alloc_buffer_flush s).1.g_next_block + 1) % 256
      = (alloc_buffer_flush s).1.g_next_block + 1 := by
    apply Nat.mod_eq_of_lt
    simp only [EINK_NUMBUFFERS] at hlt
    omega
  unfold alloc_buffer
  simp only [h, if_true, zero_block_eq, hmod]

theorem draw_pixel_in_bounds (s : State) (x y color : Nat)
    (hx : x < GDISP_SCREEN_WIDTH) (hy : y < GDISP_SCREEN_HEIGHT) :
    gdisp_lld_draw_pixel s x y color =
      if (alloc_buffer s (x / EINK_BLOCKWIDTH) (y / EINK_BLOCKHEIGHT)).result < EINK_NUMBUFFERS then
        Except.ok
          ({ (alloc_buffer s (x / EINK_BLOCKWIDTH) (y / EINK_BLOCKHEIGHT)).state with
              g_blocks := set3
                (alloc_buffer s (x / EINK_BLOCKWIDTH) (y / EINK_BLOCKHEIGHT)).state.g_blocks
                (alloc_buffer s (x / EINK_BLOCKWIDTH) (y / EINK_BLOCKHEIGHT)).result
                (y % EINK_BLOCKHEIGHT) (x % EINK_BLOCKWIDTH / EINK_PPB)
                (stored_byte
                  ((alloc_buffer s (x / EINK_BLOCKWIDTH) (y / EINK_BLOCKHEIGHT)).state.g_blocks
                    (alloc_buffer s (x / EINK_BLOCKWIDTH) (y / EINK_BLOCKHEIGHT)).result
                    (y % EINK_BLOCKHEIGHT) (x % EINK_BLOCKWIDTH / EINK_PPB))
                  (bitpos_of (x % EINK_BLOCKWIDTH)) color) },
           (alloc_buffer s (x / EINK_BLOCKWIDTH) (y / EINK_BLOCKHEIGHT)).events)
      else
        Except.error
          ⟨(alloc_buffer s (x / EINK_BLOCKWIDTH) (y / EINK_BLOCKHEIGHT)).state,
           (alloc_buffer s (x / EINK_BLOCKWIDTH) (y / EINK_BLOCKHEIGHT)).events,
           (alloc_buffer s (x / EINK_BLOCKWIDTH) (y / EINK_BLOCKHEIGHT)).result,
           y % EINK_BLOCKHEIGHT, x % EINK_BLOCKWIDTH / EINK_PPB⟩ := by
  have hx2 : x < 4294967296 := by simp only [GDISP_SCREEN_WIDTH] at hx; omega
  have hy2 : y < 4294967296 := by simp only [GDISP_SCREEN_HEIGHT] at hy; omega
  have hbx : ¬ (x / EINK_BLOCKWIDTH ≥ BLOCKS_X) := by
    simp only [GDISP_SCREEN_WIDTH] at hx
    simp only [EINK_BLOCKWIDTH, BLOCKS_X, GDISP_SCREEN_WIDTH]
    omega
  have hby : ¬ (y / EINK_BLOCKHEIGHT ≥ BLOCKS_Y) := by
    simp only [GDISP_SCREEN_HEIGHT] at hy
    simp only [EINK_BLOCKHEIGHT, BLOCKS_Y, GDISP_SCREEN_HEIGHT]
    omega
  have hdy : y % EINK_BLOCKHEIGHT < EINK_BLOCKHEIGHT := Nat.mod_lt _ (by decide)
  have hdx : x % EINK_BLOCKWIDTH / EINK_PPB < WIDTH_BYTES := by
    simp only [EINK_BLOCKWIDTH, EINK_PPB, WIDTH_BYTES]
    omega
  have hbp : (6 - 2 * (x % EINK_BLOCKWIDTH % EINK_PPB)) % 256 = bitpos_of (x % EINK_BLOCKWIDTH) := by
    unfold bitpos_of
    apply Nat.mod_eq_of_lt
    omega
  unfold gdisp_lld_draw_pixel
  simp only [toUnsigned_tdiv _ _ hx2, toUnsigned_tdiv _ _ hy2, toUnsigned_tmod _ _ hx2,
    toUnsigned_tmod _ _ hy2, hbx, hby, Nat.not_lt_zero, or_self, if_false, hdy, hdx, and_true,
    hbp, stored_byte]

theorem draw_pixel_resident (s : State) (x y color : Nat)
    (hx : x < GDISP_SCREEN_WIDTH) (hy : y < GDISP_SCREEN_HEIGHT)
    (hm : s.g_blockmap (y / EINK_BLOCKHEIGHT) (x / EINK_BLOCKWIDTH) ≠ 0)
    (hr : s.g_blockmap (y / EINK_BLOCKHEIGHT) (x / EINK_BLOCKWIDTH) ≤ EINK_NUMBUFFERS) :
    gdisp_lld_draw_pixel s x y color =
      Except.ok
        ({ s with
            g_blocks := set3 s.g_blocks
              (s.g_blockmap (y / EINK_BLOCKHEIGHT) (x / EINK_BLOCKWIDTH) - 1)
              (y % EINK_BLOCKHEIGHT) (x % EINK_BLOCKWIDTH / EINK_PPB)
              (stored_byte
                (s.g_blocks (s.g_blockmap (y / EINK_BLOCKHEIGHT) (x / EINK_BLOCKWIDTH) - 1)
                  (y % EINK_BLOCKHEIGHT) (x % EINK_BLOCKWIDTH / EINK_PPB))
                (bitpos_of (x % EINK_BLOCKWIDTH)) color) }, []) := by
  have hlt : s.g_blockmap (y / EINK_BLOCKHEIGHT) (x / EINK_BLOCKWIDTH) - 1 < EINK_NUMBUFFERS := by
    omega
  rw [draw_pixel_in_bounds s x y color hx hy, alloc_buffer_resident s _ _ hm]
  simp only [hlt, if_true]

theorem draw_pixel_fresh (s : State) (x y color : Nat)
    (hx : x < GDISP_SCREEN_WIDTH) (hy : y < GDISP_SCREEN_HEIGHT)
    (hm : s.g_blockmap (y / EINK_BLOCKHEIGHT) (x / EINK_BLOCKWIDTH) = 0) :
    gdisp_lld_draw_pixel s x y color =
      Except.ok
        ({ g_next_block := (alloc_buffer_flush s).1.g_next_block + 1,
           g_blockmap := set2 (alloc_buffer_flush s).1.g_blockmap
             (y / EINK_BLOCKHEIGHT) (x / EINK_BLOCKWIDTH)
             ((alloc_buffer_flush s).1.g_next_block + 1),
           g_blocks := set3
             (fun a b c =>
               if a = (alloc_buffer_flush s).1.g_next_block ∧ b < EINK_BLOCKHEIGHT
                  ∧ c < WIDTH_BYTES
               then 0 else (alloc_buffer_flush s).1.g_blocks a b c)
             (alloc_buffer_flush s).1.g_next_block
             (y % EINK_BLOCKHEIGHT) (x % EINK_BLOCKWIDTH / EINK_PPB)
             (stored_byte 0 (bitpos_of (x % EINK_BLOCKWIDTH)) color),
           GDISP := (alloc_buffer_flush s).1.GDISP },
         (alloc_buffer_flush s).2) := by
  have hlt := alloc_buffer_flush_cursor s
  have hdy : y % EINK_BLOCKHEIGHT < EINK_BLOCKHEIGHT := Nat.mod_lt _ (by decide)
  have hdx : x % EINK_BLOCKWIDTH / EINK_PPB < WIDTH_BYTES := by
    simp only [EINK_BLOCKWIDTH, EINK_PPB, WIDTH_BYTES]
    omega
  rw [draw_pixel_in_bounds s x y color hx hy, alloc_buffer_fresh s _ _ hm]
  simp only [hlt, if_true, hdy, hdx, and_self]

theorem tile_lt (x y : Nat) (hx : x < GDISP_SCREEN_WIDTH) (hy : y < GDISP_SCREEN_HEIGHT) :
    y / EINK_BLOCKHEIGHT < BLOCKS_Y ∧ x / EINK_BLOCKWIDTH < BLOCKS_X := by
  simp only [GDISP_SCREEN_WIDTH, GDISP_SCREEN_HEIGHT] at hx hy
  simp only [EINK_BLOCKWIDTH, EINK_BLOCKHEIGHT, BLOCKS_X, BLOCKS_Y, GDISP_SCREEN_HEIGHT,
    GDISP_SCREEN_WIDTH]
  omega

theorem CacheInv.entry_le (s : State) (h : CacheInv s) (by_ bx : Nat)
    (hby : by_ < BLOCKS_Y) (hbx : bx < BLOCKS_X) : s.g_blockmap by_ bx ≤ EINK_NUMBUFFERS :=
  le_trans (h.2.1 by_ hby bx hbx) h.1

/-! ## Pixel writes -/

/-- C1: for every in-bounds coordinate, every colour and every cache state
satisfying the cache invariant, the call returns; afterwards the tile of
`(x, y)` is resident and, in the block its map entry names, the byte
`data[y % EINK_BLOCKHEIGHT][(x % EINK_BLOCKWIDTH) / 4]` has the 2-bit field at
bit position `6 - 2 * ((x % EINK_BLOCKWIDTH) % 4)` equal to 2 for a non-zero
colour and to 1 for colour zero. -/
theorem draw_pixel_sets_field (s : State) (x y color : Nat) (hinv : CacheInv s)
    (hx : x < GDISP_SCREEN_WIDTH) (hy : y < GDISP_SCREEN_HEIGHT) :
    ∃ s2 tr, gdisp_lld_draw_pixel s x y color = Except.ok (s2, tr) ∧
      s2.g_blockmap (y / EINK_BLOCKHEIGHT) (x / EINK_BLOCKWIDTH) ≠ 0 ∧
      field
        (s2.g_blocks (s2.g_blockmap (y / EINK_BLOCKHEIGHT) (x / EINK_BLOCKWIDTH) - 1)
          (y % EINK_BLOCKHEIGHT) (x % EINK_BLOCKWIDTH / 4))
        (6 - 2 * (x % EINK_BLOCKWIDTH % 4))
        = if color ≠ 0 then 2 else 1 := by
  have ht := tile_lt x y hx hy
  have hcode : code color = if color ≠ 0 then 2 else 1 := rfl
  by_cases hm : s.g_blockmap (y / EINK_BLOCKHEIGHT) (x / EINK_BLOCKWIDTH) = 0
  · refine ⟨_, _, draw_pixel_fresh s x y color hx hy hm, ?_, ?_⟩
    · simp [set2_apply]
    · simp only [set2_apply, and_self, if_true, Nat.add_sub_cancel, set3_apply, EINK_PPB]
      rw [← hcode, ← bitpos_of_eq]
      exact stored_byte_field 0 _ color
  · have hr := CacheInv.entry_le s hinv _ _ ht.1 ht.2
    refine ⟨_, _, draw_pixel_resident s x y color hx hy hm hr, hm, ?_⟩
    simp only [set3_apply, and_self, if_true, EINK_PPB]
    rw [← hcode, ← bitpos_of_eq]
    exact stored_byte_field _ _ color

theorem zero_state_inv : CacheInv zero_state := by
  refine ⟨by decide, ?_, ?_, ?_⟩
  · intro by_ _ bx _
    exact Nat.le_refl 0
  · intro k hk
    exact absurd hk (Nat.not_lt_zero k)
  · intro by_ _ bx _ by2 _ bx2 _ h
    exact absurd rfl h

theorem full_state_inv : CacheInv full_state := by
  refine ⟨by decide, ?_, ?_, ?_⟩
  · intro by_ _ bx _
    show (if by_ = 0 ∧ bx < 40 then bx + 1 else 0) ≤ 40
    split_ifs <;> omega
  · intro k hk
    have hk2 : k < 40 := hk
    refine ⟨0, by decide, k, hk2, ?_⟩
    show (if (0 : Nat) = 0 ∧ k < 40 then k + 1 else 0) = k + 1
    simp [hk2]
  · intro by_ _ bx _ by2 _ bx2 _ h1 h2
    have h1b : (if by_ = 0 ∧ bx < 40 then bx + 1 else 0) ≠ 0 := h1
    have h2b : (if by_ = 0 ∧ bx < 40 then bx + 1 else 0)
        = (if by2 = 0 ∧ bx2 < 40 then bx2 + 1 else 0) := h2
    split_ifs at h1b h2b <;> omega

/-- Witness of C1: on the exhausted cache `full_state`, a white pixel at
`(3, 25)`, whose tile `(0, 1)` is not resident. -/
theorem draw_pixel_sets_field_witness :
    ∃ s2 tr, gdisp_lld_draw_pixel full_state ((3 : Nat) : Int) ((25 : Nat) : Int) 1
        = Except.ok (s2, tr) ∧
      s2.g_blockmap (25 / EINK_BLOCKHEIGHT) (3 / EINK_BLOCKWIDTH) ≠ 0 ∧
      field
        (s2.g_blocks (s2.g_blockmap (25 / EINK_BLOCKHEIGHT) (3 / EINK_BLOCKWIDTH) - 1)
          (25 % EINK_BLOCKHEIGHT) (3 % EINK_BLOCKWIDTH / 4))
        (6 - 2 * (3 % EINK_BLOCKWIDTH % 4))
        = if (1 : Nat) ≠ 0 then 2 else 1 :=
  draw_pixel_sets_field full_state 3 25 1 full_state_inv (by decide) (by decide)

theorem alloc_buffer_flush_full (s : State) (h : EINK_NUMBUFFERS ≤ s.g_next_block) :
    alloc_buffer_flush s = flush_buffers s := by
  unfold alloc_buffer_flush
  simp only [ge_iff_le, h, if_true]

theorem alloc_buffer_flush_room (s : State) (h : s.g_next_block < EINK_NUMBUFFERS) :
    alloc_buffer_flush s = (s, []) := by
  unfold alloc_buffer_flush
  simp only [ge_iff_le, Nat.not_le.mpr h, if_false]

theorem flush_events_ne_nil (s : State) : flush_events s ≠ [] := by
  unfold flush_events
  have h : List.range EINK_WRITECOUNT = [0, 1, 2, 3] := by decide
  rw [h]
  simp [List.flatMap_cons, vscan_start]

/-- C2 (failing input): on the exhausted cache `full_state` the call
`gdisp_lld_draw_pixel(-1, 20, 1)`, whose `x` is left of the panel, is not
ignored.  `-1 / 20` is `0`, so the tile test passes for tile `(0, 1)`; the
allocation finds the pool full and flushes (hardware events), the block map
entry of tile `(0, 1)` goes from 0 to 1 and the cursor from 40 to 1; and the
pixel access is `data[0][1073741823]`, outside `data[20][5]`. -/
theorem draw_pixel_negative_x_not_ignored :
    ∃ f, gdisp_lld_draw_pixel full_state (-1) 20 1 = Except.error f ∧
      full_state.g_blockmap 1 0 = 0 ∧ f.state.g_blockmap 1 0 = 1 ∧
      full_state.g_next_block = 40 ∧ f.state.g_next_block = 1 ∧
      f.events = flush_events full_state ∧ f.events ≠ [] ∧
      f.slot = 0 ∧ f.row = 0 ∧ f.col = 1073741823 ∧ ¬ f.col < WIDTH_BYTES := by
  have h1 : toUnsigned (Int.tdiv (-1) (EINK_BLOCKWIDTH : Int)) = 0 := by decide
  have h2 : toUnsigned (Int.tdiv 20 (EINK_BLOCKHEIGHT : Int)) = 1 := by decide
  have h3 : toUnsigned (Int.tmod (-1) (EINK_BLOCKWIDTH : Int)) = 4294967295 := by decide
  have h4 : toUnsigned (Int.tmod 20 (EINK_BLOCKHEIGHT : Int)) = 0 := by decide
  have hmap : full_state.g_blockmap 1 0 = 0 := rfl
  have hfull : EINK_NUMBUFFERS ≤ full_state.g_next_block := by decide
  have hcol : ¬ (4294967295 / EINK_PPB < WIDTH_BYTES) := by decide
  have hbx : ¬ ((0 : Nat) ≥ BLOCKS_X) := by decide
  have hby : ¬ ((1 : Nat) ≥ BLOCKS_Y) := by decide
  refine ⟨⟨(alloc_buffer full_state 0 1).state, (alloc_buffer full_state 0 1).events,
    (alloc_buffer full_state 0 1).result, 0, 4294967295 / EINK_PPB⟩, ?_, hmap, ?_, rfl, ?_, ?_, ?_,
    ?_, rfl, by decide, by decide⟩
  · unfold gdisp_lld_draw_pixel
    simp only [h1, h2, h3, h4, hbx, hby, Nat.not_lt_zero, or_self, if_false, hcol, and_false]
  · rw [alloc_buffer_fresh full_state 0 1 hmap, alloc_buffer_flush_full full_state hfull,
      flush_buffers_state, clear_block_map_eq]
    simp [set2_apply]
  · rw [alloc_buffer_fresh full_state 0 1 hmap, alloc_buffer_flush_full full_state hfull,
      flush_buffers_state, clear_block_map_eq]
  · rw [alloc_buffer_fresh full_state 0 1 hmap, alloc_buffer_flush_full full_state hfull]
    rfl
  · rw [alloc_buffer_fresh full_state 0 1 hmap, alloc_buffer_flush_full full_state hfull]
    exact flush_events_ne_nil full_state
  · rw [alloc_buffer_fresh full_state 0 1 hmap, alloc_buffer_flush_full full_state hfull,
      flush_buffers_state, clear_block_map_eq]

/-! ## Flush, control and clear -/

theorem clear_block_map_empty (s : State) : CacheEmpty (clear_block_map s) := by
  rw [clear_block_map_eq]
  refine ⟨?_, rfl⟩
  intro by_ hby bx hbx
  show (if by_ < BLOCKS_Y ∧ bx < BLOCKS_X then 0 else s.g_blockmap by_ bx) = 0
  simp [hby, hbx]

theorem control_flush (s : State) (value : gdisp_powermode_t) :
    gdisp_lld_control s GDISP_CONTROL_FLUSH value = flush_buffers s := by
  unfold gdisp_lld_control
  have h : ¬ (GDISP_CONTROL_FLUSH = GDISP_CONTROL_POWER) := by decide
  simp only [h, if_false, if_true]

theorem control_power_down (s : State) (m : gdisp_powermode_t)
    (hm : m ≠ gdisp_powermode_t.powerOn) (hcur : m ≠ s.GDISP.Powermode) :
    gdisp_lld_control s GDISP_CONTROL_POWER m =
      ({ (flush_buffers s).1 with GDISP := { (flush_buffers s).1.GDISP with Powermode := m } },
       (flush_buffers s).2 ++ power_off) := by
  unfold gdisp_lld_control
  have h : ¬ (s.GDISP.Powermode = m) := fun h => hcur h.symm
  simp only [if_true, h, if_false, hm]

/-- C4: for every cache state, after `flush_buffers` every block-map entry is
0 and `g_next_block` is 0; the same holds after
`gdisp_lld_control(GDISP_CONTROL_FLUSH, _)`, after
`gdisp_lld_control(GDISP_CONTROL_POWER, m)` for a mode `m` that is not
`powerOn` and differs from the current mode, and right after the
capacity-triggered flush inside `alloc_buffer`, before the slot is assigned. -/
theorem flush_empties_cache (s : State) (value m : gdisp_powermode_t) :
    CacheEmpty (flush_buffers s).1 ∧
    CacheEmpty (gdisp_lld_control s GDISP_CONTROL_FLUSH value).1 ∧
    (m ≠ gdisp_powermode_t.powerOn → m ≠ s.GDISP.Powermode →
      CacheEmpty (gdisp_lld_control s GDISP_CONTROL_POWER m).1) ∧
    (EINK_NUMBUFFERS ≤ s.g_next_block → CacheEmpty (alloc_buffer_flush s).1) := by
  refine ⟨clear_block_map_empty s, ?_, ?_, ?_⟩
  · rw [control_flush]
    exact clear_block_map_empty s
  · intro hm hcur
    rw [control_power_down s m hm hcur]
    exact clear_block_map_empty s
  · intro hcap
    rw [alloc_buffer_flush_full s hcap]
    exact clear_block_map_empty s

/-- Witness of C4: the exhausted, powered-on cache `full_state`, switched to
`powerOff`. -/
theorem flush_empties_cache_witness :
    CacheEmpty (flush_buffers full_state).1 ∧
    CacheEmpty (gdisp_lld_control full_state GDISP_CONTROL_FLUSH gdisp_powermode_t.powerOn).1 ∧
    CacheEmpty (gdisp_lld_control full_state GDISP_CONTROL_POWER gdisp_powermode_t.powerOff).1 ∧
    CacheEmpty (alloc_buffer_flush full_state).1 :=
  ⟨(flush_empties_cache full_state gdisp_powermode_t.powerOn gdisp_powermode_t.powerOff).1,
   (flush_empties_cache full_state gdisp_powermode_t.powerOn gdisp_powermode_t.powerOff).2.1,
   (flush_empties_cache full_state gdisp_powermode_t.powerOn gdisp_powermode_t.powerOff).2.2.1
     (by decide) (by decide),
   (flush_empties_cache full_state gdisp_powermode_t.powerOn gdisp_powermode_t.powerOff).2.2.2
     (by decide)⟩

theorem stored_byte_zero (dx c : Nat) :
    stored_byte 0 (bitpos_of dx) c = code c <<< (6 - 2 * (dx % 4)) := by
  rw [stored_byte_color, code_color, bitpos_of_eq]
  have h : ∀ k < 4, ∀ c < 2, stored_byte 0 (6 - 2 * k) c = code c <<< (6 - 2 * k) := by decide
  exact h _ (Nat.mod_lt _ (by norm_num)) _ (color_bit_lt c)

/-- C8: for every cache state and every colour, after `gdisp_lld_clear(color)`
every block-map entry is 0 and `g_next_block` is 0; a following
`gdisp_lld_draw_pixel(0, 0, c)` emits no hardware event, makes tile `(0, 0)`
resident in slot 0 (map entry 1, cursor 1) and leaves block 0 all zero except
`data[0][0]`, which is `0x80` for non-zero `c` and `0x40` for zero `c`. -/
theorem clear_then_draw_pixel (s : State) (color c : Nat) :
    CacheEmpty (gdisp_lld_clear s color).1 ∧
    ∃ s2, gdisp_lld_draw_pixel (gdisp_lld_clear s color).1 0 0 c = Except.ok (s2, []) ∧
      s2.g_blockmap 0 0 = 1 ∧ s2.g_next_block = 1 ∧
      ∀ dy < EINK_BLOCKHEIGHT, ∀ dx < WIDTH_BYTES,
        s2.g_blocks 0 dy dx = if dy = 0 ∧ dx = 0 then (if c ≠ 0 then 0x80 else 0x40) else 0 := by
  have hst : (gdisp_lld_clear s color).1 = clear_block_map s := rfl
  rw [hst]
  refine ⟨clear_block_map_empty s, ?_⟩
  have hm : (clear_block_map s).g_blockmap (0 / EINK_BLOCKHEIGHT) (0 / EINK_BLOCKWIDTH) = 0 :=
    (clear_block_map_empty s).1 _ (by decide) _ (by decide)
  have hroom : (clear_block_map s).g_next_block < EINK_NUMBUFFERS := by
    rw [(clear_block_map_empty s).2]
    decide
  have h := draw_pixel_fresh (clear_block_map s) 0 0 c (by decide) (by decide) hm
  rw [alloc_buffer_flush_room _ hroom, (clear_block_map_empty s).2] at h
  refine ⟨_, h, ?_, rfl, ?_⟩
  · simp [set2_apply]
  · intro dy hdy dx hdx
    have hb : stored_byte 0 (bitpos_of (0 % EINK_BLOCKWIDTH)) c = if c ≠ 0 then 0x80 else 0x40 := by
      rw [stored_byte_zero]
      unfold code
      by_cases hc : c = 0 <;> simp [hc, PIXEL_WHITE, PIXEL_BLACK, EINK_BLOCKWIDTH]
    simp only [set3_apply, hb, true_and, hdy, hdx, and_self, if_true]
    have e1 : 0 % EINK_BLOCKHEIGHT = 0 := by decide
    have e2 : 0 % EINK_BLOCKWIDTH / EINK_PPB = 0 := by decide
    rw [e1, e2]

theorem all_flatMap_range (n : Nat) (f : Nat → List Event) (p : Event → Bool)
    (h : ∀ i, (f i).all p = true) : ((List.range n).flatMap f).all p = true := by
  rw [List.all_flatMap, List.all_eq_true]
  intro i _
  exact h i

theorem hscan_write_no_power (data : Nat → Nat) (count : Nat) :
    (hscan_write data count).all (fun e => !is_power_event e) = true := by
  unfold hscan_write
  apply all_flatMap_range
  intro i
  simp [is_power_event, hclock, clockdelay]

theorem write_block_row_no_power (s : State) (by_ : Nat) :
    (write_block_row s by_).all (fun e => !is_power_event e) = true := by
  unfold write_block_row
  apply all_flatMap_range
  intro dy
  rw [List.all_append, List.all_append, List.all_append, Bool.and_eq_true, Bool.and_eq_true,
    Bool.and_eq_true]
  refine ⟨⟨⟨by decide, ?_⟩, by decide⟩, by decide⟩
  apply all_flatMap_range
  intro bx
  split_ifs
  · apply all_flatMap_range
    intro _
    exact hscan_write_no_power _ _
  · exact hscan_write_no_power _ _

theorem flush_events_no_power (s : State) :
    (flush_events s).all (fun e => !is_power_event e) = true := by
  unfold flush_events
  apply all_flatMap_range
  intro _
  rw [List.all_append, List.all_append, Bool.and_eq_true, Bool.and_eq_true]
  refine ⟨⟨by decide, ?_⟩, by decide⟩
  apply all_flatMap_range
  intro by_
  split_ifs
  · apply all_flatMap_range
    intro _
    decide
  · exact write_block_row_no_power s by_

/-- C9: for every driver state whose power mode is `powerOn` and every target
mode `m` other than `powerOn`, the events of
`gdisp_lld_control(GDISP_CONTROL_POWER, m)` are exactly the events of
`flush_buffers` on the current cache followed by those of `power_off`; no
flush event switches a power rail, so every flush event precedes the first
rail switch-off; afterwards the cache is empty and the power mode is `m`. -/
theorem power_down_flushes_first (s : State) (m : gdisp_powermode_t)
    (hon : s.GDISP.Powermode = gdisp_powermode_t.powerOn)
    (hm : m ≠ gdisp_powermode_t.powerOn) :
    (gdisp_lld_control s GDISP_CONTROL_POWER m).2 = (flush_buffers s).2 ++ power_off ∧
    (∀ e ∈ (flush_buffers s).2, is_power_event e = false) ∧
    power_off.head? = some (Event.setpower_vpos false) ∧
    CacheEmpty (gdisp_lld_control s GDISP_CONTROL_POWER m).1 ∧
    (gdisp_lld_control s GDISP_CONTROL_POWER m).1.GDISP.Powermode = m := by
  have hcur : m ≠ s.GDISP.Powermode := by
    rw [hon]
    exact hm
  rw [control_power_down s m hm hcur]
  refine ⟨rfl, ?_, rfl, clear_block_map_empty s, rfl⟩
  intro e he
  have h := flush_events_no_power s
  rw [List.all_eq_true] at h
  simpa using h e he

/-- Witness of C9: the exhausted, powered-on cache `full_state`, switched to
`powerOff`. -/
theorem power_down_flushes_first_witness :
    (gdisp_lld_control full_state GDISP_CONTROL_POWER gdisp_powermode_t.powerOff).2
      = (flush_buffers full_state).2 ++ power_off ∧
    (∀ e ∈ (flush_buffers full_state).2, is_power_event e = false) ∧
    power_off.head? = some (Event.setpower_vpos false) ∧
    CacheEmpty (gdisp_lld_control full_state GDISP_CONTROL_POWER gdisp_powermode_t.powerOff).1 ∧
    (gdisp_lld_control full_state GDISP_CONTROL_POWER gdisp_powermode_t.powerOff).1.GDISP.Powermode
      = gdisp_powermode_t.powerOff :=
  power_down_flushes_first full_state gdisp_powermode_t.powerOff rfl (by decide)

/-- C10: for every driver state, `gdisp_lld_control(GDISP_CONTROL_POWER, m)`
with `m` the current power mode emits no hardware event and leaves the whole
driver state unchanged; `gdisp_lld_control(GDISP_CONTROL_FLUSH, _)` emits
exactly the events of `flush_buffers` and leaves the power mode unchanged. -/
theorem control_same_mode_and_flush (s : State) (value : gdisp_powermode_t) :
    gdisp_lld_control s GDISP_CONTROL_POWER s.GDISP.Powermode = (s, []) ∧
    (gdisp_lld_control s GDISP_CONTROL_FLUSH value).2 = (flush_buffers s).2 ∧
    (gdisp_lld_control s GDISP_CONTROL_FLUSH value).1.GDISP.Powermode = s.GDISP.Powermode := by
  refine ⟨?_, ?_, ?_⟩
  · unfold gdisp_lld_control
    simp only [if_true]
  · rw [control_flush]
  · rw [control_flush, flush_buffers_state, clear_block_map_eq]

/-! ## Overwriting a pixel -/

theorem set3_self (a : Nat → Nat → Nat → Nat) (i j k : Nat) : set3 a i j k (a i j k) = a := by
  funext i2 j2 k2
  rw [set3_apply]
  split_ifs with h
  · obtain ⟨h1, h2, h3⟩ := h
    rw [h1, h2, h3]
  · rfl

theorem draw_pixel_again (s : State) (x y color b : Nat)
    (hx : x < GDISP_SCREEN_WIDTH) (hy : y < GDISP_SCREEN_HEIGHT)
    (hm : s.g_blockmap (y / EINK_BLOCKHEIGHT) (x / EINK_BLOCKWIDTH) ≠ 0)
    (hr : s.g_blockmap (y / EINK_BLOCKHEIGHT) (x / EINK_BLOCKWIDTH) ≤ EINK_NUMBUFFERS)
    (hb : s.g_blocks (s.g_blockmap (y / EINK_BLOCKHEIGHT) (x / EINK_BLOCKWIDTH) - 1)
            (y % EINK_BLOCKHEIGHT) (x % EINK_BLOCKWIDTH / EINK_PPB)
          = stored_byte b (bitpos_of (x % EINK_BLOCKWIDTH)) color) :
    gdisp_lld_draw_pixel s x y color = Except.ok (s, []) := by
  rw [draw_pixel_resident s x y color hx hy hm hr]
  have hsame : stored_byte
      (s.g_blocks (s.g_blockmap (y / EINK_BLOCKHEIGHT) (x / EINK_BLOCKWIDTH) - 1)
        (y % EINK_BLOCKHEIGHT) (x % EINK_BLOCKWIDTH / EINK_PPB))
      (bitpos_of (x % EINK_BLOCKWIDTH)) color
      = s.g_blocks (s.g_blockmap (y / EINK_BLOCKHEIGHT) (x / EINK_BLOCKWIDTH) - 1)
        (y % EINK_BLOCKHEIGHT) (x % EINK_BLOCKWIDTH / EINK_PPB) := by
    rw [hb, stored_byte_idem]
  rw [hsame, set3_self]

/-- C5: for every cache state satisfying the cache invariant, every in-bounds
`(x, y)` and every colour, calling `gdisp_lld_draw_pixel(x, y, color)` a
second time leaves the driver state exactly as the first call left it and
emits no hardware event. -/
theorem draw_pixel_idempotent (s : State) (x y color : Nat) (hinv : CacheInv s)
    (hx : x < GDISP_SCREEN_WIDTH) (hy : y < GDISP_SCREEN_HEIGHT) :
    ∃ s1 tr, gdisp_lld_draw_pixel s x y color = Except.ok (s1, tr) ∧
      gdisp_lld_draw_pixel s1 x y color = Except.ok (s1, []) := by
  have ht := tile_lt x y hx hy
  by_cases hm : s.g_blockmap (y / EINK_BLOCKHEIGHT) (x / EINK_BLOCKWIDTH) = 0
  · refine ⟨_, _, draw_pixel_fresh s x y color hx hy hm, ?_⟩
    have hlt := alloc_buffer_flush_cursor s
    apply draw_pixel_again _ x y color 0 hx hy
    · simp [set2_apply]
    · simp only [set2_apply, and_self, if_true]
      omega
    · simp only [set2_apply, set3_apply, and_self, if_true, Nat.add_sub_cancel]
  · have hr := CacheInv.entry_le s hinv _ _ ht.1 ht.2
    refine ⟨_, _, draw_pixel_resident s x y color hx hy hm hr, ?_⟩
    refine draw_pixel_again _ x y color
      (s.g_blocks (s.g_blockmap (y / EINK_BLOCKHEIGHT) (x / EINK_BLOCKWIDTH) - 1)
        (y % EINK_BLOCKHEIGHT) (x % EINK_BLOCKWIDTH / EINK_PPB)) hx hy ?_ ?_ ?_
    · exact hm
    · exact hr
    · simp only [set3_apply, and_self, if_true]

/-- Witness of C5: on the exhausted cache `full_state`, a black pixel at
`(799, 599)`, whose tile is not resident. -/
theorem draw_pixel_idempotent_witness :
    ∃ s1 tr, gdisp_lld_draw_pixel full_state ((799 : Nat) : Int) ((599 : Nat) : Int) 0
        = Except.ok (s1, tr) ∧
      gdisp_lld_draw_pixel s1 ((799 : Nat) : Int) ((599 : Nat) : Int) 0 = Except.ok (s1, []) :=
  draw_pixel_idempotent full_state 799 599 0 full_state_inv (by decide) (by decide)

/-- C6: for every cache state satisfying the cache invariant and every
in-bounds `(x, y)` whose tile is already resident, `gdisp_lld_draw_pixel`
emits no event and changes only the addressed 2-bit field: the other three
fields of the same byte, every other byte of every block, the block map, the
allocation cursor and the `GDISP` structure are unchanged. -/
theorem draw_pixel_no_bleed (s : State) (x y color : Nat) (hinv : CacheInv s)
    (hx : x < GDISP_SCREEN_WIDTH) (hy : y < GDISP_SCREEN_HEIGHT)
    (hres : s.g_blockmap (y / EINK_BLOCKHEIGHT) (x / EINK_BLOCKWIDTH) ≠ 0) :
    ∃ s2, gdisp_lld_draw_pixel s x y color = Except.ok (s2, []) ∧
      s2.g_blockmap = s.g_blockmap ∧ s2.g_next_block = s.g_next_block ∧ s2.GDISP = s.GDISP ∧
      (∀ slot dy dx,
        ¬ (slot = s.g_blockmap (y / EINK_BLOCKHEIGHT) (x / EINK_BLOCKWIDTH) - 1
            ∧ dy = y % EINK_BLOCKHEIGHT ∧ dx = x % EINK_BLOCKWIDTH / 4) →
        s2.g_blocks slot dy dx = s.g_blocks slot dy dx) ∧
      (∀ j < 4, j ≠ x % EINK_BLOCKWIDTH % 4 →
        field (s2.g_blocks (s.g_blockmap (y / EINK_BLOCKHEIGHT) (x / EINK_BLOCKWIDTH) - 1)
                (y % EINK_BLOCKHEIGHT) (x % EINK_BLOCKWIDTH / 4)) (6 - 2 * j)
          = field (s.g_blocks (s.g_blockmap (y / EINK_BLOCKHEIGHT) (x / EINK_BLOCKWIDTH) - 1)
                (y % EINK_BLOCKHEIGHT) (x % EINK_BLOCKWIDTH / 4)) (6 - 2 * j)) := by
  have ht := tile_lt x y hx hy
  have hr := CacheInv.entry_le s hinv _ _ ht.1 ht.2
  refine ⟨_, draw_pixel_resident s x y color hx hy hres hr, rfl, rfl, rfl, ?_, ?_⟩
  · intro slot dy dx hne
    simp only [set3_apply, EINK_PPB]
    rw [if_neg hne]
  · intro j hj hne
    simp only [set3_apply, EINK_PPB, and_self, if_true]
    have hj4 : j % 4 = j := Nat.mod_eq_of_lt hj
    have h := stored_byte_other
      (s.g_blocks (s.g_blockmap (y / EINK_BLOCKHEIGHT) (x / EINK_BLOCKWIDTH) - 1)
        (y % EINK_BLOCKHEIGHT) (x % EINK_BLOCKWIDTH / 4)) (x % EINK_BLOCKWIDTH) j color
      (by rw [hj4]; exact hne)
    rw [bitpos_of_eq j, hj4] at h
    exact h

/-- Witness of C6: on `full_state`, a black pixel at `(21, 7)` in the resident
tile `(1, 0)`. -/
theorem draw_pixel_no_bleed_witness :
    ∃ s2, gdisp_lld_draw_pixel full_state ((21 : Nat) : Int) ((7 : Nat) : Int) 0
        = Except.ok (s2, []) ∧
      s2.g_blockmap = full_state.g_blockmap ∧ s2.g_next_block = full_state.g_next_block ∧
      s2.GDISP = full_state.GDISP ∧
      (∀ slot dy dx,
        ¬ (slot = full_state.g_blockmap (7 / EINK_BLOCKHEIGHT) (21 / EINK_BLOCKWIDTH) - 1
            ∧ dy = 7 % EINK_BLOCKHEIGHT ∧ dx = 21 % EINK_BLOCKWIDTH / 4) →
        s2.g_blocks slot dy dx = full_state.g_blocks slot dy dx) ∧
      (∀ j < 4, j ≠ 21 % EINK_BLOCKWIDTH % 4 →
        field (s2.g_blocks
                (full_state.g_blockmap (7 / EINK_BLOCKHEIGHT) (21 / EINK_BLOCKWIDTH) - 1)
                (7 % EINK_BLOCKHEIGHT) (21 % EINK_BLOCKWIDTH / 4)) (6 - 2 * j)
          = field (full_state.g_blocks
                (full_state.g_blockmap (7 / EINK_BLOCKHEIGHT) (21 / EINK_BLOCKWIDTH) - 1)
                (7 % EINK_BLOCKHEIGHT) (21 % EINK_BLOCKWIDTH / 4)) (6 - 2 * j)) :=
  draw_pixel_no_bleed full_state 21 7 0 full_state_inv (by decide) (by decide) (by decide)

/-! ## Packing four pixels into a byte -/

theorem draw_pixels_nil (s : State) : draw_pixels s [] = Except.ok (s, []) := rfl

theorem draw_pixels_cons_ok (s s1 s2 : State) (tr1 tr2 : List Event) (p : Nat × Nat × Nat)
    (rest : List (Nat × Nat × Nat))
    (h1 : gdisp_lld_draw_pixel s p.1 p.2.1 p.2.2 = Except.ok (s1, tr1))
    (h2 : draw_pixels s1 rest = Except.ok (s2, tr2)) :
    draw_pixels s (p :: rest) = Except.ok (s2, tr1 ++ tr2) := by
  rw [draw_pixels, h1]
  simp only [h2]

theorem byte_of_fields :
    ∀ b < 256, b = field b 6 * 64 + field b 4 * 16 + field b 2 * 4 + field b 0 := by
  decide

theorem byte_coords (bx by_ dy k i : Nat) (hbx : bx < BLOCKS_X) (hby : by_ < BLOCKS_Y)
    (hdy : dy < EINK_BLOCKHEIGHT) (hk : k < WIDTH_BYTES) (hi : i < 4) :
    bx * EINK_BLOCKWIDTH + 4 * k + i < GDISP_SCREEN_WIDTH ∧
    by_ * EINK_BLOCKHEIGHT + dy < GDISP_SCREEN_HEIGHT ∧
    (bx * EINK_BLOCKWIDTH + 4 * k + i) / EINK_BLOCKWIDTH = bx ∧
    (by_ * EINK_BLOCKHEIGHT + dy) / EINK_BLOCKHEIGHT = by_ ∧
    (by_ * EINK_BLOCKHEIGHT + dy) % EINK_BLOCKHEIGHT = dy ∧
    (bx * EINK_BLOCKWIDTH + 4 * k + i) % EINK_BLOCKWIDTH / EINK_PPB = k ∧
    bitpos_of ((bx * EINK_BLOCKWIDTH + 4 * k + i) % EINK_BLOCKWIDTH) = bitpos_of i := by
  simp only [BLOCKS_X, BLOCKS_Y, WIDTH_BYTES, EINK_BLOCKWIDTH, EINK_BLOCKHEIGHT, EINK_PPB,
    GDISP_SCREEN_WIDTH, GDISP_SCREEN_HEIGHT, bitpos_of] at *
  omega

theorem byte_write_step (s : State) (bx by_ dy k i color : Nat)
    (hbx : bx < BLOCKS_X) (hby : by_ < BLOCKS_Y) (hdy : dy < EINK_BLOCKHEIGHT)
    (hk : k < WIDTH_BYTES) (hi : i < 4)
    (hm : s.g_blockmap by_ bx ≠ 0) (hr : s.g_blockmap by_ bx ≤ EINK_NUMBUFFERS) :
    gdisp_lld_draw_pixel s ((bx * EINK_BLOCKWIDTH + 4 * k + i : Nat) : Int)
        ((by_ * EINK_BLOCKHEIGHT + dy : Nat) : Int) color =
      Except.ok
        ({ s with
            g_blocks := set3 s.g_blocks (s.g_blockmap by_ bx - 1) dy k
              (stored_byte (s.g_blocks (s.g_blockmap by_ bx - 1) dy k) (bitpos_of i) color) },
         []) := by
  obtain ⟨h1, h2, h3, h4, h5, h6, h7⟩ := byte_coords bx by_ dy k i hbx hby hdy hk hi
  have h := draw_pixel_resident s _ _ color h1 h2 (by rw [h3, h4]; exact hm)
    (by rw [h3, h4]; exact hr)
  rw [h3, h4, h5, h6, h7] at h
  exact h

theorem byte_writes_resident (c : Nat → Nat) (bx by_ dy k : Nat)
    (hbx : bx < BLOCKS_X) (hby : by_ < BLOCKS_Y) (hdy : dy < EINK_BLOCKHEIGHT)
    (hk : k < WIDTH_BYTES) :
    ∀ (order : List Nat) (s : State), (∀ i ∈ order, i < 4) →
      s.g_blockmap by_ bx ≠ 0 → s.g_blockmap by_ bx ≤ EINK_NUMBUFFERS →
      ∃ s2, draw_pixels s (byte_writes bx by_ dy k c order) = Except.ok (s2, []) ∧
        s2.g_blockmap = s.g_blockmap ∧
        (∀ j < 4, j ∈ order →
          field (s2.g_blocks (s.g_blockmap by_ bx - 1) dy k) (6 - 2 * j) = code (c j)) ∧
        (∀ j < 4, j ∉ order →
          field (s2.g_blocks (s.g_blockmap by_ bx - 1) dy k) (6 - 2 * j)
            = field (s.g_blocks (s.g_blockmap by_ bx - 1) dy k) (6 - 2 * j)) ∧
        (s.g_blocks (s.g_blockmap by_ bx - 1) dy k < 256 →
          s2.g_blocks (s.g_blockmap by_ bx - 1) dy k < 256) := by
  intro order
  induction order with
  | nil =>
    intro s _ _ _
    exact ⟨s, rfl, rfl, fun j _ hj => absurd hj (List.not_mem_nil j), fun _ _ _ => rfl,
      fun h => h⟩
  | cons i rest ih =>
    intro s hall hm hr
    have hi : i < 4 := hall i (List.mem_cons_self i rest)
    obtain ⟨s1, hstep, h1map, h1byte⟩ : ∃ s1,
        gdisp_lld_draw_pixel s ((bx * EINK_BLOCKWIDTH + 4 * k + i : Nat) : Int)
          ((by_ * EINK_BLOCKHEIGHT + dy : Nat) : Int) (c i) = Except.ok (s1, []) ∧
        s1.g_blockmap = s.g_blockmap ∧
        s1.g_blocks (s.g_blockmap by_ bx - 1) dy k
          = stored_byte (s.g_blocks (s.g_blockmap by_ bx - 1) dy k) (bitpos_of i) (c i) :=
      ⟨_, byte_write_step s bx by_ dy k i (c i) hbx hby hdy hk hi hm hr, rfl,
        by simp only [set3_apply, and_self, if_true]⟩
    have hm1 : s1.g_blockmap by_ bx ≠ 0 := by rw [h1map]; exact hm
    have hr1 : s1.g_blockmap by_ bx ≤ EINK_NUMBUFFERS := by rw [h1map]; exact hr
    obtain ⟨s2, hs2, hmap, hin, hout, hlt⟩ :=
      ih s1 (fun j hj => hall j (List.mem_cons_of_mem i hj)) hm1 hr1
    rw [h1map] at hin hout hlt hmap
    rw [h1byte] at hout hlt
    have hi4 : i % 4 = i := Nat.mod_eq_of_lt hi
    refine ⟨s2, ?_, hmap, ?_, ?_, fun _ => hlt (stored_byte_lt _ i (c i))⟩
    · exact draw_pixels_cons_ok s s1 s2 [] []
        (bx * EINK_BLOCKWIDTH + 4 * k + i, by_ * EINK_BLOCKHEIGHT + dy, c i)
        (byte_writes bx by_ dy k c rest) hstep hs2
    · intro j hj hmem
      by_cases hjr : j ∈ rest
      · exact hin j hj hjr
      · have hji : j = i := by
          rcases List.mem_cons.mp hmem with h | h
          · exact h
          · exact absurd h hjr
        rw [hout j hj hjr, hji]
        have hf := stored_byte_field (s.g_blocks (s.g_blockmap by_ bx - 1) dy k) i (c i)
        rw [bitpos_of_eq i, hi4] at hf
        rw [bitpos_of_eq i, hi4]
        exact hf
    · intro j hj hmem
      have hjr : j ∉ rest := fun h => hmem (List.mem_cons_of_mem i h)
      have hji : j ≠ i := fun h => hmem (h ▸ List.mem_cons_self i rest)
      rw [hout j hj hjr]
      have hj4 : j % 4 = j := Nat.mod_eq_of_lt hj
      have ho := stored_byte_other (s.g_blocks (s.g_blockmap by_ bx - 1) dy k) i j (c i)
        (by rw [hj4, hi4]; exact hji)
      rw [bitpos_of_eq j, hj4] at ho
      exact ho

theorem byte_write_first (s : State) (bx by_ dy k i color : Nat)
    (hbx : bx < BLOCKS_X) (hby : by_ < BLOCKS_Y) (hdy : dy < EINK_BLOCKHEIGHT)
    (hk : k < WIDTH_BYTES) (hi : i < 4) (hr : s.g_blockmap by_ bx ≤ EINK_NUMBUFFERS) :
    ∃ s1 tr b,
      gdisp_lld_draw_pixel s ((bx * EINK_BLOCKWIDTH + 4 * k + i : Nat) : Int)
        ((by_ * EINK_BLOCKHEIGHT + dy : Nat) : Int) color = Except.ok (s1, tr) ∧
      s1.g_blockmap by_ bx ≠ 0 ∧ s1.g_blockmap by_ bx ≤ EINK_NUMBUFFERS ∧
      s1.g_blocks (s1.g_blockmap by_ bx - 1) dy k = stored_byte b (bitpos_of i) color := by
  by_cases hm : s.g_blockmap by_ bx = 0
  · obtain ⟨h1, h2, h3, h4, h5, h6, h7⟩ := byte_coords bx by_ dy k i hbx hby hdy hk hi
    have h := draw_pixel_fresh s _ _ color h1 h2 (by rw [h3, h4]; exact hm)
    rw [h3, h4, h5, h6, h7] at h
    have hlt := alloc_buffer_flush_cursor s
    refine ⟨_, _, 0, h, ?_, ?_, ?_⟩
    · simp [set2_apply]
    · simp only [set2_apply, and_self, if_true]
      omega
    · simp only [set2_apply, set3_apply, and_self, if_true, Nat.add_sub_cancel]
  · exact ⟨_, _, s.g_blocks (s.g_blockmap by_ bx - 1) dy k,
      byte_write_step s bx by_ dy k i color hbx hby hdy hk hi hm hr, hm, hr,
      by simp only [set3_apply, and_self, if_true]⟩

/-- C7 (`EINK_PPB = 4`): for every cache state satisfying the cache invariant
(in particular one in which the tile has just been allocated and is
zero-filled, and also one in which the first of the writes allocates it),
every choice of colours `c 0 .. c 3` and every order of writing the four
pixels that share packed byte `k` of line `dy` of a tile, the four
`gdisp_lld_draw_pixel` calls return and the byte ends up as
`code (c 0) * 64 + code (c 1) * 16 + code (c 2) * 4 + code (c 3)`, with code 2
for a non-zero colour and 1 for zero; all white gives `BYTE_WHITE = 0xAA`, all
black gives `BYTE_BLACK = 0x55`. -/
theorem packed_byte_of_four_writes (s : State) (bx by_ dy k : Nat) (c : Nat → Nat)
    (order : List Nat) (hinv : CacheInv s)
    (hbx : bx < BLOCKS_X) (hby : by_ < BLOCKS_Y) (hdy : dy < EINK_BLOCKHEIGHT)
    (hk : k < WIDTH_BYTES) (hperm : order.Perm [0, 1, 2, 3]) :
    ∃ s2 tr, draw_pixels s (byte_writes bx by_ dy k c order) = Except.ok (s2, tr) ∧
      s2.g_blockmap by_ bx ≠ 0 ∧
      s2.g_blocks (s2.g_blockmap by_ bx - 1) dy k
        = code (c 0) * 64 + code (c 1) * 16 + code (c 2) * 4 + code (c 3) ∧
      ((∀ i < 4, c i ≠ 0) → s2.g_blocks (s2.g_blockmap by_ bx - 1) dy k = BYTE_WHITE) ∧
      ((∀ i < 4, c i = 0) → s2.g_blocks (s2.g_blockmap by_ bx - 1) dy k = BYTE_BLACK) := by
  have hmem : ∀ j, j ∈ order ↔ j ∈ [0, 1, 2, 3] := fun j => hperm.mem_iff
  have hall : ∀ j ∈ order, j < 4 := by
    intro j hj
    have := (hmem j).mp hj
    simp only [List.mem_cons, List.mem_singleton, List.mem_nil_iff, or_false] at this
    omega
  have hcover : ∀ j < 4, j ∈ order := by
    intro j hj
    apply (hmem j).mpr
    simp only [List.mem_cons, List.mem_singleton, List.mem_nil_iff, or_false]
    omega
  have hnodup : order.Nodup := hperm.nodup_iff.mpr (by decide)
  cases order with
  | nil => exact absurd (hcover 0 (by decide)) (List.not_mem_nil 0)
  | cons i0 rest =>
    have hi0 : i0 < 4 := hall i0 (List.mem_cons_self i0 rest)
    have hi0r : i0 ∉ rest := (List.nodup_cons.mp hnodup).1
    obtain ⟨s1, tr, b, hstep, hm1, hr1, hb1⟩ := byte_write_first s bx by_ dy k i0 (c i0)
      hbx hby hdy hk hi0 (CacheInv.entry_le s hinv by_ bx hby hbx)
    obtain ⟨s2, hs2, hmap, hin, hout, hlt⟩ := byte_writes_resident c bx by_ dy k hbx hby hdy hk
      rest s1 (fun j hj => hall j (List.mem_cons_of_mem i0 hj)) hm1 hr1
    have hfield : ∀ j < 4,
        field (s2.g_blocks (s1.g_blockmap by_ bx - 1) dy k) (6 - 2 * j) = code (c j) := by
      intro j hj
      by_cases hjr : j ∈ rest
      · exact hin j hj hjr
      · have hji : j = i0 := by
          rcases List.mem_cons.mp (hcover j hj) with h | h
          · exact h
          · exact absurd h hjr
        rw [hout j hj hjr, hb1, hji]
        have hf := stored_byte_field b i0 (c i0)
        rw [bitpos_of_eq i0, Nat.mod_eq_of_lt hi0] at hf
        rw [bitpos_of_eq i0, Nat.mod_eq_of_lt hi0]
        exact hf
    have hsmall : s2.g_blocks (s1.g_blockmap by_ bx - 1) dy k < 256 := by
      apply hlt
      rw [hb1]
      exact stored_byte_lt b i0 (c i0)
    have hbyte : s2.g_blocks (s1.g_blockmap by_ bx - 1) dy k
        = code (c 0) * 64 + code (c 1) * 16 + code (c 2) * 4 + code (c 3) := by
      have h := byte_of_fields _ hsmall
      have f0 := hfield 0 (by decide)
      have f1 := hfield 1 (by decide)
      have f2 := hfield 2 (by decide)
      have f3 := hfield 3 (by decide)
      norm_num at f0 f1 f2 f3
      rw [f0, f1, f2, f3] at h
      exact h
    have hmap2 : s2.g_blockmap by_ bx = s1.g_blockmap by_ bx := by rw [hmap]
    have hseq := draw_pixels_cons_ok s s1 s2 tr []
      (bx * EINK_BLOCKWIDTH + 4 * k + i0, by_ * EINK_BLOCKHEIGHT + dy, c i0)
      (byte_writes bx by_ dy k c rest) hstep hs2
    refine ⟨s2, tr ++ [], hseq, ?_, ?_, ?_, ?_⟩
    · rw [hmap2]
      exact hm1
    · rw [hmap2]
      exact hbyte
    · intro hw
      rw [hmap2, hbyte]
      simp [code, hw 0 (by decide), hw 1 (by decide), hw 2 (by decide), hw 3 (by decide),
        PIXEL_WHITE, BYTE_WHITE]
    · intro hblack
      rw [hmap2, hbyte]
      simp [code, hblack 0 (by decide), hblack 1 (by decide), hblack 2 (by decide),
        hblack 3 (by decide), PIXEL_BLACK, BYTE_BLACK]

/-- Witness of C7: from the zero-initialised globals, where the first write
allocates the tile `(1, 0)` afresh: byte 2 of line 7, colours black, white,
black, white, written in the order 2, 0, 3, 1. -/
theorem packed_byte_of_four_writes_witness :
    ∃ s2 tr, draw_pixels zero_state (byte_writes 1 0 7 2 (fun i => i % 2) [2, 0, 3, 1])
        = Except.ok (s2, tr) ∧
      s2.g_blockmap 0 1 ≠ 0 ∧
      s2.g_blocks (s2.g_blockmap 0 1 - 1) 7 2
        = code (0 % 2) * 64 + code (1 % 2) * 16 + code (2 % 2) * 4 + code (3 % 2) ∧
      ((∀ i < 4, i % 2 ≠ 0) → s2.g_blocks (s2.g_blockmap 0 1 - 1) 7 2 = BYTE_WHITE) ∧
      ((∀ i < 4, i % 2 = 0) → s2.g_blocks (s2.g_blockmap 0 1 - 1) 7 2 = BYTE_BLACK) :=
  packed_byte_of_four_writes zero_state 1 0 7 2 (fun i => i % 2) [2, 0, 3, 1] zero_state_inv
    (by decide) (by decide) (by decide) (by decide) (by decide)

/-! ## Allocation bound -/

theorem tiles_touched_nil : tiles_touched [] = ∅ := rfl

theorem tiles_touched_cons (p : Nat × Nat × Nat) (rest : List (Nat × Nat × Nat)) :
    tiles_touched (p :: rest) = insert (tile_of p) (tiles_touched rest) := by
  unfold tiles_touched
  rw [List.map_cons, List.toFinset_cons]

theorem Tracks.resident_step (s : State) (T : Finset (Nat × Nat)) (h : Tracks s T)
    (g : Nat → Nat → Nat → Nat) : Tracks { s with g_blocks := g } T := h

theorem Tracks.fresh_step (s : State) (T : Finset (Nat × Nat)) (h : Tracks s T)
    (tx ty : Nat) (ht : (tx, ty) ∉ T) (hroom : T.card < EINK_NUMBUFFERS)
    (g : Nat → Nat → Nat → Nat) :
    Tracks { g_next_block := s.g_next_block + 1,
             g_blockmap := set2 s.g_blockmap ty tx (s.g_next_block + 1),
             g_blocks := g, GDISP := s.GDISP } (insert (tx, ty) T) := by
  obtain ⟨hc, hmap, hle⟩ := h
  refine ⟨?_, ?_, ?_⟩
  · show s.g_next_block + 1 = (insert (tx, ty) T).card
    rw [Finset.card_insert_of_not_mem ht, hc]
  · intro by_ hby bx hbx
    show set2 s.g_blockmap ty tx (s.g_next_block + 1) by_ bx ≠ 0 ↔ (bx, by_) ∈ insert (tx, ty) T
    rw [set2_apply, Finset.mem_insert]
    by_cases heq : by_ = ty ∧ bx = tx
    · rw [if_pos heq]
      obtain ⟨h1, h2⟩ := heq
      subst h1 h2
      exact ⟨fun _ => Or.inl rfl, fun _ => Nat.succ_ne_zero _⟩
    · rw [if_neg heq]
      constructor
      · intro h
        exact Or.inr ((hmap by_ hby bx hbx).mp h)
      · intro h
        rcases h with h | h
        · exact absurd ⟨(Prod.mk.inj h).2, (Prod.mk.inj h).1⟩ heq
        · exact (hmap by_ hby bx hbx).mpr h
  · intro by_ hby bx hbx
    show set2 s.g_blockmap ty tx (s.g_next_block + 1) by_ bx ≤ EINK_NUMBUFFERS
    rw [set2_apply]
    split_ifs
    · omega
    · exact hle by_ hby bx hbx

theorem draw_pixels_tracks (ps : List (Nat × Nat × Nat)) :
    ∀ (s : State) (T : Finset (Nat × Nat)), Tracks s T →
      (∀ p ∈ ps, p.1 < GDISP_SCREEN_WIDTH ∧ p.2.1 < GDISP_SCREEN_HEIGHT) →
      (T ∪ tiles_touched ps).card ≤ EINK_NUMBUFFERS →
      ∃ s1, draw_pixels s ps = Except.ok (s1, []) ∧ Tracks s1 (T ∪ tiles_touched ps) := by
  induction ps with
  | nil =>
    intro s T h _ _
    refine ⟨s, rfl, ?_⟩
    rw [tiles_touched_nil, Finset.union_empty]
    exact h
  | cons p rest ih =>
    intro s T h hin hcard
    have hp := hin p (List.mem_cons_self p rest)
    have hrest : ∀ q ∈ rest, q.1 < GDISP_SCREEN_WIDTH ∧ q.2.1 < GDISP_SCREEN_HEIGHT :=
      fun q hq => hin q (List.mem_cons_of_mem p hq)
    have ht := tile_lt p.1 p.2.1 hp.1 hp.2
    rw [tiles_touched_cons] at hcard ⊢
    have hunion : T ∪ insert (tile_of p) (tiles_touched rest)
        = insert (tile_of p) T ∪ tiles_touched rest := by
      rw [Finset.union_insert, Finset.insert_union]
    by_cases hm : s.g_blockmap (p.2.1 / EINK_BLOCKHEIGHT) (p.1 / EINK_BLOCKWIDTH) = 0
    · have hnot : (p.1 / EINK_BLOCKWIDTH, p.2.1 / EINK_BLOCKHEIGHT) ∉ T := by
        intro hmem
        exact (h.2.1 _ ht.1 _ ht.2).mpr hmem hm
      have hsub : (insert (tile_of p) T).card ≤ EINK_NUMBUFFERS := by
        refine le_trans (Finset.card_le_card ?_) hcard
        rw [hunion]
        exact Finset.subset_union_left
      have hroom : T.card < EINK_NUMBUFFERS := by
        have hc : (insert (tile_of p) T).card = T.card + 1 :=
          Finset.card_insert_of_not_mem hnot
        omega
      have hroom2 : s.g_next_block < EINK_NUMBUFFERS := by
        rw [h.1]
        exact hroom
      have hstep := draw_pixel_fresh s p.1 p.2.1 p.2.2 hp.1 hp.2 hm
      rw [alloc_buffer_flush_room s hroom2] at hstep
      have htr := Tracks.fresh_step s T h _ _ hnot hroom
        (set3
          (fun a b c =>
            if a = s.g_next_block ∧ b < EINK_BLOCKHEIGHT ∧ c < WIDTH_BYTES then 0
            else s.g_blocks a b c)
          s.g_next_block (p.2.1 % EINK_BLOCKHEIGHT) (p.1 % EINK_BLOCKWIDTH / EINK_PPB)
          (stored_byte 0 (bitpos_of (p.1 % EINK_BLOCKWIDTH)) p.2.2))
      obtain ⟨s1, hs1, htr1⟩ := ih _ (insert (tile_of p) T) htr hrest
        (by rw [← hunion]; exact hcard)
      refine ⟨s1, ?_, ?_⟩
      · exact draw_pixels_cons_ok s _ s1 [] [] p rest hstep hs1
      · rw [hunion]
        exact htr1
    · have hmem : tile_of p ∈ T := (h.2.1 _ ht.1 _ ht.2).mp hm
      have hr := h.2.2 _ ht.1 _ ht.2
      have hstep := draw_pixel_resident s p.1 p.2.1 p.2.2 hp.1 hp.2 hm hr
      have hins : insert (tile_of p) T = T := Finset.insert_eq_of_mem hmem
      have htr := Tracks.resident_step s T h
        (set3 s.g_blocks
          (s.g_blockmap (p.2.1 / EINK_BLOCKHEIGHT) (p.1 / EINK_BLOCKWIDTH) - 1)
          (p.2.1 % EINK_BLOCKHEIGHT) (p.1 % EINK_BLOCKWIDTH / EINK_PPB)
          (stored_byte
            (s.g_blocks (s.g_blockmap (p.2.1 / EINK_BLOCKHEIGHT) (p.1 / EINK_BLOCKWIDTH) - 1)
              (p.2.1 % EINK_BLOCKHEIGHT) (p.1 % EINK_BLOCKWIDTH / EINK_PPB))
            (bitpos_of (p.1 % EINK_BLOCKWIDTH)) p.2.2))
      obtain ⟨s1, hs1, htr1⟩ := ih _ T htr hrest (by rw [← hins, ← hunion]; exact hcard)
      refine ⟨s1, ?_, ?_⟩
      · exact draw_pixels_cons_ok s _ s1 [] [] p rest hstep hs1
      · rw [hunion, hins]
        exact htr1

theorem Tracks.of_empty (s : State) (h : CacheEmpty s) : Tracks s ∅ := by
  refine ⟨?_, ?_, ?_⟩
  · rw [h.2, Finset.card_empty]
  · intro by_ hby bx hbx
    rw [h.1 by_ hby bx hbx]
    simp
  · intro by_ hby bx hbx
    rw [h.1 by_ hby bx hbx]
    exact Nat.zero_le _

/-- C3: starting from an empty cache (the state after `clear_block_map`),
every sequence of in-bounds `gdisp_lld_draw_pixel` calls that touches at most
`EINK_NUMBUFFERS` distinct tiles returns without any hardware event.  If it
has touched exactly `EINK_NUMBUFFERS` distinct tiles, one further call on a
tile not yet touched emits exactly the events of one `flush_buffers` run on
the cache as it was before the call (a non-empty list), and afterwards the
cursor is 1, that tile has map entry 1, every other tile of the grid is
unallocated, and block 0 is zero except for the code of the new pixel in its
2-bit field. -/
theorem allocation_bound (s0 : State) (ps : List (Nat × Nat × Nat))
    (hin : ∀ p ∈ ps, p.1 < GDISP_SCREEN_WIDTH ∧ p.2.1 < GDISP_SCREEN_HEIGHT)
    (hcard : (tiles_touched ps).card ≤ EINK_NUMBUFFERS) :
    ∃ s1, draw_pixels (clear_block_map s0) ps = Except.ok (s1, []) ∧
      ((tiles_touched ps).card = EINK_NUMBUFFERS →
        ∀ x y color : Nat, x < GDISP_SCREEN_WIDTH → y < GDISP_SCREEN_HEIGHT →
          tile_of (x, y, color) ∉ tiles_touched ps →
          ∃ s2, gdisp_lld_draw_pixel s1 x y color = Except.ok (s2, (flush_buffers s1).2) ∧
            (flush_buffers s1).2 ≠ [] ∧
            s2.g_next_block = 1 ∧
            (∀ by_ < BLOCKS_Y, ∀ bx < BLOCKS_X,
              s2.g_blockmap by_ bx
                = if by_ = y / EINK_BLOCKHEIGHT ∧ bx = x / EINK_BLOCKWIDTH then 1 else 0) ∧
            (∀ dy < EINK_BLOCKHEIGHT, ∀ dx < WIDTH_BYTES,
              s2.g_blocks 0 dy dx
                = if dy = y % EINK_BLOCKHEIGHT ∧ dx = x % EINK_BLOCKWIDTH / 4
                  then code color <<< (6 - 2 * (x % EINK_BLOCKWIDTH % 4)) else 0)) := by
  have h0 := Tracks.of_empty _ (clear_block_map_empty s0)
  obtain ⟨s1, hs1, htr⟩ := draw_pixels_tracks ps _ ∅ h0 hin
    (by rw [Finset.empty_union]; exact hcard)
  rw [Finset.empty_union] at htr
  refine ⟨s1, hs1, ?_⟩
  intro hfull x y color hx hy hnew
  have ht := tile_lt x y hx hy
  have hm : s1.g_blockmap (y / EINK_BLOCKHEIGHT) (x / EINK_BLOCKWIDTH) = 0 := by
    by_contra hne
    exact hnew ((htr.2.1 _ ht.1 _ ht.2).mp hne)
  have hcap : EINK_NUMBUFFERS ≤ s1.g_next_block := by
    rw [htr.1, hfull]
  have hstep := draw_pixel_fresh s1 x y color hx hy hm
  rw [alloc_buffer_flush_full s1 hcap] at hstep
  refine ⟨_, hstep, flush_events_ne_nil s1, ?_, ?_, ?_⟩
  · rw [flush_buffers_state, clear_block_map_eq]
  · intro by_ hby bx hbx
    rw [flush_buffers_state, clear_block_map_eq]
    simp only [set2_apply, hby, hbx, and_self, if_true]
  · intro dy hdy dx hdx
    rw [flush_buffers_state, clear_block_map_eq]
    simp only [set3_apply, true_and, hdy, hdx, and_self, if_true, stored_byte_zero, EINK_PPB]

/-- Witness of C3: from the zero-initialised globals, one pixel in each of the
40 tiles of grid row 0, then a black pixel at `(0, 20)` in tile `(0, 1)`. -/
theorem allocation_bound_witness :
    ∃ s1, draw_pixels (clear_block_map zero_state) row0_writes = Except.ok (s1, []) ∧
      ∃ s2, gdisp_lld_draw_pixel s1 ((0 : Nat) : Int) ((20 : Nat) : Int) 0
          = Except.ok (s2, (flush_buffers s1).2) ∧
        (flush_buffers s1).2 ≠ [] ∧
        s2.g_next_block = 1 ∧
        (∀ by_ < BLOCKS_Y, ∀ bx < BLOCKS_X,
          s2.g_blockmap by_ bx
            = if by_ = 20 / EINK_BLOCKHEIGHT ∧ bx = 0 / EINK_BLOCKWIDTH then 1 else 0) ∧
        (∀ dy < EINK_BLOCKHEIGHT, ∀ dx < WIDTH_BYTES,
          s2.g_blocks 0 dy dx
            = if dy = 20 % EINK_BLOCKHEIGHT ∧ dx = 0 % EINK_BLOCKWIDTH / 4
              then code 0 <<< (6 - 2 * (0 % EINK_BLOCKWIDTH % 4)) else 0) := by
  obtain ⟨s1, h1, h2⟩ := allocation_bound zero_state row0_writes (by decide) (by decide)
  exact ⟨s1, h1, h2 (by decide) 0 20 0 (by decide) (by decide) (by decide)⟩

/-! ## Waveform sequences -/

theorem flatMap_range_const (n : Nat) (w : List Event) :
    ((List.range n).flatMap fun _ => w) = repeat_wave n w := by
  unfold repeat_wave
  induction n with
  | zero => rfl
  | succ n ih =>
    rw [List.range_succ, List.flatMap_append, ih, List.replicate_succ', List.flatten_append]
    simp

theorem repeat_wave_mul (m n : Nat) (w : List Event) :
    repeat_wave m (repeat_wave n w) = repeat_wave (m * n) w := by
  unfold repeat_wave
  induction m with
  | zero => simp
  | succ m ih =>
    rw [List.replicate_succ, List.flatten_cons, ih, Nat.succ_mul, Nat.add_comm (m * n) n,
      List.replicate_add, List.flatten_append]

theorem all_repeat_wave (n : Nat) (w : List Event) (p : Event → Bool) (h : w.all p = true) :
    (repeat_wave n w).all p = true := by
  rw [← flatMap_range_const]
  exact all_flatMap_range n _ p (fun _ => h)

theorem hscan_write_eq (data : Nat → Nat) (count : Nat) :
    hscan_write data count = shift_out ((List.range count).map data) := by
  unfold hscan_write shift_out
  induction (List.range count) with
  | nil => rfl
  | cons i l ih =>
    rw [List.flatMap_cons, List.map_cons, List.flatMap_cons, ih]
    rfl

theorem shift_out_append (a b : List Nat) : shift_out (a ++ b) = shift_out a ++ shift_out b := by
  unfold shift_out
  rw [List.flatMap_append]

theorem data_bytes_append (a b : List Event) :
    data_bytes (a ++ b) = data_bytes a ++ data_bytes b := by
  unfold data_bytes
  rw [List.filterMap_append]

theorem data_bytes_shift_out (bytes : List Nat) : data_bytes (shift_out bytes) = bytes := by
  induction bytes with
  | nil => rfl
  | cons b l ih =>
    have h : shift_out (b :: l) = shift_out [b] ++ shift_out l := shift_out_append [b] l
    rw [h, data_bytes_append, ih]
    rfl

theorem data_bytes_of_all (tr : List Event)
    (h : ∀ e ∈ tr, ∀ v, e ≠ Event.setpins_data v) : data_bytes tr = [] := by
  unfold data_bytes
  rw [List.filterMap_eq_nil_iff]
  intro e he
  cases e <;> first | rfl | exact absurd rfl (h _ he _)

/-- C11: the events of `power_on` are Vdd-on first, then the signal levels, a
100 microsecond sleep, Vneg-on, a 1000 microsecond sleep, Vpos-on, and only
then `vscan_start`, exactly `GDISP_SCREEN_HEIGHT` quick gate clocks and
`vscan_stop`, none of which switches a power rail; the events of `power_off`
are Vpos-off, Vneg-off, a 100 ms sleep, then LE, OE, CL, SPH, the data bus,
CKV, GMODE and SPV set low, and Vdd-off last. -/
theorem power_rail_sequencing :
    power_on =
      [Event.setpower_vdd true]
      ++ [Event.setpin_le false, Event.setpin_oe false, Event.setpin_cl false,
          Event.setpin_sph true, Event.setpins_data 0, Event.setpin_ckv false,
          Event.setpin_gmode false, Event.setpin_spv true]
      ++ [Event.gfxSleepMicroseconds 100]
      ++ [Event.setpower_vneg true]
      ++ [Event.gfxSleepMicroseconds 1000]
      ++ [Event.setpower_vpos true]
      ++ (vscan_start ++ repeat_wave GDISP_SCREEN_HEIGHT vclock_quick ++ vscan_stop) ∧
    (vscan_start ++ repeat_wave GDISP_SCREEN_HEIGHT vclock_quick ++ vscan_stop).all
      (fun e => !is_power_event e) = true ∧
    power_off =
      [Event.setpower_vpos false, Event.setpower_vneg false]
      ++ [Event.gfxSleepMilliseconds 100]
      ++ [Event.setpin_le false, Event.setpin_oe false, Event.setpin_cl false,
          Event.setpin_sph false, Event.setpins_data 0, Event.setpin_ckv false,
          Event.setpin_gmode false, Event.setpin_spv false]
      ++ [Event.setpower_vdd false] := by
  refine ⟨?_, ?_, rfl⟩
  · unfold power_on
    rw [flatMap_range_const]
    simp only [List.append_assoc]
    rfl
  · rw [List.all_append, List.all_append, Bool.and_eq_true, Bool.and_eq_true]
    exact ⟨⟨by decide, all_repeat_wave _ _ _ (by decide)⟩, by decide⟩

theorem flatMap_range_congr (n : Nat) (f g : Nat → List Event) (h : ∀ i < n, f i = g i) :
    (List.range n).flatMap f = (List.range n).flatMap g := by
  induction n with
  | zero => rfl
  | succ n ih =>
    rw [List.range_succ, List.flatMap_append, List.flatMap_append,
      ih (fun i hi => h i (Nat.lt_succ_of_lt hi))]
    simp only [List.flatMap_cons, List.flatMap_nil, List.append_nil]
    rw [h n (Nat.lt_succ_self n)]

theorem flatMap_map_add (l : List Nat) (k : Nat) (g : Nat → List Event) :
    (l.map fun b => k + b).flatMap g = l.flatMap fun b => g (k + b) := by
  induction l with
  | nil => rfl
  | cons a l ih => rw [List.map_cons, List.flatMap_cons, List.flatMap_cons, ih]

theorem flatMap_range_mul (n m : Nat) (g : Nat → List Event) :
    (List.range (n * m)).flatMap g
      = (List.range n).flatMap fun a => (List.range m).flatMap fun b => g (a * m + b) := by
  induction n with
  | zero => simp
  | succ n ih =>
    rw [Nat.succ_mul, List.range_add, List.flatMap_append, ih, List.range_succ,
      List.flatMap_append, flatMap_map_add]
    simp only [List.flatMap_cons, List.flatMap_nil, List.append_nil]

theorem shift_out_replicate (n b : Nat) :
    shift_out (List.replicate n b) = repeat_wave n (shift_out [b]) := by
  induction n with
  | zero => rfl
  | succ n ih =>
    have h : List.replicate (n + 1) b = [b] ++ List.replicate n b := rfl
    rw [h, shift_out_append, ih]
    rfl

theorem shift_out_flatMap (l : List Nat) (f : Nat → List Nat) :
    shift_out (l.flatMap f) = l.flatMap fun a => shift_out (f a) := by
  induction l with
  | nil => rfl
  | cons a l ih => rw [List.flatMap_cons, shift_out_append, ih, List.flatMap_cons]

theorem blocks_on_row_iff (s : State) (by_ : Nat) :
    blocks_on_row s by_ = true ↔ RowResident s by_ := by
  unfold blocks_on_row RowResident
  rw [List.any_eq_true]
  constructor
  · rintro ⟨bx, hbx, h⟩
    exact ⟨bx, List.mem_range.mp hbx, by simpa using h⟩
  · rintro ⟨bx, hbx, h⟩
    exact ⟨bx, List.mem_range.mpr hbx, by simpa using h⟩

theorem tile_events_eq (s : State) (by_ bx dy : Nat) :
    (if s.g_blockmap by_ bx = 0 then
        (List.range WIDTH_BYTES).flatMap fun _ => hscan_write (fun _ => 0) 1
      else hscan_write (fun i => s.g_blocks (s.g_blockmap by_ bx - 1) dy (0 + i)) WIDTH_BYTES)
      = shift_out (tile_line_bytes s by_ bx dy) := by
  unfold tile_line_bytes
  split_ifs with h
  · rw [flatMap_range_const, shift_out_replicate, hscan_write_eq]
    rfl
  · rw [hscan_write_eq]
    simp only [Nat.zero_add]

theorem write_block_row_eq (s : State) (by_ : Nat) :
    write_block_row s by_
      = (List.range EINK_BLOCKHEIGHT).flatMap fun dy => shift_line s by_ dy ++ vscan_write := by
  unfold write_block_row shift_line line_bytes
  apply flatMap_range_congr
  intro dy _
  rw [shift_out_flatMap]
  simp only [tile_events_eq]

theorem flush_events_eq_passes (s : State) :
    flush_events s = repeat_wave EINK_WRITECOUNT (scan_pass s) := by
  unfold flush_events
  rw [flatMap_range_const]
  congr 1
  unfold scan_pass
  have hh : GDISP_SCREEN_HEIGHT = BLOCKS_Y * EINK_BLOCKHEIGHT := by decide
  rw [hh, flatMap_range_mul]
  congr 2
  apply flatMap_range_congr
  intro by_ _
  by_cases hres : RowResident s by_
  · have hb : blocks_on_row s by_ = true := (blocks_on_row_iff s by_).mpr hres
    simp only [hb, Bool.not_true, if_false, Bool.false_eq_true, write_block_row_eq]
    apply flatMap_range_congr
    intro dy hdy
    have h1 : (by_ * EINK_BLOCKHEIGHT + dy) / EINK_BLOCKHEIGHT = by_ := by
      simp only [EINK_BLOCKHEIGHT] at hdy ⊢
      omega
    have h2 : (by_ * EINK_BLOCKHEIGHT + dy) % EINK_BLOCKHEIGHT = dy := by
      simp only [EINK_BLOCKHEIGHT] at hdy ⊢
      omega
    unfold scan_row
    rw [h1, h2, if_pos hres]
  · have hb : blocks_on_row s by_ = false := by
      cases h : blocks_on_row s by_
      · rfl
      · exact absurd ((blocks_on_row_iff s by_).mp h) hres
    simp only [hb, Bool.not_false, if_true]
    apply flatMap_range_congr
    intro dy hdy
    have h1 : (by_ * EINK_BLOCKHEIGHT + dy) / EINK_BLOCKHEIGHT = by_ := by
      simp only [EINK_BLOCKHEIGHT] at hdy ⊢
      omega
    unfold scan_row
    rw [h1, if_neg hres]

/-! ## Flushing an empty cache -/

theorem all_shift_out (bytes : List Nat) (p : Event → Bool)
    (hd : ∀ v, p (Event.setpins_data v) = true)
    (hc : p (Event.setpin_cl true) = true ∧ p (Event.setpin_cl false) = true) :
    (shift_out bytes).all p = true := by
  unfold shift_out
  rw [List.all_flatMap, List.all_eq_true]
  intro b _
  simp [hd, hc.1, hc.2]

theorem not_mem_of_all (tr : List Event) (p : Event → Bool) (e : Event)
    (h : tr.all p = true) (he : p e = false) : e ∉ tr := by
  intro hmem
  rw [List.all_eq_true] at h
  rw [h e hmem] at he
  exact Bool.noConfusion he

theorem data_bytes_of_no_data (tr : List Event)
    (h : tr.all (fun e => !is_data_event e) = true) : data_bytes tr = [] := by
  apply data_bytes_of_all
  intro e he v hv
  exact not_mem_of_all tr _ (Event.setpins_data v) h rfl (hv ▸ he)

theorem tile_row_lt (r : Nat) (h : r < GDISP_SCREEN_HEIGHT) : r / EINK_BLOCKHEIGHT < BLOCKS_Y := by
  simp only [GDISP_SCREEN_HEIGHT] at h
  simp only [EINK_BLOCKHEIGHT, BLOCKS_Y, GDISP_SCREEN_HEIGHT]
  omega

theorem not_row_resident (s : State) (h : NoResident s) (by_ : Nat) (hby : by_ < BLOCKS_Y) :
    ¬ RowResident s by_ := by
  rintro ⟨bx, hbx, hne⟩
  exact hne (h by_ hby bx hbx)

theorem scan_pass_empty (s : State) (h : NoResident s) :
    scan_pass s = vscan_start ++ repeat_wave GDISP_SCREEN_HEIGHT vscan_skip ++ vscan_stop := by
  unfold scan_pass
  rw [← flatMap_range_const]
  congr 2
  apply flatMap_range_congr
  intro r hr
  unfold scan_row
  rw [if_neg (not_row_resident s h _ (tile_row_lt r hr))]

theorem all_empty_pass (p : Event → Bool) (h1 : vscan_start.all p = true)
    (h2 : vscan_skip.all p = true) (h3 : vscan_stop.all p = true) :
    (repeat_wave EINK_WRITECOUNT
      (vscan_start ++ repeat_wave GDISP_SCREEN_HEIGHT vscan_skip ++ vscan_stop)).all p = true := by
  apply all_repeat_wave
  rw [List.all_append, List.all_append, Bool.and_eq_true, Bool.and_eq_true]
  exact ⟨⟨h1, all_repeat_wave _ _ _ h2⟩, h3⟩

/-- C12: `flush_buffers` run on a cache with no resident tile emits
`EINK_WRITECOUNT` passes, each `vscan_start`, then `EINK_BLOCKHEIGHT` skip
waveforms for every one of the `BLOCKS_Y` grid rows, that is
`GDISP_SCREEN_HEIGHT` skips, then `vscan_stop`; the output-enable pin is never
touched, so no write waveform occurs. -/
theorem empty_flush_skips_every_row (s : State) (h : NoResident s) :
    flush_events s
      = repeat_wave EINK_WRITECOUNT
          (vscan_start ++ repeat_wave BLOCKS_Y (repeat_wave EINK_BLOCKHEIGHT vscan_skip)
            ++ vscan_stop) ∧
    repeat_wave BLOCKS_Y (repeat_wave EINK_BLOCKHEIGHT vscan_skip)
      = repeat_wave GDISP_SCREEN_HEIGHT vscan_skip ∧
    (flush_events s).count (Event.eink_delay 100) = EINK_WRITECOUNT * GDISP_SCREEN_HEIGHT ∧
    (flush_events s).all (fun e => !is_oe_event e) = true ∧
    ¬ (vscan_write <:+: flush_events s) := by
  have hmul : repeat_wave BLOCKS_Y (repeat_wave EINK_BLOCKHEIGHT vscan_skip)
      = repeat_wave GDISP_SCREEN_HEIGHT vscan_skip := repeat_wave_mul _ _ _
  have heq : flush_events s = repeat_wave EINK_WRITECOUNT
      (vscan_start ++ repeat_wave GDISP_SCREEN_HEIGHT vscan_skip ++ vscan_stop) := by
    rw [flush_events_eq_passes, scan_pass_empty s h]
  have hoe : (flush_events s).all (fun e => !is_oe_event e) = true := by
    rw [heq]
    exact all_empty_pass _ (by decide) (by decide) (by decide)
  refine ⟨by rw [hmul]; exact heq, hmul, ?_, hoe, ?_⟩
  · rw [heq]
    have hc : ∀ n, (repeat_wave n vscan_skip).count (Event.eink_delay 100) = n := by
      intro n
      unfold repeat_wave
      induction n with
      | zero => rfl
      | succ n ih =>
        rw [List.replicate_succ, List.flatten_cons, List.count_append, ih]
        have : vscan_skip.count (Event.eink_delay 100) = 1 := by decide
        omega
    have hp : (vscan_start ++ repeat_wave GDISP_SCREEN_HEIGHT vscan_skip ++ vscan_stop).count
        (Event.eink_delay 100) = GDISP_SCREEN_HEIGHT := by
      rw [List.count_append, List.count_append, hc]
      have h1 : vscan_start.count (Event.eink_delay 100) = 0 := by decide
      have h2 : vscan_stop.count (Event.eink_delay 100) = 0 := by decide
      omega
    have hw : ∀ n (w : List Event), (repeat_wave n w).count (Event.eink_delay 100)
        = n * w.count (Event.eink_delay 100) := by
      intro n w
      unfold repeat_wave
      induction n with
      | zero => simp
      | succ n ih =>
        rw [List.replicate_succ, List.flatten_cons, List.count_append, ih, Nat.succ_mul]
        omega
    rw [hw, hp]
  · intro hin
    have hmem : Event.setpin_oe true ∈ flush_events s :=
      hin.subset (by decide)
    exact not_mem_of_all _ _ (Event.setpin_oe true) hoe rfl hmem

/-- Witness of C12: the zero-initialised globals, where no tile is resident. -/
theorem empty_flush_skips_every_row_witness :
    flush_events zero_state
      = repeat_wave EINK_WRITECOUNT
          (vscan_start ++ repeat_wave BLOCKS_Y (repeat_wave EINK_BLOCKHEIGHT vscan_skip)
            ++ vscan_stop) ∧
    repeat_wave BLOCKS_Y (repeat_wave EINK_BLOCKHEIGHT vscan_skip)
      = repeat_wave GDISP_SCREEN_HEIGHT vscan_skip ∧
    (flush_events zero_state).count (Event.eink_delay 100)
      = EINK_WRITECOUNT * GDISP_SCREEN_HEIGHT ∧
    (flush_events zero_state).all (fun e => !is_oe_event e) = true ∧
    ¬ (vscan_write <:+: flush_events zero_state) :=
  empty_flush_skips_every_row zero_state (fun _ _ _ _ => rfl)

theorem data_bytes_shift_line (s : State) (by_ dy : Nat) :
    data_bytes (shift_line s by_ dy ++ vscan_write) = line_bytes s by_ dy := by
  unfold shift_line
  rw [data_bytes_append, data_bytes_append, data_bytes_append, data_bytes_shift_out]
  have h1 : data_bytes hscan_start = [] := rfl
  have h2 : data_bytes hscan_stop = [] := rfl
  have h3 : data_bytes vscan_write = [] := rfl
  rw [h1, h2, h3, List.nil_append, List.append_nil, List.append_nil]

theorem scan_row_at (s : State) (by_ dy : Nat) (hdy : dy < EINK_BLOCKHEIGHT) :
    scan_row s (by_ * EINK_BLOCKHEIGHT + dy)
      = if RowResident s by_ then shift_line s by_ dy ++ vscan_write else vscan_skip := by
  have h1 : (by_ * EINK_BLOCKHEIGHT + dy) / EINK_BLOCKHEIGHT = by_ := by
    simp only [EINK_BLOCKHEIGHT] at hdy ⊢
    omega
  have h2 : (by_ * EINK_BLOCKHEIGHT + dy) % EINK_BLOCKHEIGHT = dy := by
    simp only [EINK_BLOCKHEIGHT] at hdy ⊢
    omega
  unfold scan_row
  rw [h1, h2]

theorem data_bytes_empty_flush (s : State) (h : NoResident s) :
    data_bytes (flush_events s) = [] := by
  apply data_bytes_of_no_data
  rw [flush_events_eq_passes, scan_pass_empty s h]
  exact all_empty_pass _ (by decide) (by decide) (by decide)

/-- C13 (counterexample): flushing the zero-initialised globals, where no tile
is resident, puts no byte at all on the data bus, so the bus does not receive
a run of `WIDTH_BYTES` zero bytes for each of the `BLOCKS_X * BLOCKS_Y` tile
positions on each of the `EINK_BLOCKHEIGHT` pixel lines of each pass. -/
theorem empty_flush_filler_counterexample :
    data_bytes (flush_events zero_state) = [] ∧
    data_bytes (flush_events zero_state)
      ≠ List.replicate
          (EINK_WRITECOUNT * (BLOCKS_Y * EINK_BLOCKHEIGHT * (BLOCKS_X * WIDTH_BYTES))) 0 := by
  have h : data_bytes (flush_events zero_state) = [] :=
    data_bytes_empty_flush zero_state (fun _ _ _ _ => rfl)
  refine ⟨h, ?_⟩
  · rw [h]
    intro hc
    have hl := congrArg List.length hc
    rw [List.length_replicate] at hl
    exact absurd hl (by decide)

/-- C13 (amended): `flush_buffers` run with no resident tile puts no byte on
the data bus.  Filler bytes appear only in a grid row that holds at least one
resident tile: there each pixel line shifts, tile column by tile column, the
tile's bytes or, for an unallocated tile position, a run of `WIDTH_BYTES` zero
bytes; a grid row without a resident tile shifts nothing. -/
theorem empty_flush_shifts_nothing (s t : State) (by_ dy : Nat) (h : NoResident s)
    (hdy : dy < EINK_BLOCKHEIGHT) :
    data_bytes (flush_events s) = [] ∧
    flush_events t = repeat_wave EINK_WRITECOUNT (scan_pass t) ∧
    (RowResident t by_ →
      data_bytes (scan_row t (by_ * EINK_BLOCKHEIGHT + dy))
        = (List.range BLOCKS_X).flatMap fun bx => tile_line_bytes t by_ bx dy) ∧
    (∀ bx, t.g_blockmap by_ bx = 0 →
      tile_line_bytes t by_ bx dy = List.replicate WIDTH_BYTES 0) ∧
    (¬ RowResident t by_ → data_bytes (scan_row t (by_ * EINK_BLOCKHEIGHT + dy)) = []) := by
  refine ⟨data_bytes_empty_flush s h, flush_events_eq_passes t, ?_, ?_, ?_⟩
  · intro hres
    rw [scan_row_at t by_ dy hdy, if_pos hres, data_bytes_shift_line]
    rfl
  · intro bx hfree
    unfold tile_line_bytes
    rw [if_pos hfree]
  · intro hres
    rw [scan_row_at t by_ dy hdy, if_neg hres]
    rfl

/-- Witness of C13 (amended): the zero-initialised globals for the empty
cache, and pixel line 3 of grid row 0 of `single_state`, whose only resident
tile is `(0, 0)`. -/
theorem empty_flush_shifts_nothing_witness :
    data_bytes (flush_events zero_state) = [] ∧
    flush_events single_state = repeat_wave EINK_WRITECOUNT (scan_pass single_state) ∧
    data_bytes (scan_row single_state (0 * EINK_BLOCKHEIGHT + 3))
      = ((List.range BLOCKS_X).flatMap fun bx => tile_line_bytes single_state 0 bx 3) ∧
    tile_line_bytes single_state 0 1 3 = List.replicate WIDTH_BYTES 0 :=
  ⟨(empty_flush_shifts_nothing zero_state single_state 0 3 (fun _ _ _ _ => rfl) (by decide)).1,
   (empty_flush_shifts_nothing zero_state single_state 0 3 (fun _ _ _ _ => rfl) (by decide)).2.1,
   (empty_flush_shifts_nothing zero_state single_state 0 3 (fun _ _ _ _ => rfl)
      (by decide)).2.2.1 ⟨0, by decide, by decide⟩,
   (empty_flush_shifts_nothing zero_state single_state 0 3 (fun _ _ _ _ => rfl)
      (by decide)).2.2.2.1 1 rfl⟩

/-! ## Scan passes -/

theorem count_flatMap_range_one (n : Nat) (f : Nat → List Event) (e1 e2 : Event)
    (h : ∀ r < n, (f r).count e1 + (f r).count e2 = 1) :
    ((List.range n).flatMap f).count e1 + ((List.range n).flatMap f).count e2 = n := by
  induction n with
  | zero => rfl
  | succ n ih =>
    rw [List.range_succ, List.flatMap_append, List.count_append, List.count_append]
    simp only [List.flatMap_cons, List.flatMap_nil, List.append_nil]
    have h1 := ih (fun r hr => h r (Nat.lt_succ_of_lt hr))
    have h2 := h n (Nat.lt_succ_self n)
    omega

theorem all_shift_line (s : State) (by_ dy : Nat) (p : Event → Bool)
    (hd : ∀ v, p (Event.setpins_data v) = true)
    (hc : p (Event.setpin_cl true) = true ∧ p (Event.setpin_cl false) = true)
    (h1 : hscan_start.all p = true) (h2 : hscan_stop.all p = true) :
    (shift_line s by_ dy).all p = true := by
  unfold shift_line
  rw [List.all_append, List.all_append, Bool.and_eq_true, Bool.and_eq_true]
  exact ⟨⟨h1, all_shift_out _ p hd hc⟩, h2⟩

theorem shift_line_quiet (s : State) (by_ dy : Nat) :
    (shift_line s by_ dy).all (fun e => !is_ckv_event e && !is_delay_event e) = true :=
  all_shift_line s by_ dy _ (fun _ => rfl) ⟨rfl, rfl⟩ (by decide) (by decide)

theorem scan_row_strobes (s : State) (r : Nat) :
    (scan_row s r).count (Event.eink_delay 5) + (scan_row s r).count (Event.eink_delay 100)
      = 1 := by
  unfold scan_row
  split_ifs
  · rw [List.count_append, List.count_append]
    have hq := shift_line_quiet s (r / EINK_BLOCKHEIGHT) (r % EINK_BLOCKHEIGHT)
    have h1 : (shift_line s (r / EINK_BLOCKHEIGHT) (r % EINK_BLOCKHEIGHT)).count
        (Event.eink_delay 5) = 0 :=
      List.count_eq_zero.mpr (not_mem_of_all _ _ _ hq rfl)
    have h2 : (shift_line s (r / EINK_BLOCKHEIGHT) (r % EINK_BLOCKHEIGHT)).count
        (Event.eink_delay 100) = 0 :=
      List.count_eq_zero.mpr (not_mem_of_all _ _ _ hq rfl)
    have h3 : vscan_write.count (Event.eink_delay 5) = 1 := by decide
    have h4 : vscan_write.count (Event.eink_delay 100) = 0 := by decide
    omega
  · decide

/-- C17: for every cache state the events of `flush_buffers` are exactly
`EINK_WRITECOUNT` passes; each pass is `vscan_start`, then one vertical
waveform for each of the `GDISP_SCREEN_HEIGHT` panel rows, then `vscan_stop`;
the rows of grid row `by_` are written (a horizontal scan, which does not move
the gate clock, then `vscan_write`) when some tile of the grid row is resident
and skipped with `vscan_skip` otherwise; so in a pass the write strobes
(`eink_delay 5`) and the skip strobes (`eink_delay 100`) together number
`GDISP_SCREEN_HEIGHT`. -/
theorem scan_pass_structure (s : State) :
    flush_events s = repeat_wave EINK_WRITECOUNT (scan_pass s) ∧
    scan_pass s
      = vscan_start ++ ((List.range GDISP_SCREEN_HEIGHT).flatMap fun r => scan_row s r)
          ++ vscan_stop ∧
    (∀ by_ dy, dy < EINK_BLOCKHEIGHT → RowResident s by_ →
      scan_row s (by_ * EINK_BLOCKHEIGHT + dy) = shift_line s by_ dy ++ vscan_write) ∧
    (∀ by_ dy, dy < EINK_BLOCKHEIGHT → ¬ RowResident s by_ →
      scan_row s (by_ * EINK_BLOCKHEIGHT + dy) = vscan_skip) ∧
    (∀ by_ dy, (shift_line s by_ dy).all (fun e => !is_ckv_event e && !is_delay_event e)
      = true) ∧
    (scan_pass s).count (Event.eink_delay 5) + (scan_pass s).count (Event.eink_delay 100)
      = GDISP_SCREEN_HEIGHT := by
  refine ⟨flush_events_eq_passes s, rfl, ?_, ?_, shift_line_quiet s, ?_⟩
  · intro by_ dy hdy hres
    rw [scan_row_at s by_ dy hdy, if_pos hres]
  · intro by_ dy hdy hres
    rw [scan_row_at s by_ dy hdy, if_neg hres]
  · unfold scan_pass
    rw [List.count_append, List.count_append, List.count_append, List.count_append]
    have h := count_flatMap_range_one GDISP_SCREEN_HEIGHT (fun r => scan_row s r)
      (Event.eink_delay 5) (Event.eink_delay 100) (fun r _ => scan_row_strobes s r)
    have h1 : vscan_start.count (Event.eink_delay 5) = 0 := by decide
    have h2 : vscan_start.count (Event.eink_delay 100) = 0 := by decide
    have h3 : vscan_stop.count (Event.eink_delay 5) = 0 := by decide
    have h4 : vscan_stop.count (Event.eink_delay 100) = 0 := by decide
    omega

/-- Witness of C17: `single_state`, whose grid row 0 holds a resident tile and
whose grid row 1 holds none. -/
theorem scan_pass_structure_witness :
    flush_events single_state = repeat_wave EINK_WRITECOUNT (scan_pass single_state) ∧
    scan_row single_state (0 * EINK_BLOCKHEIGHT + 3)
      = shift_line single_state 0 3 ++ vscan_write ∧
    scan_row single_state (1 * EINK_BLOCKHEIGHT + 3) = vscan_skip ∧
    (scan_pass single_state).count (Event.eink_delay 5)
        + (scan_pass single_state).count (Event.eink_delay 100)
      = GDISP_SCREEN_HEIGHT :=
  ⟨(scan_pass_structure single_state).1,
   (scan_pass_structure single_state).2.2.1 0 3 (by decide) ⟨0, by decide, by decide⟩,
   (scan_pass_structure single_state).2.2.2.1 1 3 (by decide) (by decide),
   (scan_pass_structure single_state).2.2.2.2.2⟩

theorem single_state_inv : CacheInv single_state := by
  refine ⟨by decide, ?_, ?_, ?_⟩
  · intro by_ _ bx _
    show (if by_ = 0 ∧ bx = 0 then 1 else 0) ≤ 1
    split_ifs <;> omega
  · intro k hk
    have hk0 : k = 0 := by
      have : k < 1 := hk
      omega
    subst hk0
    exact ⟨0, by decide, 0, by decide, rfl⟩
  · intro by_ _ bx _ by2 _ bx2 _ h1 h2
    have h1b : (if by_ = 0 ∧ bx = 0 then 1 else 0) ≠ 0 := h1
    have h2b : (if by_ = 0 ∧ bx = 0 then 1 else 0)
        = (if by2 = 0 ∧ bx2 = 0 then 1 else 0) := h2
    split_ifs at h1b h2b <;> omega
/-! ## Flushed line content -/

theorem length_flatMap_range (n m : Nat) (f : Nat → List Nat) (hlen : ∀ a, (f a).length = m) :
    ((List.range n).flatMap f).length = n * m := by
  induction n with
  | zero => simp
  | succ n ih =>
    rw [List.range_succ, List.flatMap_append, List.length_append, ih, Nat.succ_mul]
    simp only [List.flatMap_cons, List.flatMap_nil, List.append_nil, hlen]

theorem getElem?_flatMap_range (n m : Nat) (f : Nat → List Nat)
    (hlen : ∀ a, (f a).length = m) (a i : Nat) (ha : a < n) (hi : i < m) :
    ((List.range n).flatMap f)[a * m + i]? = (f a)[i]? := by
  induction n with
  | zero => exact absurd ha (Nat.not_lt_zero a)
  | succ n ih =>
    rw [List.range_succ, List.flatMap_append]
    have hl := length_flatMap_range n m f hlen
    by_cases han : a < n
    · have hlt : a * m + i < ((List.range n).flatMap f).length := by
        rw [hl]
        calc a * m + i < a * m + m := by omega
          _ = (a + 1) * m := by rw [Nat.succ_mul]
          _ ≤ n * m := Nat.mul_le_mul_right m han
      rw [List.getElem?_append_left hlt]
      exact ih han
    · have hEq : a = n := by omega
      subst hEq
      have hge : ((List.range a).flatMap f).length ≤ a * m + i := by
        rw [hl]
        omega
      rw [List.getElem?_append_right hge, hl]
      simp only [List.flatMap_cons, List.flatMap_nil, List.append_nil, Nat.add_sub_cancel_left]

theorem length_tile_line_bytes (s : State) (by_ dy bx : Nat) :
    (tile_line_bytes s by_ bx dy).length = WIDTH_BYTES := by
  unfold tile_line_bytes
  split_ifs <;> simp

theorem getElem?_tile_line_bytes (s : State) (by_ dy bx i : Nat) (hi : i < WIDTH_BYTES) :
    (tile_line_bytes s by_ bx dy)[i]?
      = some (if s.g_blockmap by_ bx = 0 then 0
              else s.g_blocks (s.g_blockmap by_ bx - 1) dy i) := by
  unfold tile_line_bytes
  split_ifs
  · simp [List.getElem?_replicate, hi]
  · simp [List.getElem?_map, List.getElem?_range, hi]

/-- C16: for every cache state satisfying the cache invariant, every pass of
`flush_buffers` is `scan_pass`, and in it each pixel line `dy` of a grid row
`by_` that has a resident tile is `hscan_start`, then the bytes of the line,
then `hscan_stop`, then one `vscan_write`.  The line has exactly
`BLOCKS_X * WIDTH_BYTES = GDISP_SCREEN_WIDTH / EINK_PPB` bytes; byte `i` of
tile column `bx` is `data[dy][i]` of the tile's block, which lies in the
pool, when the tile is resident, and zero when it is not. -/
theorem flushed_line_content (s : State) (by_ dy : Nat) (hinv : CacheInv s)
    (hby : by_ < BLOCKS_Y) (hdy : dy < EINK_BLOCKHEIGHT) (hres : RowResident s by_) :
    flush_events s = repeat_wave EINK_WRITECOUNT (scan_pass s) ∧
    scan_pass s
      = vscan_start ++ ((List.range GDISP_SCREEN_HEIGHT).flatMap fun r => scan_row s r)
          ++ vscan_stop ∧
    scan_row s (by_ * EINK_BLOCKHEIGHT + dy)
      = hscan_start ++ shift_out (line_bytes s by_ dy) ++ hscan_stop ++ vscan_write ∧
    data_bytes (scan_row s (by_ * EINK_BLOCKHEIGHT + dy)) = line_bytes s by_ dy ∧
    (line_bytes s by_ dy).length = BLOCKS_X * WIDTH_BYTES ∧
    BLOCKS_X * WIDTH_BYTES = GDISP_SCREEN_WIDTH / EINK_PPB ∧
    ∀ bx < BLOCKS_X,
      (s.g_blockmap by_ bx ≠ 0 → s.g_blockmap by_ bx - 1 < EINK_NUMBUFFERS) ∧
      ∀ i < WIDTH_BYTES,
        (line_bytes s by_ dy)[bx * WIDTH_BYTES + i]?
          = some (if s.g_blockmap by_ bx = 0 then 0
                  else s.g_blocks (s.g_blockmap by_ bx - 1) dy i) := by
  have hrow : scan_row s (by_ * EINK_BLOCKHEIGHT + dy) = shift_line s by_ dy ++ vscan_write := by
    rw [scan_row_at s by_ dy hdy, if_pos hres]
  refine ⟨flush_events_eq_passes s, rfl, ?_, ?_, ?_, by decide, ?_⟩
  · rw [hrow]
    rfl
  · rw [hrow, data_bytes_shift_line]
  · exact length_flatMap_range BLOCKS_X WIDTH_BYTES _ (length_tile_line_bytes s by_ dy)
  · intro bx hbx
    refine ⟨?_, ?_⟩
    · intro hne
      have hle := CacheInv.entry_le s hinv by_ bx hby hbx
      omega
    · intro i hi
      have h := getElem?_flatMap_range BLOCKS_X WIDTH_BYTES
        (fun bx => tile_line_bytes s by_ bx dy) (length_tile_line_bytes s by_ dy) bx i hbx hi
      rw [getElem?_tile_line_bytes s by_ dy bx i hi] at h
      exact h

/-- Witness of C16: pixel line 3 of grid row 0 of `single_state`, where tile
`(0, 0)` is resident and the 39 other tiles of the row are not. -/
theorem flushed_line_content_witness :
    flush_events single_state = repeat_wave EINK_WRITECOUNT (scan_pass single_state) ∧
    scan_row single_state (0 * EINK_BLOCKHEIGHT + 3)
      = hscan_start ++ shift_out (line_bytes single_state 0 3) ++ hscan_stop ++ vscan_write ∧
    (line_bytes single_state 0 3).length = BLOCKS_X * WIDTH_BYTES ∧
    (line_bytes single_state 0 3)[0 * WIDTH_BYTES + 4]?
      = some (if single_state.g_blockmap 0 0 = 0 then 0
              else single_state.g_blocks (single_state.g_blockmap 0 0 - 1) 3 4) ∧
    (line_bytes single_state 0 3)[1 * WIDTH_BYTES + 0]?
      = some (if single_state.g_blockmap 0 1 = 0 then 0
              else single_state.g_blocks (single_state.g_blockmap 0 1 - 1) 3 0) := by
  have h := flushed_line_content single_state 0 3 single_state_inv (by decide) (by decide)
    ⟨0, by decide, by decide⟩
  exact ⟨h.1, h.2.2.1, h.2.2.2.2.1, (h.2.2.2.2.2.2 0 (by decide)).2 4 (by decide),
    (h.2.2.2.2.2.2 1 (by decide)).2 0 (by decide)⟩

/-! ## Clearing the panel -/

theorem subclear_eq (c : Nat) :
    subclear c =
      hscan_start
      ++ shift_out (List.replicate GDISP_SCREEN_WIDTH (if c ≠ 0 then BYTE_WHITE else BYTE_BLACK))
      ++ hscan_stop ++ [Event.setpin_oe true] ++ vscan_start
      ++ repeat_wave GDISP_SCREEN_HEIGHT vscan_bulkwrite ++ vscan_stop
      ++ [Event.setpin_oe false] := by
  unfold subclear
  simp only [hscan_write_eq, flatMap_range_const, shift_out_replicate]
  rfl

theorem data_bytes_subclear (c : Nat) :
    data_bytes (subclear c)
      = List.replicate GDISP_SCREEN_WIDTH (if c ≠ 0 then BYTE_WHITE else BYTE_BLACK) := by
  rw [subclear_eq]
  simp only [data_bytes_append, data_bytes_shift_out]
  have h1 : data_bytes hscan_start = [] := rfl
  have h2 : data_bytes hscan_stop = [] := rfl
  have h3 : data_bytes [Event.setpin_oe true] = [] := rfl
  have h4 : data_bytes vscan_start = [] := rfl
  have h5 : data_bytes (repeat_wave GDISP_SCREEN_HEIGHT vscan_bulkwrite) = [] :=
    data_bytes_of_no_data _ (all_repeat_wave _ _ _ (by decide))
  have h6 : data_bytes vscan_stop = [] := rfl
  have h7 : data_bytes [Event.setpin_oe false] = [] := rfl
  rw [h1, h2, h3, h4, h5, h6, h7]
  simp

/-- C18: for every colour, with `EINK_BLINKCLEAR` enabled the events of
`gdisp_lld_clear(color)` are one sub-clear of the opposite colour `!color`, a
50 ms sleep, then `EINK_CLEARCOUNT` times a sub-clear of `color` followed by a
10 ms sleep.  A sub-clear is `hscan_start`, a run of equal data bytes (`0xAA`
for a non-zero colour, `0x55` for zero), `hscan_stop`, output-enable on,
`vscan_start`, `GDISP_SCREEN_HEIGHT` bulk-write waveforms, `vscan_stop`,
output-enable off. -/
theorem clear_sequence (s : State) (color : Nat) :
    EINK_BLINKCLEAR = true ∧
    (gdisp_lld_clear s color).2
      = subclear (lnot color) ++ [Event.gfxSleepMilliseconds 50]
        ++ repeat_wave EINK_CLEARCOUNT (subclear color ++ [Event.gfxSleepMilliseconds 10]) ∧
    (lnot color ≠ 0 ↔ color = 0) ∧
    ∀ c,
      (∃ n, subclear c =
        hscan_start ++ shift_out (List.replicate n (if c ≠ 0 then 0xAA else 0x55))
        ++ hscan_stop ++ [Event.setpin_oe true] ++ vscan_start
        ++ repeat_wave GDISP_SCREEN_HEIGHT vscan_bulkwrite ++ vscan_stop
        ++ [Event.setpin_oe false]) ∧
      ∀ b ∈ data_bytes (subclear c), b = if c ≠ 0 then 0xAA else 0x55 := by
  refine ⟨rfl, ?_, ?_, ?_⟩
  · unfold gdisp_lld_clear
    simp only [flatMap_range_const]
    rfl
  · unfold lnot
    by_cases h : color = 0 <;> simp [h]
  · intro c
    refine ⟨⟨GDISP_SCREEN_WIDTH, subclear_eq c⟩, ?_⟩
    intro b hb
    rw [data_bytes_subclear] at hb
    exact List.eq_of_mem_replicate hb

/-- C19 (failing input): `subclear(1)` puts `GDISP_SCREEN_WIDTH = 800` bytes on
the data bus between `hscan_start` and `hscan_stop`, one per pixel, while a
panel row holds `GDISP_SCREEN_WIDTH / EINK_PPB = BLOCKS_X * WIDTH_BYTES = 200`
bytes, the number `write_block_row` shifts for a pixel line. -/
theorem subclear_shifts_a_byte_per_pixel :
    subclear 1 =
      hscan_start ++ shift_out (List.replicate 800 0xAA) ++ hscan_stop
      ++ [Event.setpin_oe true] ++ vscan_start
      ++ repeat_wave GDISP_SCREEN_HEIGHT vscan_bulkwrite ++ vscan_stop
      ++ [Event.setpin_oe false] ∧
    (data_bytes (subclear 1)).length = 800 ∧
    GDISP_SCREEN_WIDTH / EINK_PPB = 200 ∧
    BLOCKS_X * WIDTH_BYTES = 200 ∧
    (line_bytes single_state 0 0).length = 200 := by
  refine ⟨subclear_eq 1, ?_, by decide, by decide, ?_⟩
  · rw [data_bytes_subclear, List.length_replicate]
    rfl
  · exact length_flatMap_range BLOCKS_X WIDTH_BYTES _ (length_tile_line_bytes single_state 0 0)

/-! ## Output enable and latch while shifting -/

theorem shift_safe_append (p : Pins) (a b : List Event) :
    shift_safe p (a ++ b) = (shift_safe p a && shift_safe (pins_at_end p a) b) := by
  induction a generalizing p with
  | nil => simp [shift_safe, pins_at_end]
  | cons e a ih =>
    show ((if is_shift_event e then !p.oe && !p.le else true)
        && shift_safe (pins_after p e) (a ++ b))
      = (((if is_shift_event e then !p.oe && !p.le else true) && shift_safe (pins_after p e) a)
        && shift_safe (pins_at_end (pins_after p e) a) b)
    rw [ih, Bool.and_assoc]

theorem pins_at_end_append (p : Pins) (a b : List Event) :
    pins_at_end p (a ++ b) = pins_at_end (pins_at_end p a) b := by
  unfold pins_at_end
  rw [List.foldl_append]

theorem SafeFromLow.low_append {a b : List Event} (ha : SafeFromLow a) (hb : SafeFromLow b) :
    SafeFromLow (a ++ b) := by
  unfold SafeFromLow at *
  rw [shift_safe_append, pins_at_end_append, ha.1, ha.2, hb.1, hb.2]
  exact ⟨rfl, rfl⟩

theorem SafeAlways.always_append {a b : List Event} (ha : SafeAlways a) (hb : SafeAlways b) :
    SafeAlways (a ++ b) := by
  intro p
  rw [shift_safe_append, pins_at_end_append, (ha p).1, (hb _).1]
  refine ⟨rfl, ?_⟩
  rcases (ha p).2 with h | h
  · rw [h]
    exact (hb p).2
  · rw [h]
    rcases (hb pins_low).2 with h2 | h2 <;> exact Or.inr h2

theorem SafeAlways.nil : SafeAlways [] := fun _ => ⟨rfl, Or.inl rfl⟩

theorem SafeAlways.flatMap_range (n : Nat) (f : Nat → List Event) (h : ∀ i, SafeAlways (f i)) :
    SafeAlways ((List.range n).flatMap f) := by
  induction n with
  | zero => exact SafeAlways.nil
  | succ n ih =>
    rw [List.range_succ, List.flatMap_append]
    refine SafeAlways.always_append ih ?_
    simp only [List.flatMap_cons, List.flatMap_nil, List.append_nil]
    exact h n

theorem SafeAlways.repeated (n : Nat) (w : List Event) (h : SafeAlways w) :
    SafeAlways (repeat_wave n w) := by
  rw [← flatMap_range_const]
  exact SafeAlways.flatMap_range n _ (fun _ => h)

theorem SafeAlways.of_quiet (tr : List Event)
    (h : tr.all (fun e => !is_shift_event e && !is_oe_le_event e) = true) : SafeAlways tr := by
  induction tr with
  | nil => exact SafeAlways.nil
  | cons e tr ih =>
    rw [List.all_cons, Bool.and_eq_true, Bool.and_eq_true] at h
    obtain ⟨⟨h1, h2⟩, h3⟩ := h
    have hs : is_shift_event e = false := by simpa using h1
    have hp : ∀ p, pins_after p e = p := by
      intro p
      cases e <;> first | rfl | exact Bool.noConfusion h2
    intro p
    have := ih h3 p
    simp only [shift_safe, hs, pins_at_end, List.foldl_cons, hp]
    exact ⟨by simpa using this.1, this.2⟩

theorem SafeAlways.of_reset {a b : List Event}
    (ha : ∀ p, shift_safe p a = true ∧ pins_at_end p a = pins_low) (hb : SafeFromLow b) :
    SafeAlways (a ++ b) := by
  intro p
  rw [shift_safe_append, pins_at_end_append, (ha p).1, (ha p).2, hb.1, hb.2]
  exact ⟨rfl, Or.inr rfl⟩

theorem SafeFromLow.of_shift_out (bytes : List Nat) : SafeFromLow (shift_out bytes) := by
  induction bytes with
  | nil => exact ⟨rfl, rfl⟩
  | cons b l ih =>
    have h : shift_out (b :: l) = shift_out [b] ++ shift_out l := shift_out_append [b] l
    rw [h]
    exact SafeFromLow.low_append ⟨rfl, rfl⟩ ih

theorem hscan_start_resets (p : Pins) :
    shift_safe p hscan_start = true ∧ pins_at_end p hscan_start = pins_low := by
  obtain ⟨oe, le⟩ := p
  cases oe <;> cases le <;> exact ⟨rfl, rfl⟩

theorem scan_row_safe (s : State) (r : Nat) : SafeAlways (scan_row s r) := by
  unfold scan_row
  split_ifs
  · unfold shift_line
    rw [List.append_assoc, List.append_assoc]
    refine SafeAlways.of_reset hscan_start_resets ?_
    exact SafeFromLow.low_append (SafeFromLow.of_shift_out _)
      (SafeFromLow.low_append ⟨by decide, by decide⟩ ⟨by decide, by decide⟩)
  · exact SafeAlways.of_quiet _ (by decide)

theorem pins_at_end_of_quiet (tr : List Event)
    (h : tr.all (fun e => !is_oe_le_event e) = true) (p : Pins) : pins_at_end p tr = p := by
  induction tr generalizing p with
  | nil => rfl
  | cons e tr ih =>
    rw [List.all_cons, Bool.and_eq_true] at h
    have hp : pins_after p e = p := by
      cases e <;> first | rfl | exact Bool.noConfusion h.1
    show pins_at_end (pins_after p e) tr = p
    rw [hp]
    exact ih h.2 p

theorem SafeFromLow.oe_bracket (m : List Event)
    (h1 : m.all (fun e => !is_shift_event e && !is_oe_le_event e) = true)
    (h2 : m.all (fun e => !is_oe_le_event e) = true) :
    SafeFromLow ([Event.setpin_oe true] ++ (m ++ [Event.setpin_oe false])) := by
  have hq := SafeAlways.of_quiet m h1
  unfold SafeFromLow
  rw [shift_safe_append, shift_safe_append, pins_at_end_append, pins_at_end_append,
    pins_at_end_of_quiet m h2, (hq _).1]
  exact ⟨rfl, rfl⟩

theorem subclear_safe (c : Nat) : SafeAlways (subclear c) := by
  rw [subclear_eq]
  have e1 : hscan_start
      ++ shift_out (List.replicate GDISP_SCREEN_WIDTH (if c ≠ 0 then BYTE_WHITE else BYTE_BLACK))
      ++ hscan_stop ++ [Event.setpin_oe true] ++ vscan_start
      ++ repeat_wave GDISP_SCREEN_HEIGHT vscan_bulkwrite ++ vscan_stop
      ++ [Event.setpin_oe false]
      = hscan_start
        ++ (shift_out
              (List.replicate GDISP_SCREEN_WIDTH (if c ≠ 0 then BYTE_WHITE else BYTE_BLACK))
          ++ (hscan_stop
            ++ ([Event.setpin_oe true]
              ++ ((vscan_start ++ repeat_wave GDISP_SCREEN_HEIGHT vscan_bulkwrite ++ vscan_stop)
                ++ [Event.setpin_oe false])))) := by
    simp only [List.append_assoc]
  rw [e1]
  refine SafeAlways.of_reset hscan_start_resets ?_
  refine SafeFromLow.low_append (SafeFromLow.of_shift_out _)
    (SafeFromLow.low_append ⟨by decide, by decide⟩ (SafeFromLow.oe_bracket _ ?_ ?_))
  · rw [List.all_append, List.all_append, Bool.and_eq_true, Bool.and_eq_true]
    exact ⟨⟨by decide, all_repeat_wave _ _ _ (by decide)⟩, by decide⟩
  · rw [List.all_append, List.all_append, Bool.and_eq_true, Bool.and_eq_true]
    exact ⟨⟨by decide, all_repeat_wave _ _ _ (by decide)⟩, by decide⟩

/-- C20: for every cache state, every colour and every initial level of the
OE and LE pins, at every data-shift event (a byte set on the data pins, or an
edge of the CL clock) in the events of `flush_buffers` and of
`gdisp_lld_clear` the most recently set levels of OE and of LE are both
low. -/
theorem oe_le_low_while_shifting (s : State) (color : Nat) (p : Pins) :
    shift_safe p (flush_buffers s).2 = true ∧
    shift_safe p (gdisp_lld_clear s color).2 = true := by
  constructor
  · show shift_safe p (flush_events s) = true
    rw [flush_events_eq_passes]
    have h : SafeAlways (repeat_wave EINK_WRITECOUNT (scan_pass s)) := by
      apply SafeAlways.repeated
      unfold scan_pass
      exact SafeAlways.always_append
        (SafeAlways.always_append (SafeAlways.of_quiet _ (by decide))
          (SafeAlways.flatMap_range _ _ (scan_row_safe s)))
        (SafeAlways.of_quiet _ (by decide))
    exact (h p).1
  · have h : SafeAlways (gdisp_lld_clear s color).2 := by
      unfold gdisp_lld_clear
      simp only [EINK_BLINKCLEAR, if_true]
      exact SafeAlways.always_append
        (SafeAlways.always_append (subclear_safe _) (SafeAlways.of_quiet _ (by decide)))
        (SafeAlways.flatMap_range _ _ (fun _ =>
          SafeAlways.always_append (subclear_safe _) (SafeAlways.of_quiet _ (by decide))))
    exact (h p).1

/-! ## The cache invariant is kept by every public operation -/

theorem CacheInv.of_same_map (s s2 : State) (h : CacheInv s)
    (hmap : s2.g_blockmap = s.g_blockmap) (hcur : s2.g_next_block = s.g_next_block) :
    CacheInv s2 := by
  unfold CacheInv SlotUnshared at *
  rw [hmap, hcur]
  exact h

theorem CacheInv.of_cache_empty (s : State) (h : CacheEmpty s) : CacheInv s := by
  obtain ⟨hmap, hcur⟩ := h
  refine ⟨by rw [hcur]; exact Nat.zero_le _, ?_, ?_, ?_⟩
  · intro by_ hby bx hbx
    rw [hmap by_ hby bx hbx]
    exact Nat.zero_le _
  · intro k hk
    rw [hcur] at hk
    exact absurd hk (Nat.not_lt_zero k)
  · intro by_ hby bx hbx by2 _ bx2 _ hne
    exact absurd (hmap by_ hby bx hbx) hne

theorem CacheInv.alloc (s : State) (h : CacheInv s) (by_ bx : Nat)
    (hby : by_ < BLOCKS_Y) (hbx : bx < BLOCKS_X) (hfree : s.g_blockmap by_ bx = 0)
    (hroom : s.g_next_block < EINK_NUMBUFFERS) (g : Nat → Nat → Nat → Nat) (d : GDISPDriver) :
    CacheInv { g_next_block := s.g_next_block + 1,
               g_blockmap := set2 s.g_blockmap by_ bx (s.g_next_block + 1),
               g_blocks := g, GDISP := d } := by
  obtain ⟨_, hle, hsurj, huniq⟩ := h
  refine ⟨hroom, ?_, ?_, ?_⟩
  · intro b2 hb2 x2 hx2
    show set2 s.g_blockmap by_ bx (s.g_next_block + 1) b2 x2 ≤ s.g_next_block + 1
    rw [set2_apply]
    split_ifs
    · exact Nat.le_refl _
    · exact Nat.le_succ_of_le (hle b2 hb2 x2 hx2)
  · intro k hk
    have hk2 : k < s.g_next_block + 1 := hk
    by_cases hkn : k = s.g_next_block
    · refine ⟨by_, hby, bx, hbx, ?_⟩
      show set2 s.g_blockmap by_ bx (s.g_next_block + 1) by_ bx = k + 1
      rw [set2_apply, if_pos ⟨rfl, rfl⟩, hkn]
    · obtain ⟨b2, hb2, x2, hx2, he⟩ := hsurj k (by omega)
      refine ⟨b2, hb2, x2, hx2, ?_⟩
      show set2 s.g_blockmap by_ bx (s.g_next_block + 1) b2 x2 = k + 1
      rw [set2_apply]
      have hne : ¬ (b2 = by_ ∧ x2 = bx) := by
        rintro ⟨h1, h2⟩
        rw [h1, h2, hfree] at he
        omega
      rw [if_neg hne]
      exact he
  · intro b1 hb1 x1 hx1 b2 hb2 x2 hx2 hne heq
    have hne2 : set2 s.g_blockmap by_ bx (s.g_next_block + 1) b1 x1 ≠ 0 := hne
    have heq2 : set2 s.g_blockmap by_ bx (s.g_next_block + 1) b1 x1
        = set2 s.g_blockmap by_ bx (s.g_next_block + 1) b2 x2 := heq
    rw [set2_apply] at hne2
    rw [set2_apply, set2_apply] at heq2
    have hl1 := hle b1 hb1 x1 hx1
    have hl2 := hle b2 hb2 x2 hx2
    by_cases c1 : b1 = by_ ∧ x1 = bx <;> by_cases c2 : b2 = by_ ∧ x2 = bx
    · exact ⟨c1.1.trans c2.1.symm, c1.2.trans c2.2.symm⟩
    · rw [if_pos c1, if_neg c2] at heq2
      omega
    · rw [if_neg c1, if_pos c2] at heq2
      omega
    · rw [if_neg c1] at hne2
      rw [if_neg c1, if_neg c2] at heq2
      exact huniq b1 hb1 x1 hx1 b2 hb2 x2 hx2 hne2 heq2

theorem alloc_buffer_flush_inv (s : State) (h : CacheInv s) (by_ bx : Nat)
    (hby : by_ < BLOCKS_Y) (hbx : bx < BLOCKS_X) (hfree : s.g_blockmap by_ bx = 0) :
    CacheInv (alloc_buffer_flush s).1 ∧ (alloc_buffer_flush s).1.g_blockmap by_ bx = 0 := by
  by_cases hcap : EINK_NUMBUFFERS ≤ s.g_next_block
  · rw [alloc_buffer_flush_full s hcap, flush_buffers_state]
    exact ⟨CacheInv.of_cache_empty _ (clear_block_map_empty s),
      (clear_block_map_empty s).1 by_ hby bx hbx⟩
  · rw [alloc_buffer_flush_room s (Nat.not_le.mp hcap)]
    exact ⟨h, hfree⟩

theorem draw_pixel_keeps_inv (s : State) (x y color : Nat) (h : CacheInv s)
    (hx : x < GDISP_SCREEN_WIDTH) (hy : y < GDISP_SCREEN_HEIGHT) :
    ∃ s2 tr, gdisp_lld_draw_pixel s x y color = Except.ok (s2, tr) ∧ CacheInv s2 := by
  have ht := tile_lt x y hx hy
  by_cases hm : s.g_blockmap (y / EINK_BLOCKHEIGHT) (x / EINK_BLOCKWIDTH) = 0
  · refine ⟨_, _, draw_pixel_fresh s x y color hx hy hm, ?_⟩
    obtain ⟨hinv1, hfree1⟩ := alloc_buffer_flush_inv s h _ _ ht.1 ht.2 hm
    exact CacheInv.alloc _ hinv1 _ _ ht.1 ht.2 hfree1 (alloc_buffer_flush_cursor s) _ _
  · have hr := CacheInv.entry_le s h _ _ ht.1 ht.2
    exact ⟨_, _, draw_pixel_resident s x y color hx hy hm hr, CacheInv.of_same_map s _ h rfl rfl⟩

theorem control_keeps_inv (s : State) (what : Nat) (value : gdisp_powermode_t)
    (h : CacheInv s) : CacheInv (gdisp_lld_control s what value).1 := by
  unfold gdisp_lld_control
  by_cases hw : what = GDISP_CONTROL_POWER
  · simp only [hw, if_true]
    by_cases hsame : s.GDISP.Powermode = value
    · simp only [hsame, if_true]
      exact h
    · simp only [hsame, if_false]
      by_cases hon : value = gdisp_powermode_t.powerOn
      · simp only [hon, if_true]
        exact CacheInv.of_same_map s _ h rfl rfl
      · simp only [hon, if_false]
        exact CacheInv.of_same_map (clear_block_map s) _
          (CacheInv.of_cache_empty _ (clear_block_map_empty s)) rfl rfl
  · simp only [hw, if_false]
    by_cases hf : what = GDISP_CONTROL_FLUSH
    · simp only [hf, if_true]
      exact CacheInv.of_cache_empty _ (clear_block_map_empty s)
    · simp only [hf, if_false]
      exact h

theorem apply_op_keeps_inv (s : State) (op : Op) (h : CacheInv s) (hop : op_in_panel op) :
    ∃ s2, apply_op s op = Except.ok s2 ∧ CacheInv s2 := by
  cases op with
  | draw_pixel x y color =>
    obtain ⟨s2, tr, hs2, hinv2⟩ := draw_pixel_keeps_inv s x y color h hop.1 hop.2
    refine ⟨s2, ?_, hinv2⟩
    simp only [apply_op, hs2]
  | control what value => exact ⟨_, rfl, control_keeps_inv s what value h⟩
  | clear color => exact ⟨_, rfl, CacheInv.of_cache_empty _ (clear_block_map_empty s)⟩

theorem run_ops_keeps_inv (ops : List Op) :
    ∀ s, CacheInv s → (∀ op ∈ ops, op_in_panel op) →
      ∃ s2, run_ops s ops = Except.ok s2 ∧ CacheInv s2 := by
  induction ops with
  | nil =>
    intro s h _
    exact ⟨s, rfl, h⟩
  | cons op rest ih =>
    intro s h hops
    obtain ⟨s1, hs1, hinv1⟩ := apply_op_keeps_inv s op h (hops op (List.mem_cons_self op rest))
    obtain ⟨s2, hs2, hinv2⟩ := ih s1 hinv1 (fun o ho => hops o (List.mem_cons_of_mem op ho))
    refine ⟨s2, ?_, hinv2⟩
    simp only [run_ops, hs1, hs2]

theorem init_inv (s0 : State) : CacheInv (gdisp_lld_init s0).1 :=
  CacheInv.of_same_map (clear_block_map s0) _ (CacheInv.of_cache_empty _ (clear_block_map_empty s0))
    rfl rfl

theorem resident_count_eq (s : State) (h : CacheInv s) : resident_count s = s.g_next_block := by
  obtain ⟨_, hle, hsurj, huniq⟩ := h
  unfold resident_count
  rw [← Finset.card_range s.g_next_block]
  refine Finset.card_bij (fun p _ => s.g_blockmap p.1 p.2 - 1) ?_ ?_ ?_
  · intro p hp
    rw [Finset.mem_filter, Finset.mem_product, Finset.mem_range, Finset.mem_range] at hp
    rw [Finset.mem_range]
    show s.g_blockmap p.1 p.2 - 1 < s.g_next_block
    have := hle p.1 hp.1.1 p.2 hp.1.2
    have hne := hp.2
    omega
  · intro p hp q hq heq
    rw [Finset.mem_filter, Finset.mem_product, Finset.mem_range, Finset.mem_range] at hp hq
    have hpq : s.g_blockmap p.1 p.2 = s.g_blockmap q.1 q.2 := by
      have h1 := hp.2
      have h2 := hq.2
      have heq2 : s.g_blockmap p.1 p.2 - 1 = s.g_blockmap q.1 q.2 - 1 := heq
      omega
    have := huniq p.1 hp.1.1 p.2 hp.1.2 q.1 hq.1.1 q.2 hq.1.2 hp.2 hpq
    exact Prod.ext this.1 this.2
  · intro k hk
    rw [Finset.mem_range] at hk
    obtain ⟨b, hb, x, hx, he⟩ := hsurj k hk
    refine ⟨(b, x), ?_, ?_⟩
    · rw [Finset.mem_filter, Finset.mem_product, Finset.mem_range, Finset.mem_range]
      refine ⟨⟨hb, hx⟩, ?_⟩
      show s.g_blockmap b x ≠ 0
      omega
    · show s.g_blockmap b x - 1 = k
      omega

/-! ## Framebuffer emulation -/

theorem pixel_x_eq (x x0 : Nat) (h1 : x / EINK_BLOCKWIDTH = x0 / EINK_BLOCKWIDTH)
    (h2 : x % EINK_BLOCKWIDTH / EINK_PPB = x0 % EINK_BLOCKWIDTH / EINK_PPB)
    (h3 : x % EINK_BLOCKWIDTH % EINK_PPB = x0 % EINK_BLOCKWIDTH % EINK_PPB) : x = x0 := by
  simp only [EINK_BLOCKWIDTH, EINK_PPB] at h1 h2 h3
  omega

theorem pixel_y_eq (y y0 : Nat) (h1 : y / EINK_BLOCKHEIGHT = y0 / EINK_BLOCKHEIGHT)
    (h2 : y % EINK_BLOCKHEIGHT = y0 % EINK_BLOCKHEIGHT) : y = y0 := by
  simp only [EINK_BLOCKHEIGHT] at h1 h2
  omega

theorem field_zero (p : Nat) : field 0 p = 0 := by
  unfold field
  simp

theorem bitpos_of_ppb (dx : Nat) : 6 - 2 * (dx % EINK_PPB) = bitpos_of dx := rfl

theorem virtual_after_resident (s s2 : State) (x0 y0 c : Nat) (hinv : CacheInv s)
    (hx0 : x0 < GDISP_SCREEN_WIDTH) (hy0 : y0 < GDISP_SCREEN_HEIGHT)
    (hm : s.g_blockmap (y0 / EINK_BLOCKHEIGHT) (x0 / EINK_BLOCKWIDTH) ≠ 0)
    (hmap : s2.g_blockmap = s.g_blockmap)
    (hblk : s2.g_blocks = set3 s.g_blocks
      (s.g_blockmap (y0 / EINK_BLOCKHEIGHT) (x0 / EINK_BLOCKWIDTH) - 1)
      (y0 % EINK_BLOCKHEIGHT) (x0 % EINK_BLOCKWIDTH / EINK_PPB)
      (stored_byte
        (s.g_blocks (s.g_blockmap (y0 / EINK_BLOCKHEIGHT) (x0 / EINK_BLOCKWIDTH) - 1)
          (y0 % EINK_BLOCKHEIGHT) (x0 % EINK_BLOCKWIDTH / EINK_PPB))
        (bitpos_of (x0 % EINK_BLOCKWIDTH)) c))
    (x y : Nat) (hx : x < GDISP_SCREEN_WIDTH) (hy : y < GDISP_SCREEN_HEIGHT) :
    virtual_pixel s2 x y = if x = x0 ∧ y = y0 then code c else virtual_pixel s x y := by
  have ht := tile_lt x y hx hy
  have ht0 := tile_lt x0 y0 hx0 hy0
  unfold virtual_pixel
  rw [hmap, hblk]
  simp only [set3_apply, bitpos_of_ppb]
  by_cases hxy : x = x0 ∧ y = y0
  · obtain ⟨h1, h2⟩ := hxy
    subst h1 h2
    rw [if_neg hm, if_pos ⟨rfl, rfl, rfl⟩, if_pos ⟨rfl, rfl⟩]
    exact stored_byte_field _ _ c
  · rw [if_neg hxy]
    by_cases hmz : s.g_blockmap (y / EINK_BLOCKHEIGHT) (x / EINK_BLOCKWIDTH) = 0
    · simp only [if_pos hmz]
    · simp only [if_neg hmz]
      by_cases htr : s.g_blockmap (y / EINK_BLOCKHEIGHT) (x / EINK_BLOCKWIDTH) - 1
            = s.g_blockmap (y0 / EINK_BLOCKHEIGHT) (x0 / EINK_BLOCKWIDTH) - 1
          ∧ y % EINK_BLOCKHEIGHT = y0 % EINK_BLOCKHEIGHT
          ∧ x % EINK_BLOCKWIDTH / EINK_PPB = x0 % EINK_BLOCKWIDTH / EINK_PPB
      · rw [if_pos htr]
        obtain ⟨e1, e2, e3⟩ := htr
        have hmm : s.g_blockmap (y / EINK_BLOCKHEIGHT) (x / EINK_BLOCKWIDTH)
            = s.g_blockmap (y0 / EINK_BLOCKHEIGHT) (x0 / EINK_BLOCKWIDTH) := by omega
        have htile := hinv.2.2.2 _ ht.1 _ ht.2 _ ht0.1 _ ht0.2 hmz hmm
        have hyy : y = y0 := pixel_y_eq y y0 htile.1 e2
        have hsub : x % EINK_BLOCKWIDTH % 4 ≠ x0 % EINK_BLOCKWIDTH % 4 := by
          intro hs
          exact hxy ⟨pixel_x_eq x x0 htile.2 e3 hs, hyy⟩
        rw [stored_byte_other _ _ _ c hsub, hmm, e2, e3]
      · simp only [if_neg htr]

theorem virtual_after_fresh (s s2 : State) (x0 y0 c : Nat) (hinv : CacheInv s)
    (hfree : s.g_blockmap (y0 / EINK_BLOCKHEIGHT) (x0 / EINK_BLOCKWIDTH) = 0)
    (hmap : s2.g_blockmap = set2 s.g_blockmap (y0 / EINK_BLOCKHEIGHT) (x0 / EINK_BLOCKWIDTH)
      (s.g_next_block + 1))
    (hblk : s2.g_blocks = set3
      (fun a b c =>
        if a = s.g_next_block ∧ b < EINK_BLOCKHEIGHT ∧ c < WIDTH_BYTES then 0
        else s.g_blocks a b c)
      s.g_next_block (y0 % EINK_BLOCKHEIGHT) (x0 % EINK_BLOCKWIDTH / EINK_PPB)
      (stored_byte 0 (bitpos_of (x0 % EINK_BLOCKWIDTH)) c))
    (x y : Nat) (hx : x < GDISP_SCREEN_WIDTH) (hy : y < GDISP_SCREEN_HEIGHT) :
    virtual_pixel s2 x y = if x = x0 ∧ y = y0 then code c else virtual_pixel s x y := by
  have ht := tile_lt x y hx hy
  have hdy : y % EINK_BLOCKHEIGHT < EINK_BLOCKHEIGHT := Nat.mod_lt _ (by decide)
  have hdx : x % EINK_BLOCKWIDTH / EINK_PPB < WIDTH_BYTES := by
    simp only [EINK_BLOCKWIDTH, EINK_PPB, WIDTH_BYTES]
    omega
  unfold virtual_pixel
  rw [hmap, hblk]
  simp only [set2_apply, set3_apply, bitpos_of_ppb]
  by_cases htile : y / EINK_BLOCKHEIGHT = y0 / EINK_BLOCKHEIGHT
      ∧ x / EINK_BLOCKWIDTH = x0 / EINK_BLOCKWIDTH
  · rw [if_pos htile, if_neg (Nat.succ_ne_zero _), Nat.add_sub_cancel]
    have hz : s.g_blockmap (y / EINK_BLOCKHEIGHT) (x / EINK_BLOCKWIDTH) = 0 := by
      rw [htile.1, htile.2]
      exact hfree
    by_cases hb : y % EINK_BLOCKHEIGHT = y0 % EINK_BLOCKHEIGHT
        ∧ x % EINK_BLOCKWIDTH / EINK_PPB = x0 % EINK_BLOCKWIDTH / EINK_PPB
    · rw [if_pos ⟨rfl, hb.1, hb.2⟩]
      have hyy : y = y0 := pixel_y_eq y y0 htile.1 hb.1
      by_cases hs : x % EINK_BLOCKWIDTH % EINK_PPB = x0 % EINK_BLOCKWIDTH % EINK_PPB
      · have hxx : x = x0 := pixel_x_eq x x0 htile.2 hb.2 hs
        rw [if_pos ⟨hxx, hyy⟩, hxx]
        exact stored_byte_field _ _ c
      · have hne : ¬ (x = x0 ∧ y = y0) := fun h => hs (by rw [h.1])
        simp only [if_neg hne, if_pos hz]
        rw [stored_byte_other _ _ _ c hs, field_zero]
    · have hne : ¬ (x = x0 ∧ y = y0) := fun h => hb (by rw [h.1, h.2]; exact ⟨rfl, rfl⟩)
      have hb2 : ¬ (s.g_next_block = s.g_next_block ∧ y % EINK_BLOCKHEIGHT = y0 % EINK_BLOCKHEIGHT
          ∧ x % EINK_BLOCKWIDTH / EINK_PPB = x0 % EINK_BLOCKWIDTH / EINK_PPB) := fun h => hb h.2
      simp only [hb, hdy, hdx, and_self, and_false, true_and, if_false, if_true, if_neg hne,
        if_pos hz, field_zero]
  · simp only [if_neg htile]
    have hne : ¬ (x = x0 ∧ y = y0) := fun h => htile (by rw [h.1, h.2]; exact ⟨rfl, rfl⟩)
    simp only [if_neg hne]
    by_cases hmz : s.g_blockmap (y / EINK_BLOCKHEIGHT) (x / EINK_BLOCKWIDTH) = 0
    · simp only [if_pos hmz]
    · simp only [if_neg hmz]
      have hle := hinv.2.1 _ ht.1 _ ht.2
      have hslot : s.g_blockmap (y / EINK_BLOCKHEIGHT) (x / EINK_BLOCKWIDTH) - 1
          ≠ s.g_next_block := by omega
      have h1 : ¬ (s.g_blockmap (y / EINK_BLOCKHEIGHT) (x / EINK_BLOCKWIDTH) - 1 = s.g_next_block
          ∧ y % EINK_BLOCKHEIGHT = y0 % EINK_BLOCKHEIGHT
          ∧ x % EINK_BLOCKWIDTH / EINK_PPB = x0 % EINK_BLOCKWIDTH / EINK_PPB) :=
        fun h => hslot h.1
      have h2 : ¬ (s.g_blockmap (y / EINK_BLOCKHEIGHT) (x / EINK_BLOCKWIDTH) - 1 = s.g_next_block
          ∧ y % EINK_BLOCKHEIGHT < EINK_BLOCKHEIGHT
          ∧ x % EINK_BLOCKWIDTH / EINK_PPB < WIDTH_BYTES) :=
        fun h => hslot h.1
      simp only [if_neg h1, if_neg h2]

theorem draw_pixel_step (s : State) (T : Finset (Nat × Nat)) (x0 y0 c : Nat)
    (hinv : CacheInv s) (htr : Tracks s T)
    (hx0 : x0 < GDISP_SCREEN_WIDTH) (hy0 : y0 < GDISP_SCREEN_HEIGHT)
    (hcard : (insert (tile_of (x0, y0, c)) T).card ≤ EINK_NUMBUFFERS) :
    ∃ s2, gdisp_lld_draw_pixel s x0 y0 c = Except.ok (s2, []) ∧ CacheInv s2 ∧
      Tracks s2 (insert (tile_of (x0, y0, c)) T) ∧
      ∀ x < GDISP_SCREEN_WIDTH, ∀ y < GDISP_SCREEN_HEIGHT,
        virtual_pixel s2 x y = if x = x0 ∧ y = y0 then code c else virtual_pixel s x y := by
  have ht := tile_lt x0 y0 hx0 hy0
  by_cases hm : s.g_blockmap (y0 / EINK_BLOCKHEIGHT) (x0 / EINK_BLOCKWIDTH) = 0
  · have hnot : (x0 / EINK_BLOCKWIDTH, y0 / EINK_BLOCKHEIGHT) ∉ T := by
      intro hmem
      exact (htr.2.1 _ ht.1 _ ht.2).mpr hmem hm
    have hroom : T.card < EINK_NUMBUFFERS := by
      have hc : (insert (tile_of (x0, y0, c)) T).card = T.card + 1 :=
        Finset.card_insert_of_not_mem hnot
      omega
    have hroom2 : s.g_next_block < EINK_NUMBUFFERS := by
      rw [htr.1]
      exact hroom
    have hstep := draw_pixel_fresh s x0 y0 c hx0 hy0 hm
    rw [alloc_buffer_flush_room s hroom2] at hstep
    refine ⟨_, hstep, ?_, ?_, ?_⟩
    · exact CacheInv.alloc s hinv _ _ ht.1 ht.2 hm hroom2 _ _
    · exact Tracks.fresh_step s T htr _ _ hnot hroom _
    · intro x hx y hy
      exact virtual_after_fresh s _ x0 y0 c hinv hm (by rfl) (by rfl) x y hx hy
  · have hmem : tile_of (x0, y0, c) ∈ T := (htr.2.1 _ ht.1 _ ht.2).mp hm
    have hr := htr.2.2 _ ht.1 _ ht.2
    rw [Finset.insert_eq_of_mem hmem]
    refine ⟨_, draw_pixel_resident s x0 y0 c hx0 hy0 hm hr, ?_, ?_, ?_⟩
    · exact CacheInv.of_same_map s _ hinv rfl rfl
    · exact Tracks.resident_step s T htr _
    · intro x hx y hy
      exact virtual_after_resident s _ x0 y0 c hinv hx0 hy0 hm (by rfl) (by rfl) x y hx hy

theorem draw_pixels_virtual (ps : List (Nat × Nat × Nat)) :
    ∀ (s : State) (T : Finset (Nat × Nat)), CacheInv s → Tracks s T →
      (∀ p ∈ ps, p.1 < GDISP_SCREEN_WIDTH ∧ p.2.1 < GDISP_SCREEN_HEIGHT) →
      (T ∪ tiles_touched ps).card ≤ EINK_NUMBUFFERS →
      ∃ s1, draw_pixels s ps = Except.ok (s1, []) ∧
        ∀ x < GDISP_SCREEN_WIDTH, ∀ y < GDISP_SCREEN_HEIGHT,
          virtual_pixel s1 x y
            = match last_write ps x y with
              | some c => code c
              | none => virtual_pixel s x y := by
  induction ps with
  | nil =>
    intro s T _ _ _ _
    exact ⟨s, rfl, fun x _ y _ => rfl⟩
  | cons p rest ih =>
    intro s T hinv htr hin hcard
    have hp := hin p (List.mem_cons_self p rest)
    have hrest : ∀ q ∈ rest, q.1 < GDISP_SCREEN_WIDTH ∧ q.2.1 < GDISP_SCREEN_HEIGHT :=
      fun q hq => hin q (List.mem_cons_of_mem p hq)
    rw [tiles_touched_cons] at hcard
    have hunion : T ∪ insert (tile_of p) (tiles_touched rest)
        = insert (tile_of p) T ∪ tiles_touched rest := by
      rw [Finset.union_insert, Finset.insert_union]
    have hsub : (insert (tile_of p) T).card ≤ EINK_NUMBUFFERS := by
      refine le_trans (Finset.card_le_card ?_) hcard
      rw [hunion]
      exact Finset.subset_union_left
    obtain ⟨s2, hstep, hinv2, htr2, hv2⟩ :=
      draw_pixel_step s T p.1 p.2.1 p.2.2 hinv htr hp.1 hp.2 hsub
    obtain ⟨s1, hs1, hv1⟩ := ih s2 (insert (tile_of p) T) hinv2 htr2 hrest
      (by rw [← hunion]; exact hcard)
    refine ⟨s1, draw_pixels_cons_ok s s2 s1 [] [] p rest hstep hs1, ?_⟩
    intro x hx y hy
    rw [hv1 x hx y hy, hv2 x hx y hy]
    show _ = match last_write (p :: rest) x y with
      | some c => code c
      | none => virtual_pixel s x y
    rw [last_write]
    cases hl : last_write rest x y with
    | some c0 => rfl
    | none =>
      by_cases hxy : p.1 = x ∧ p.2.1 = y
      · have hxy2 : x = p.1 ∧ y = p.2.1 := ⟨hxy.1.symm, hxy.2.symm⟩
        simp only [if_pos hxy, if_pos hxy2]
      · have hxy2 : ¬ (x = p.1 ∧ y = p.2.1) := fun h => hxy ⟨h.1.symm, h.2.symm⟩
        simp only [if_neg hxy, if_neg hxy2]

theorem virtual_pixel_empty (s : State) (h : CacheEmpty s) (x y : Nat)
    (hx : x < GDISP_SCREEN_WIDTH) (hy : y < GDISP_SCREEN_HEIGHT) : virtual_pixel s x y = 0 := by
  have ht := tile_lt x y hx hy
  unfold virtual_pixel
  rw [if_pos (h.1 _ ht.1 _ ht.2)]

theorem draw_pixels_spec (s0 : State) (ps : List (Nat × Nat × Nat))
    (hin : ∀ p ∈ ps, p.1 < GDISP_SCREEN_WIDTH ∧ p.2.1 < GDISP_SCREEN_HEIGHT)
    (hcard : (tiles_touched ps).card ≤ EINK_NUMBUFFERS) :
    ∃ s1, draw_pixels (clear_block_map s0) ps = Except.ok (s1, []) ∧
      ∀ x < GDISP_SCREEN_WIDTH, ∀ y < GDISP_SCREEN_HEIGHT,
        virtual_pixel s1 x y = spec_pixel ps x y := by
  have he := clear_block_map_empty s0
  obtain ⟨s1, hs1, hv⟩ := draw_pixels_virtual ps _ ∅ (CacheInv.of_cache_empty _ he)
    (Tracks.of_empty _ he) hin (by rw [Finset.empty_union]; exact hcard)
  refine ⟨s1, hs1, ?_⟩
  intro x hx y hy
  rw [hv x hx y hy]
  unfold spec_pixel
  cases last_write ps x y with
  | some c => rfl
  | none => exact virtual_pixel_empty _ he x y hx hy

/-- C15: starting from an empty cache, every sequence of in-bounds
`gdisp_lld_draw_pixel` calls touching at most `EINK_NUMBUFFERS` distinct tiles
returns without hardware events, and afterwards the virtual pixel at every
in-bounds `(x, y)` is the code of the last write to `(x, y)` in the sequence,
and 0 if `(x, y)` was never written.  Hence two such sequences with the same
last writes, whatever the order in which they first touch the tiles, and
whatever the globals held before, give the same virtual pixels. -/
theorem framebuffer_last_write_wins (s0 t0 : State) (ps qs : List (Nat × Nat × Nat))
    (hin : ∀ p ∈ ps, p.1 < GDISP_SCREEN_WIDTH ∧ p.2.1 < GDISP_SCREEN_HEIGHT)
    (hcard : (tiles_touched ps).card ≤ EINK_NUMBUFFERS)
    (hin2 : ∀ q ∈ qs, q.1 < GDISP_SCREEN_WIDTH ∧ q.2.1 < GDISP_SCREEN_HEIGHT)
    (hcard2 : (tiles_touched qs).card ≤ EINK_NUMBUFFERS) :
    ∃ s1 s2, draw_pixels (clear_block_map s0) ps = Except.ok (s1, []) ∧
      draw_pixels (clear_block_map t0) qs = Except.ok (s2, []) ∧
      (∀ x < GDISP_SCREEN_WIDTH, ∀ y < GDISP_SCREEN_HEIGHT,
        virtual_pixel s1 x y = spec_pixel ps x y) ∧
      ((∀ x < GDISP_SCREEN_WIDTH, ∀ y < GDISP_SCREEN_HEIGHT,
          spec_pixel qs x y = spec_pixel ps x y) →
        ∀ x < GDISP_SCREEN_WIDTH, ∀ y < GDISP_SCREEN_HEIGHT,
          virtual_pixel s2 x y = virtual_pixel s1 x y) := by
  obtain ⟨s1, hs1, hv1⟩ := draw_pixels_spec s0 ps hin hcard
  obtain ⟨s2, hs2, hv2⟩ := draw_pixels_spec t0 qs hin2 hcard2
  refine ⟨s1, s2, hs1, hs2, hv1, ?_⟩
  intro hsame x hx y hy
  rw [hv1 x hx y hy, hv2 x hx y hy, hsame x hx y hy]

/-- Witness of C15: a white then a black write to `(0, 0)` and a black write
to `(25, 3)`, once touching tile `(0, 0)` first and once tile `(1, 0)` first,
from different initial globals. -/
theorem framebuffer_last_write_wins_witness :
    ∃ s1 s2,
      draw_pixels (clear_block_map zero_state) [(0, 0, 1), (25, 3, 0), (0, 0, 0)]
        = Except.ok (s1, []) ∧
      draw_pixels (clear_block_map full_state) [(25, 3, 0), (0, 0, 1), (0, 0, 0)]
        = Except.ok (s2, []) ∧
      (∀ x < GDISP_SCREEN_WIDTH, ∀ y < GDISP_SCREEN_HEIGHT,
        virtual_pixel s1 x y = spec_pixel [(0, 0, 1), (25, 3, 0), (0, 0, 0)] x y) ∧
      ∀ x < GDISP_SCREEN_WIDTH, ∀ y < GDISP_SCREEN_HEIGHT,
        virtual_pixel s2 x y = virtual_pixel s1 x y := by
  obtain ⟨s1, s2, h1, h2, h3, h4⟩ := framebuffer_last_write_wins zero_state full_state
    [(0, 0, 1), (25, 3, 0), (0, 0, 0)] [(25, 3, 0), (0, 0, 1), (0, 0, 0)]
    (by decide) (by decide) (by decide) (by decide)
  refine ⟨s1, s2, h1, h2, h3, h4 ?_⟩
  intro x _ y _
  by_cases ha : x = 0 ∧ y = 0
  · obtain ⟨hx0, hy0⟩ := ha
    subst hx0 hy0
    rfl
  · by_cases hb : x = 25 ∧ y = 3
    · obtain ⟨hx0, hy0⟩ := hb
      subst hx0 hy0
      rfl
    · have hna : ¬ ((0 : Nat) = x ∧ (0 : Nat) = y) := fun h => ha ⟨h.1.symm, h.2.symm⟩
      have hnb : ¬ ((25 : Nat) = x ∧ (3 : Nat) = y) := fun h => hb ⟨h.1.symm, h.2.symm⟩
      unfold spec_pixel
      simp only [last_write, hna, hnb, if_false]

/-! ## The cache invariant for every pool size -/

theorem alloc_buffer_flush_n_default (s : State) :
    alloc_buffer_flush_n EINK_NUMBUFFERS s = alloc_buffer_flush s := rfl

theorem alloc_buffer_n_default (s : State) (bx by_ : Nat) :
    alloc_buffer_n EINK_NUMBUFFERS s bx by_ = alloc_buffer s bx by_ := rfl

theorem draw_pixel_n_default (s : State) (x y : Int) (color : Nat) :
    gdisp_lld_draw_pixel_n EINK_NUMBUFFERS s x y color = gdisp_lld_draw_pixel s x y color := rfl

theorem apply_op_n_default (s : State) (op : Op) :
    apply_op_n EINK_NUMBUFFERS s op = apply_op s op := by
  cases op <;> rfl

theorem run_ops_n_default (ops : List Op) :
    ∀ s, run_ops_n EINK_NUMBUFFERS s ops = run_ops s ops := by
  induction ops with
  | nil => intro s; rfl
  | cons op rest ih =>
    intro s
    rw [run_ops_n, run_ops, apply_op_n_default]
    cases apply_op s op with
    | error f => rfl
    | ok s1 => exact ih s1

theorem CacheInvN_default (s : State) : CacheInvN EINK_NUMBUFFERS s ↔ CacheInv s := Iff.rfl

theorem CacheInvN.of_same_cache (n : Nat) (s s2 : State) (h : CacheInvN n s)
    (hmap : s2.g_blockmap = s.g_blockmap) (hcur : s2.g_next_block = s.g_next_block) :
    CacheInvN n s2 := by
  unfold CacheInvN SlotUnshared at *
  rw [hmap, hcur]
  exact h

theorem CacheInvN.of_cleared (n : Nat) (s : State) (h : CacheEmpty s) : CacheInvN n s := by
  obtain ⟨hmap, hcur⟩ := h
  refine ⟨by rw [hcur]; exact Nat.zero_le _, ?_, ?_, ?_⟩
  · intro by_ hby bx hbx
    rw [hmap by_ hby bx hbx]
    exact Nat.zero_le _
  · intro k hk
    rw [hcur] at hk
    exact absurd hk (Nat.not_lt_zero k)
  · intro by_ hby bx hbx by2 _ bx2 _ hne
    exact absurd (hmap by_ hby bx hbx) hne

theorem CacheInvN.take_slot (n : Nat) (s : State) (h : CacheInvN n s) (by_ bx : Nat)
    (hby : by_ < BLOCKS_Y) (hbx : bx < BLOCKS_X) (hfree : s.g_blockmap by_ bx = 0)
    (hroom : s.g_next_block < n) (g : Nat → Nat → Nat → Nat) (d : GDISPDriver) :
    CacheInvN n { g_next_block := s.g_next_block + 1,
                  g_blockmap := set2 s.g_blockmap by_ bx (s.g_next_block + 1),
                  g_blocks := g, GDISP := d } := by
  obtain ⟨_, hle, hsurj, huniq⟩ := h
  refine ⟨hroom, ?_, ?_, ?_⟩
  · intro b2 hb2 x2 hx2
    show set2 s.g_blockmap by_ bx (s.g_next_block + 1) b2 x2 ≤ s.g_next_block + 1
    rw [set2_apply]
    split_ifs
    · exact Nat.le_refl _
    · exact Nat.le_succ_of_le (hle b2 hb2 x2 hx2)
  · intro k hk
    have hk2 : k < s.g_next_block + 1 := hk
    by_cases hkn : k = s.g_next_block
    · refine ⟨by_, hby, bx, hbx, ?_⟩
      show set2 s.g_blockmap by_ bx (s.g_next_block + 1) by_ bx = k + 1
      rw [set2_apply, if_pos ⟨rfl, rfl⟩, hkn]
    · obtain ⟨b2, hb2, x2, hx2, he⟩ := hsurj k (by omega)
      refine ⟨b2, hb2, x2, hx2, ?_⟩
      show set2 s.g_blockmap by_ bx (s.g_next_block + 1) b2 x2 = k + 1
      rw [set2_apply]
      have hne : ¬ (b2 = by_ ∧ x2 = bx) := by
        rintro ⟨h1, h2⟩
        rw [h1, h2, hfree] at he
        omega
      rw [if_neg hne]
      exact he
  · intro b1 hb1 x1 hx1 b2 hb2 x2 hx2 hne heq
    have hne2 : set2 s.g_blockmap by_ bx (s.g_next_block + 1) b1 x1 ≠ 0 := hne
    have heq2 : set2 s.g_blockmap by_ bx (s.g_next_block + 1) b1 x1
        = set2 s.g_blockmap by_ bx (s.g_next_block + 1) b2 x2 := heq
    rw [set2_apply] at hne2
    rw [set2_apply, set2_apply] at heq2
    have hl1 := hle b1 hb1 x1 hx1
    have hl2 := hle b2 hb2 x2 hx2
    by_cases c1 : b1 = by_ ∧ x1 = bx <;> by_cases c2 : b2 = by_ ∧ x2 = bx
    · exact ⟨c1.1.trans c2.1.symm, c1.2.trans c2.2.symm⟩
    · rw [if_pos c1, if_neg c2] at heq2
      omega
    · rw [if_neg c1, if_pos c2] at heq2
      omega
    · rw [if_neg c1] at hne2
      rw [if_neg c1, if_neg c2] at heq2
      exact huniq b1 hb1 x1 hx1 b2 hb2 x2 hx2 hne2 heq2

theorem alloc_buffer_flush_n_cursor (n : Nat) (s : State) (h1 : 1 ≤ n) :
    (alloc_buffer_flush_n n s).1.g_next_block < n := by
  unfold alloc_buffer_flush_n
  by_cases h : s.g_next_block ≥ n
  · simp only [h, if_true, flush_buffers_state, clear_block_map_eq]
    exact h1
  · simp only [h, if_false]
    omega

theorem alloc_buffer_flush_n_inv (n : Nat) (s : State) (h : CacheInvN n s) (by_ bx : Nat)
    (hby : by_ < BLOCKS_Y) (hbx : bx < BLOCKS_X) (hfree : s.g_blockmap by_ bx = 0) :
    CacheInvN n (alloc_buffer_flush_n n s).1 ∧
      (alloc_buffer_flush_n n s).1.g_blockmap by_ bx = 0 := by
  unfold alloc_buffer_flush_n
  by_cases hcap : s.g_next_block ≥ n
  · simp only [hcap, if_true, flush_buffers_state]
    exact ⟨CacheInvN.of_cleared n _ (clear_block_map_empty s),
      (clear_block_map_empty s).1 by_ hby bx hbx⟩
  · simp only [hcap, if_false]
    exact ⟨h, hfree⟩

theorem alloc_buffer_n_resident (n : Nat) (s : State) (bx by_ : Nat)
    (h : s.g_blockmap by_ bx ≠ 0) :
    alloc_buffer_n n s bx by_ = ⟨s, [], s.g_blockmap by_ bx - 1⟩ := by
  unfold alloc_buffer_n
  simp [h]

theorem alloc_buffer_n_fresh (n : Nat) (s : State) (bx by_ : Nat) (h1 : 1 ≤ n) (h2 : n ≤ 254)
    (h : s.g_blockmap by_ bx = 0) :
    alloc_buffer_n n s bx by_ =
      ⟨{ g_next_block := (alloc_buffer_flush_n n s).1.g_next_block + 1,
         g_blockmap := set2 (alloc_buffer_flush_n n s).1.g_blockmap by_ bx
           ((alloc_buffer_flush_n n s).1.g_next_block + 1),
         g_blocks := fun a b c =>
           if a = (alloc_buffer_flush_n n s).1.g_next_block ∧ b < EINK_BLOCKHEIGHT
              ∧ c < WIDTH_BYTES
           then 0 else (alloc_buffer_flush_n n s).1.g_blocks a b c,
         GDISP := (alloc_buffer_flush_n n s).1.GDISP },
       (alloc_buffer_flush_n n s).2, (alloc_buffer_flush_n n s).1.g_next_block⟩ := by
  have hlt := alloc_buffer_flush_n_cursor n s h1
  have hmod : ((alloc_buffer_flush_n n s).1.g_next_block + 1) % 256
      = (alloc_buffer_flush_n n s).1.g_next_block + 1 := by
    apply Nat.mod_eq_of_lt
    omega
  unfold alloc_buffer_n
  simp only [h, if_true, zero_block_eq, hmod]

theorem draw_pixel_n_in_bounds (n : Nat) (s : State) (x y color : Nat)
    (hx : x < GDISP_SCREEN_WIDTH) (hy : y < GDISP_SCREEN_HEIGHT) :
    gdisp_lld_draw_pixel_n n s x y color =
      if (alloc_buffer_n n s (x / EINK_BLOCKWIDTH) (y / EINK_BLOCKHEIGHT)).result < n then
        Except.ok
          ({ (alloc_buffer_n n s (x / EINK_BLOCKWIDTH) (y / EINK_BLOCKHEIGHT)).state with
              g_blocks := set3
                (alloc_buffer_n n s (x / EINK_BLOCKWIDTH) (y / EINK_BLOCKHEIGHT)).state.g_blocks
                (alloc_buffer_n n s (x / EINK_BLOCKWIDTH) (y / EINK_BLOCKHEIGHT)).result
                (y % EINK_BLOCKHEIGHT) (x % EINK_BLOCKWIDTH / EINK_PPB)
                (stored_byte
                  ((alloc_buffer_n n s (x / EINK_BLOCKWIDTH) (y / EINK_BLOCKHEIGHT)).state.g_blocks
                    (alloc_buffer_n n s (x / EINK_BLOCKWIDTH) (y / EINK_BLOCKHEIGHT)).result
                    (y % EINK_BLOCKHEIGHT) (x % EINK_BLOCKWIDTH / EINK_PPB))
                  (bitpos_of (x % EINK_BLOCKWIDTH)) color) },
           (alloc_buffer_n n s (x / EINK_BLOCKWIDTH) (y / EINK_BLOCKHEIGHT)).events)
      else
        Except.error
          ⟨(alloc_buffer_n n s (x / EINK_BLOCKWIDTH) (y / EINK_BLOCKHEIGHT)).state,
           (alloc_buffer_n n s (x / EINK_BLOCKWIDTH) (y / EINK_BLOCKHEIGHT)).events,
           (alloc_buffer_n n s (x / EINK_BLOCKWIDTH) (y / EINK_BLOCKHEIGHT)).result,
           y % EINK_BLOCKHEIGHT, x % EINK_BLOCKWIDTH / EINK_PPB⟩ := by
  have hx2 : x < 4294967296 := by simp only [GDISP_SCREEN_WIDTH] at hx; omega
  have hy2 : y < 4294967296 := by simp only [GDISP_SCREEN_HEIGHT] at hy; omega
  have hbx : ¬ (x / EINK_BLOCKWIDTH ≥ BLOCKS_X) := by
    simp only [GDISP_SCREEN_WIDTH] at hx
    simp only [EINK_BLOCKWIDTH, BLOCKS_X, GDISP_SCREEN_WIDTH]
    omega
  have hby : ¬ (y / EINK_BLOCKHEIGHT ≥ BLOCKS_Y) := by
    simp only [GDISP_SCREEN_HEIGHT] at hy
    simp only [EINK_BLOCKHEIGHT, BLOCKS_Y, GDISP_SCREEN_HEIGHT]
    omega
  have hdy : y % EINK_BLOCKHEIGHT < EINK_BLOCKHEIGHT := Nat.mod_lt _ (by decide)
  have hdx : x % EINK_BLOCKWIDTH / EINK_PPB < WIDTH_BYTES := by
    simp only [EINK_BLOCKWIDTH, EINK_PPB, WIDTH_BYTES]
    omega
  have hbp : (6 - 2 * (x % EINK_BLOCKWIDTH % EINK_PPB)) % 256 = bitpos_of (x % EINK_BLOCKWIDTH) := by
    unfold bitpos_of
    apply Nat.mod_eq_of_lt
    omega
  unfold gdisp_lld_draw_pixel_n
  simp only [toUnsigned_tdiv _ _ hx2, toUnsigned_tdiv _ _ hy2, toUnsigned_tmod _ _ hx2,
    toUnsigned_tmod _ _ hy2, hbx, hby, Nat.not_lt_zero, or_self, if_false, hdy, hdx, and_true,
    hbp, stored_byte]

theorem draw_pixel_n_keeps_inv (n : Nat) (s : State) (x y color : Nat)
    (h1 : 1 ≤ n) (h2 : n ≤ 254) (h : CacheInvN n s)
    (hx : x < GDISP_SCREEN_WIDTH) (hy : y < GDISP_SCREEN_HEIGHT) :
    ∃ s2 tr, gdisp_lld_draw_pixel_n n s x y color = Except.ok (s2, tr) ∧ CacheInvN n s2 := by
  have ht := tile_lt x y hx hy
  rw [draw_pixel_n_in_bounds n s x y color hx hy]
  by_cases hm : s.g_blockmap (y / EINK_BLOCKHEIGHT) (x / EINK_BLOCKWIDTH) = 0
  · have hlt := alloc_buffer_flush_n_cursor n s h1
    obtain ⟨hinv1, hfree1⟩ := alloc_buffer_flush_n_inv n s h _ _ ht.1 ht.2 hm
    rw [alloc_buffer_n_fresh n s _ _ h1 h2 hm]
    simp only [hlt, if_true]
    exact ⟨_, _, rfl, CacheInvN.take_slot n _ hinv1 _ _ ht.1 ht.2 hfree1 hlt _ _⟩
  · have hle : s.g_blockmap (y / EINK_BLOCKHEIGHT) (x / EINK_BLOCKWIDTH) ≤ n :=
      le_trans (h.2.1 _ ht.1 _ ht.2) h.1
    have hlt : s.g_blockmap (y / EINK_BLOCKHEIGHT) (x / EINK_BLOCKWIDTH) - 1 < n := by omega
    rw [alloc_buffer_n_resident n s _ _ hm]
    simp only [hlt, if_true]
    exact ⟨_, _, rfl, CacheInvN.of_same_cache n s _ h rfl rfl⟩

theorem control_keeps_inv_n (n : Nat) (s : State) (what : Nat) (value : gdisp_powermode_t)
    (h : CacheInvN n s) : CacheInvN n (gdisp_lld_control s what value).1 := by
  unfold gdisp_lld_control
  by_cases hw : what = GDISP_CONTROL_POWER
  · simp only [hw, if_true]
    by_cases hsame : s.GDISP.Powermode = value
    · simp only [hsame, if_true]
      exact h
    · simp only [hsame, if_false]
      by_cases hon : value = gdisp_powermode_t.powerOn
      · simp only [hon, if_true]
        exact CacheInvN.of_same_cache n s _ h rfl rfl
      · simp only [hon, if_false]
        exact CacheInvN.of_same_cache n (clear_block_map s) _
          (CacheInvN.of_cleared n _ (clear_block_map_empty s)) rfl rfl
  · simp only [hw, if_false]
    by_cases hf : what = GDISP_CONTROL_FLUSH
    · simp only [hf, if_true]
      exact CacheInvN.of_cleared n _ (clear_block_map_empty s)
    · simp only [hf, if_false]
      exact h

theorem apply_op_n_keeps_inv (n : Nat) (s : State) (op : Op) (h1 : 1 ≤ n) (h2 : n ≤ 254)
    (h : CacheInvN n s) (hop : op_in_panel op) :
    ∃ s2, apply_op_n n s op = Except.ok s2 ∧ CacheInvN n s2 := by
  cases op with
  | draw_pixel x y color =>
    obtain ⟨s2, tr, hs2, hinv2⟩ := draw_pixel_n_keeps_inv n s x y color h1 h2 h hop.1 hop.2
    refine ⟨s2, ?_, hinv2⟩
    simp only [apply_op_n, hs2]
  | control what value => exact ⟨_, rfl, control_keeps_inv_n n s what value h⟩
  | clear color => exact ⟨_, rfl, CacheInvN.of_cleared n _ (clear_block_map_empty s)⟩

theorem run_ops_n_keeps_inv (n : Nat) (h1 : 1 ≤ n) (h2 : n ≤ 254) (ops : List Op) :
    ∀ s, CacheInvN n s → (∀ op ∈ ops, op_in_panel op) →
      ∃ s2, run_ops_n n s ops = Except.ok s2 ∧ CacheInvN n s2 := by
  induction ops with
  | nil =>
    intro s h _
    exact ⟨s, rfl, h⟩
  | cons op rest ih =>
    intro s h hops
    obtain ⟨s1, hs1, hinv1⟩ :=
      apply_op_n_keeps_inv n s op h1 h2 h (hops op (List.mem_cons_self op rest))
    obtain ⟨s2, hs2, hinv2⟩ := ih s1 hinv1 (fun o ho => hops o (List.mem_cons_of_mem op ho))
    refine ⟨s2, ?_, hinv2⟩
    simp only [run_ops_n, hs1, hs2]

theorem init_inv_n (n : Nat) (s0 : State) : CacheInvN n (gdisp_lld_init s0).1 :=
  CacheInvN.of_same_cache n (clear_block_map s0) _
    (CacheInvN.of_cleared n _ (clear_block_map_empty s0)) rfl rfl

theorem resident_count_eq_n (n : Nat) (s : State) (h : CacheInvN n s) :
    resident_count s = s.g_next_block := by
  obtain ⟨_, hle, hsurj, huniq⟩ := h
  unfold resident_count
  rw [← Finset.card_range s.g_next_block]
  refine Finset.card_bij (fun p _ => s.g_blockmap p.1 p.2 - 1) ?_ ?_ ?_
  · intro p hp
    rw [Finset.mem_filter, Finset.mem_product, Finset.mem_range, Finset.mem_range] at hp
    rw [Finset.mem_range]
    show s.g_blockmap p.1 p.2 - 1 < s.g_next_block
    have := hle p.1 hp.1.1 p.2 hp.1.2
    have hne := hp.2
    omega
  · intro p hp q hq heq
    rw [Finset.mem_filter, Finset.mem_product, Finset.mem_range, Finset.mem_range] at hp hq
    have hpq : s.g_blockmap p.1 p.2 = s.g_blockmap q.1 q.2 := by
      have h1 := hp.2
      have h2 := hq.2
      have heq2 : s.g_blockmap p.1 p.2 - 1 = s.g_blockmap q.1 q.2 - 1 := heq
      omega
    have := huniq p.1 hp.1.1 p.2 hp.1.2 q.1 hq.1.1 q.2 hq.1.2 hp.2 hpq
    exact Prod.ext this.1 this.2
  · intro k hk
    rw [Finset.mem_range] at hk
    obtain ⟨b, hb, x, hx, he⟩ := hsurj k hk
    refine ⟨(b, x), ?_, ?_⟩
    · rw [Finset.mem_filter, Finset.mem_product, Finset.mem_range, Finset.mem_range]
      refine ⟨⟨hb, hx⟩, ?_⟩
      show s.g_blockmap b x ≠ 0
      omega
    · show s.g_blockmap b x - 1 = k
      omega

theorem draw_pixel_n_empty_pool :
    ∃ f, gdisp_lld_draw_pixel_n 0 zero_state 0 0 1 = Except.error f ∧ f.slot = 0 :=
  ⟨_, rfl, rfl⟩

/-- C14: for every pool size `numbuffers` (the option `EINK_NUMBUFFERS`) with
`1 <= numbuffers <= 254`, in every state reached from `gdisp_lld_init` by a
sequence of public operations (`draw_pixel` at coordinates inside the panel,
`control`, `clear`) every operation returns and: `g_next_block <= numbuffers`;
the number of non-zero block-map entries equals `g_next_block`; the non-zero
entries are exactly the values `1 .. g_next_block` (each is at most the
cursor, each value is taken), no two tiles share one, and every non-zero entry
indexes inside `g_blocks`.  At `numbuffers = EINK_NUMBUFFERS` the functions
are those of the default configuration. -/
theorem cache_invariant_reachable (numbuffers : Nat) (s0 : State) (ops : List Op)
    (hmin : 1 ≤ numbuffers) (hmax : numbuffers ≤ 254)
    (hops : ∀ op ∈ ops, op_in_panel op) :
    (∀ s x y color,
      gdisp_lld_draw_pixel_n EINK_NUMBUFFERS s x y color = gdisp_lld_draw_pixel s x y color) ∧
    (∀ s l, run_ops_n EINK_NUMBUFFERS s l = run_ops s l) ∧
    ∃ s, run_ops_n numbuffers (gdisp_lld_init s0).1 ops = Except.ok s ∧
      s.g_next_block ≤ numbuffers ∧
      resident_count s = s.g_next_block ∧
      (∀ by_ < BLOCKS_Y, ∀ bx < BLOCKS_X, s.g_blockmap by_ bx ≤ s.g_next_block) ∧
      (∀ k < s.g_next_block, ∃ by_ < BLOCKS_Y, ∃ bx < BLOCKS_X, s.g_blockmap by_ bx = k + 1) ∧
      (∀ by_ < BLOCKS_Y, ∀ bx < BLOCKS_X, ∀ by2 < BLOCKS_Y, ∀ bx2 < BLOCKS_X,
        s.g_blockmap by_ bx ≠ 0 → s.g_blockmap by_ bx = s.g_blockmap by2 bx2 →
          by_ = by2 ∧ bx = bx2) ∧
      (∀ by_ < BLOCKS_Y, ∀ bx < BLOCKS_X,
        s.g_blockmap by_ bx ≠ 0 → s.g_blockmap by_ bx - 1 < numbuffers) := by
  refine ⟨fun _ _ _ _ => rfl, fun s l => run_ops_n_default l s, ?_⟩
  obtain ⟨s, hs, hinv⟩ :=
    run_ops_n_keeps_inv numbuffers hmin hmax ops _ (init_inv_n numbuffers s0) hops
  refine ⟨s, hs, hinv.1, resident_count_eq_n numbuffers s hinv, hinv.2.1, hinv.2.2.1,
    hinv.2.2.2, ?_⟩
  intro by_ hby bx hbx hne
  have h1 := hinv.2.1 by_ hby bx hbx
  have h2 := hinv.1
  omega

theorem sample_ops_in_panel : ∀ op ∈ sample_ops, op_in_panel op := by
  intro op hop
  simp only [sample_ops, List.mem_cons, List.mem_singleton, List.mem_nil_iff, or_false] at hop
  rcases hop with h | h | h | h | h | h | h | h | h <;> subst h <;> trivial

/-- Witness of C14: the operations of `sample_ops` from the zero-initialised
globals, at the smallest pool size 1, at the default size `EINK_NUMBUFFERS`
and at the largest size 254. -/
theorem cache_invariant_reachable_witness :
    (∃ s, run_ops_n 1 (gdisp_lld_init zero_state).1 sample_ops = Except.ok s ∧
      s.g_next_block ≤ 1 ∧ resident_count s = s.g_next_block) ∧
    (∃ s, run_ops (gdisp_lld_init zero_state).1 sample_ops = Except.ok s ∧
      s.g_next_block ≤ EINK_NUMBUFFERS ∧ resident_count s = s.g_next_block) ∧
    (∃ s, run_ops_n 254 (gdisp_lld_init zero_state).1 sample_ops = Except.ok s ∧
      s.g_next_block ≤ 254 ∧ resident_count s = s.g_next_block) := by
  obtain ⟨_, _, s1, hs1, ha1, hb1, _⟩ := cache_invariant_reachable 1 zero_state sample_ops
    (by decide) (by decide) sample_ops_in_panel
  obtain ⟨_, hrun, s2, hs2, ha2, hb2, _⟩ := cache_invariant_reachable EINK_NUMBUFFERS zero_state
    sample_ops (by decide) (by decide) sample_ops_in_panel
  obtain ⟨_, _, s3, hs3, ha3, hb3, _⟩ := cache_invariant_reachable 254 zero_state sample_ops
    (by decide) (by decide) sample_ops_in_panel
  rw [hrun] at hs2
  exact ⟨⟨s1, hs1, ha1, hb1⟩, ⟨s2, hs2, ha2, hb2⟩, ⟨s3, hs3, ha3, hb3⟩⟩

end ED060SC4
